import Mathlib

/-!
The router `compass`: route templates and the match tree.

A shallow embedding of `handler/handler.go`, `matcher/matcher.go` and `compass.go` of
`mustafaturan/compass`, followed by theorems about templates, registration, lookup and
dispatch.

Conventions of the embedding.

* A Go `map[string]V` is an association list `List (String × V)` with unique
  keys; `mapGet` is the indexing expression `m[k]` with the comma-ok result and
  `mapSet` is the assignment `m[k] = v`.
* A Go `string` is a Lean `String`. The source reads bytes, and only to compare them with
  `/` and `:`; on UTF-8 text these tests and the slices taken at them agree with the same
  tests on characters.
* A Go pointer that may be nil is an `Option`.
* A function that can stop with a run-time panic returns an `Option` whose
  `none` is the panic.
* `search` and `insert` receive `(segments, index)` in Go and only ever read
  `segments[index]` and compare `len(segments)` with `index` and `index+1`; the
  pair is represented by the remaining suffix `segments[index:]`.
* The `*node` returned by `insert` is represented by the list of map keys that
  leads to it from the node `insert` was called on.
* An `http.Handler` is known by its identity, a number; an interceptor is the function that
  its method `Middleware` computes on handlers.
-/

namespace Compass

/-! ## Go maps -/

/-- Map indexing `m[k]` with the comma-ok result. -/
def mapGet {α : Type} : List (String × α) → String → Option α
  | [], _ => none
  | (k, v) :: rest, key => if k = key then some v else mapGet rest key

/-- Map assignment `m[k] = v`. -/
def mapSet {α : Type} : List (String × α) → String → α → List (String × α)
  | [], key, v => [(key, v)]
  | (k, w) :: rest, key, v =>
    if k = key then (k, v) :: rest else (k, w) :: mapSet rest key v

/-! ## handler/handler.go -/

/-- The `http.Handler` carried by a route; only its identity matters here. -/
abbrev HTTPHandler := Nat

/-- Go `type Handler struct`. -/
structure Handler where
  HTTPHandler : HTTPHandler
  segments : List String
  params : List (String × Nat)
  deriving DecidableEq, Repr

/-- Go `separator`. -/
def separator : Char := '/'

/-- Go `paramInitialChar`. -/
def paramInitialChar : Char := ':'

/-- Outcome of `handler.New`: a template, an `error` value, or a run-time panic. -/
inductive NewResult where
  | ok (h : Handler)
  | error (msg : String)
  | panic
  deriving DecidableEq, Repr

/-- State of the outer `for` loop of `New`: the slice `segments` and the map `params`. -/
structure SplitState where
  segments : List String
  params : List (String × Nat)
  deriving DecidableEq, Repr

/-- The statements of `New` that follow the inner scan, for `segment := path[start:i]`:
`segment[0]` panics on an empty segment, a segment starting with `:` is recorded in
`params` under `segment[1:]` at position `len(segments)`, and the segment is appended. -/
def addSegment (st : SplitState) (segment : List Char) : Option SplitState :=
  match segment with
  | [] => none
  | c :: name =>
    let params :=
      if c = paramInitialChar then mapSet st.params (String.mk name) st.segments.length
      else st.params
    some { segments := st.segments ++ [String.mk segment], params := params }

/-- The loops of `New` over `path[i:]`. `cur` is `path[start:i]`, the part of the current
segment scanned so far. The inner loop advances over a character that is not the
separator; at the separator or at the end of the path the segment is closed, and the
outer loop's `i++` steps over the separator. -/
def splitLoop : List Char → List Char → SplitState → Option SplitState
  | [], cur, st => addSegment st cur
  | c :: rest, cur, st =>
    if c = separator then
      match addSegment st cur with
      | none => none
      | some st1 =>
        match rest with
        | [] => some st1
        | _ :: _ => splitLoop rest [] st1
    else splitLoop rest (cur ++ [c]) st

/-- Go `func New(path string, h http.Handler) (*Handler, error)`. -/
def New (path : String) (h : Option HTTPHandler) : NewResult :=
  match path.data with
  | [] => .error "path can't be empty"
  | c :: rest =>
    if c ≠ '/' then .error "path must start with '/' char"
    else
      match h with
      | none => .error "handler can't be nil"
      | some hh =>
        match rest with
        | [] => .ok { HTTPHandler := hh, segments := [""], params := [] }
        | _ :: _ =>
          match splitLoop rest [] { segments := [], params := [] } with
          | none => .panic
          | some st => .ok { HTTPHandler := hh, segments := st.segments, params := st.params }

/-- Go `func (h *Handler) Segments() []string`. -/
def Handler.Segments (h : Handler) : List String := h.segments

/-- The loop of `Params` over the entries of `h.params`; `segments[index]` panics when
`index` is out of range. -/
def paramsLoop (segments : List String) :
    List (String × Nat) → List (String × String) → Option (List (String × String))
  | [], params => some params
  | (name, index) :: rest, params =>
    match segments.get? index with
    | none => none
    | some v => paramsLoop segments rest (mapSet params name v)

/-- Go `func (h *Handler) Params(segments []string) map[string]string`. -/
def Handler.Params (h : Handler) (segments : List String) : Option (List (String × String)) :=
  paramsLoop segments h.params []

/-! ## matcher/matcher.go -/

/-- Go `pathvar`. -/
def pathvar : String := ":"

/-- Go `type node struct`: the bound handler (nil when none) and the children. -/
inductive node where
  | mk (handler : Option Handler) (nodes : List (String × node))

/-- Field `handler` of a node. -/
def node.handler : node → Option Handler
  | .mk h _ => h

/-- Field `nodes` of a node. -/
def node.nodes : node → List (String × node)
  | .mk _ cs => cs

/-- Go `&node{nodes: make(map[string]*node)}`. -/
def node.fresh : node := .mk none []

/-- Go `type Matcher struct`. -/
structure Matcher where
  nodes : List (String × node)

/-- The method tokens of `net/http` used by `matcher.New`, in the order of the source. -/
def methods : List String :=
  ["GET", "HEAD", "POST", "PUT", "PATCH", "DELETE", "CONNECT", "OPTIONS", "TRACE"]

/-- Go `func New() *Matcher`. -/
def Matcher.New : Matcher :=
  { nodes := methods.map fun m => (m, node.fresh) }

/-- Go `func (n *node) search(segments []string, index int, pn *node)`. The receiver may be
nil; `pn` is the value of `pn.handler` on entry and the result is its value on return. -/
def node.search : Option node → List String → Option Handler → Option Handler
  | n, [], pn =>
    match pn with
    | some h => some h
    | none =>
      match n with
      | none => pn
      | some n => n.handler
  | n, segment :: rest, pn =>
    match pn with
    | some h => some h
    | none =>
      match n with
      | none => pn
      | some n =>
        let pn1 := node.search (mapGet n.nodes segment) rest pn
        node.search (mapGet n.nodes pathvar) rest pn1

/-- Go `func (m *Matcher) Find(method string, segments []string) (*chandler.Handler, bool)`.
With no segments the method root is dereferenced, which panics for a missing root. -/
def Matcher.Find (m : Matcher) (method : String) (segments : List String) :
    Option (Option Handler × Bool) :=
  match segments with
  | [] =>
    match mapGet m.nodes method with
    | none => none
    | some root => some (root.handler, root.handler.isSome)
  | _ :: _ =>
    let pn := node.search (mapGet m.nodes method) segments none
    some (pn, pn.isSome)

/-- The test `len(segment) > 0 && segment[0] == pathvar[0]` of `insert`: the segment is a
parameter segment. -/
def isParam (segment : String) : Bool :=
  match segment.data with
  | [] => false
  | c :: _ => decide (c = ':')

/-- The key computed at the head of `insert`: a parameter segment is replaced by `pathvar`. -/
def segmentKey (segment : String) : String :=
  if isParam segment then pathvar else segment

/-- The test `n.nodes[pathvar] != nil && n.nodes[pathvar].handler != nil` of `insert`. -/
def node.wildcardBound (n : node) : Bool :=
  match mapGet n.nodes pathvar with
  | none => false
  | some w => w.handler.isSome

/-- Go `func (n *node) insert(segments []string, index int) *node`. The result is the tree
below the receiver after the call and the keys leading from the receiver to the returned
node. -/
def node.insert : node → List String → node × List String
  | n, [] => (n, [])
  | n, seg :: rest =>
    let segment := segmentKey seg
    match mapGet n.nodes segment with
    | some next =>
      let r := node.insert next rest
      (.mk n.handler (mapSet n.nodes segment r.1), segment :: r.2)
    | none =>
      if segment ≠ pathvar ∧ n.wildcardBound = true ∧ rest = [] then
        (n, [pathvar])
      else
        let r := node.insert node.fresh rest
        (.mk n.handler (mapSet n.nodes segment r.1), segment :: r.2)

/-- Dereference of the node reached from `n` through the keys `path`. -/
def node.at : node → List String → Option node
  | n, [] => some n
  | n, k :: rest =>
    match mapGet n.nodes k with
    | none => none
    | some c => node.at c rest

/-- The assignment `n.handler = h` through the pointer `path` into the tree below `n`. -/
def node.bind : node → List String → Handler → node
  | n, [], h => .mk (some h) n.nodes
  | n, k :: rest, h =>
    match mapGet n.nodes k with
    | none => n
    | some c => .mk n.handler (mapSet n.nodes k (node.bind c rest h))

/-- Go `func (m *Matcher) Register(method string, h *chandler.Handler) error`, for a non-nil
`h`. The result is the matcher after the call and the returned `error` (`none` for nil);
the call panics on a method without a root. -/
def Matcher.Register (m : Matcher) (method : String) (h : Handler) :
    Option (Matcher × Option String) :=
  match mapGet m.nodes method with
  | none => none
  | some root =>
    let r := node.insert root h.Segments
    match node.at r.1 r.2 with
    | none => none
    | some n =>
      match n.handler with
      | some _ =>
        some ({ nodes := mapSet m.nodes method r.1 },
          some "path is already registered for another handler")
      | none =>
        some ({ nodes := mapSet m.nodes method (node.bind r.1 r.2 h) }, none)

/-! ## compass.go -/

/-- Go `func (r *router) registerHandler(method, path string, handler http.Handler) error`,
on the router's matcher. -/
def registerHandler (m : Matcher) (method path : String) (handler : Option HTTPHandler) :
    Option (Matcher × Option String) :=
  match New path handler with
  | .panic => none
  | .error msg => some (m, some msg)
  | .ok h => m.Register method h

/-! ## Histories of registrations -/

/-- The error returned by `Register` for a node that already has a handler. -/
def duplicateRoute : String := "path is already registered for another handler"

/-- One `Register` call applied to a matcher and the log of the calls that returned a nil
error so far (latest first). -/
def registerStep (st : Matcher × List (String × Handler)) (c : String × Handler) :
    Option (Matcher × List (String × Handler)) :=
  match st.1.Register c.1 c.2 with
  | none => none
  | some (m1, none) => some (m1, c :: st.2)
  | some (m1, some _) => some (m1, st.2)

/-- A sequence of `Register` calls, in order. -/
def registerAll (st : Matcher × List (String × Handler)) :
    List (String × Handler) → Option (Matcher × List (String × Handler))
  | [] => some st
  | c :: cs =>
    match registerStep st c with
    | none => none
    | some st1 => registerAll st1 cs

/-- The keys under which the segments of a template are stored. -/
def keys (segments : List String) : List String := segments.map segmentKey

/-- The handler bound at the node reached through `path`, nil when the node is missing. -/
def node.handlerAt (n : node) (path : List String) : Option Handler :=
  match n.at path with
  | none => none
  | some x => x.handler

/-- A template matches a request: same length, and each template segment is a parameter or
equals the request segment at its position. -/
def matchesPath : List String → List String → Bool
  | [], [] => true
  | a :: t, b :: s => (isParam a || decide (a = b)) && matchesPath t s
  | _, _ => false

/-! ## Example routes -/

/-- The template `New` returns for a path and a handler; a template without segments when
`New` does not return one. -/
def routeOf (path : String) (hh : HTTPHandler) : Handler :=
  match New path (some hh) with
  | .ok t => t
  | _ => { HTTPHandler := hh, segments := [], params := [] }

/-- The state after a sequence of `Register` calls on a new matcher; the new matcher when a
call panics. -/
def stateAfter (calls : List (String × Handler)) : Matcher × List (String × Handler) :=
  match registerAll (Matcher.New, []) calls with
  | some st => st
  | none => (Matcher.New, [])

/-- The matcher after one `Register` call; the matcher itself when the call panics. -/
def matcherAfter (m : Matcher) (method : String) (t : Handler) : Matcher :=
  match m.Register method t with
  | some r => r.1
  | none => m

/-- The node reached through a path; a fresh node when the path is missing. -/
def nodeAt (n : Option node) (path : List String) : node :=
  match n with
  | none => node.fresh
  | some r =>
    match r.at path with
    | some x => x
    | none => node.fresh

/-! ## Definitions used by the statements and proofs -/

/-- The condition under which `insert` returns the wildcard child for a literal segment. -/
def node.aliased (n : node) (seg : String) (rest : List String) : Prop :=
  mapGet n.nodes (segmentKey seg) = none ∧ segmentKey seg ≠ pathvar ∧
    n.wildcardBound = true ∧ rest = []

/-- The child `insert` descends into: the existing one, or a fresh node. -/
def node.child (n : node) (k : String) : node :=
  match mapGet n.nodes k with
  | none => node.fresh
  | some c => c

/-- What holds of a matcher and the log of its successful registrations: a bound handler
sits at the path of its own keys and is logged, a logged handler is bound, and every node
below a root lies on the path of a logged handler. -/
structure Inv (st : Matcher × List (String × Handler)) : Prop where
  bound : ∀ (method : String) (root : node) (q : List String) (h : Handler),
    mapGet st.1.nodes method = some root → root.handlerAt q = some h →
      keys h.segments = q ∧ (method, h) ∈ st.2
  logged : ∀ (method : String) (h : Handler), (method, h) ∈ st.2 →
    ∃ root, mapGet st.1.nodes method = some root ∧ root.handlerAt (keys h.segments) = some h
  onPath : ∀ (method : String) (root : node) (q : List String),
    mapGet st.1.nodes method = some root → (root.at q).isSome = true → q ≠ [] →
      ∃ h, (method, h) ∈ st.2 ∧ q <+: keys h.segments

/-- The key paths `search` tries for a request: at each position the request segment itself
or the wildcard key. -/
def candidate : List String → List String → Prop
  | [], [] => True
  | k :: q, b :: s => (k = b ∨ k = pathvar) ∧ candidate q s
  | _, _ => False

/-- The order in which `search` tries two candidate paths of a request: at the first
position where they differ, the earlier path has the request segment. -/
def triedBefore : List String → List String → List String → Prop
  | a :: q, b :: q1, c :: s => (a = b ∧ triedBefore q q1 s) ∨ (a ≠ b ∧ a = c)
  | _, _, _ => True

/-- The tree below a root after a successful registration of `t`. -/
def node.withRoute (root : node) (t : Handler) : node :=
  (root.insert t.segments).1.bind (keys t.segments) t

/-- The name a template segment declares: the text after the initial `:` of a parameter
segment; a literal segment declares none. -/
def paramName (segment : String) : Option String :=
  match segment.data with
  | [] => none
  | c :: name => if c = paramInitialChar then some (String.mk name) else none

/-- Position `i` is the last position of `segs` whose segment declares `name`. -/
def lastParamAt (segs : List String) (name : String) (i : Nat) : Prop :=
  (∃ seg, segs[i]? = some seg ∧ paramName seg = some name) ∧
    ∀ (j : Nat) (seg : String), segs[j]? = some seg → paramName seg = some name → j ≤ i

/-- The map `params` of a template agrees with its segments. -/
structure ParamsOK (segs : List String) (params : List (String × Nat)) : Prop where
  nodup : (params.map Prod.fst).Nodup
  sound : ∀ (name : String) (i : Nat), mapGet params name = some i → lastParamAt segs name i
  complete : ∀ (seg name : String), seg ∈ segs → paramName seg = some name →
    ∃ i, mapGet params name = some i

/-! ## Go library functions used by the router -/

/-- The loop of Go `strings.Split(s, "/")` over the characters of `s`; `cur` is the piece
scanned so far. A string with `n` separators has `n + 1` pieces. -/
def splitPieces : List Char → List Char → List String
  | [], cur => [String.mk cur]
  | c :: rest, cur =>
    if c = '/' then String.mk cur :: splitPieces rest [] else splitPieces rest (cur ++ [c])

/-- Go `strings.Split(s, "/")`. -/
def stringsSplit (s : List Char) : List String := splitPieces s []

/-- A list of pieces without its last piece when that piece is empty. -/
def dropTrailingEmpty : List String → List String
  | [] => []
  | [p] => if p = "" then [] else [p]
  | p :: q :: rest => p :: dropTrailingEmpty (q :: rest)

/-- The key of a value in a `context.Context`: a key of the type `ctxKey` of this package,
or a key of another type. -/
inductive CtxKey where
  | ctxKey (k : Int)
  | foreign (n : Nat)
  deriving DecidableEq, Repr

/-- A value in a `context.Context`: a `map[string]string`, or a value of another type. -/
inductive CtxValue where
  | params (m : List (String × String))
  | foreign (n : Nat)
  deriving DecidableEq, Repr

/-- Go `context.Context`: the chain of values attached with `WithValue`, latest first. -/
abbrev Context := List (CtxKey × CtxValue)

/-- Go `context.WithValue(ctx, key, val)`. -/
def Context.WithValue (ctx : Context) (key : CtxKey) (val : CtxValue) : Context :=
  (key, val) :: ctx

/-- Go `ctx.Value(key)`: the latest value attached under the key, nil when there is none. -/
def Context.Value : Context → CtxKey → Option CtxValue
  | [], _ => none
  | (k, v) :: rest, key => if k = key then some v else Context.Value rest key

/-- What the router reads of a `*http.Request`: `req.Method`, `req.URL.Scheme`,
`req.URL.Hostname()`, `req.URL.EscapedPath()` and `req.Context()`. -/
structure Request where
  Method : String
  Scheme : String
  Hostname : String
  EscapedPath : String
  ctx : Context
  deriving DecidableEq, Repr

/-! ## compass.go: the router -/

/-- Go `CtxParams`. -/
def CtxParams : CtxKey := .ctxKey 0

/-- Go `matchall`. -/
def matchall : String := "*"

/-- Go `type router struct`. An interceptor is given by its `Middleware` method. -/
structure router where
  interceptors : List (HTTPHandler → HTTPHandler)
  matcher : Matcher
  schemes : List (String × Unit)
  hostnames : List (String × Unit)
  notfound : HTTPHandler
  internalservererror : HTTPHandler

/-- Go `type Option func(*router) error`: the router after the call and the returned
error. -/
abbrev RouterOption := router → router × Option String

/-- The handler returned by `http.NotFoundHandler()`. -/
def NotFoundHandler : HTTPHandler := 404

/-- The handler `chandler.InternalServerError{}`. -/
def InternalServerError : HTTPHandler := 500

/-- The loop of `New` over the options: the first error ends it and no router is
returned. -/
def router.applyOptions : router → List RouterOption → Except String router
  | r, [] => .ok r
  | r, o :: rest =>
    match o r with
    | (r1, none) => router.applyOptions r1 rest
    | (_, some err) => .error err

/-- Go `func New(options ...Option) (Router, error)`. -/
def router.New (options : List RouterOption) : Except String router :=
  router.applyOptions
    { interceptors := [],
      matcher := Matcher.New,
      schemes := [(matchall, ())],
      hostnames := [(matchall, ())],
      notfound := NotFoundHandler,
      internalservererror := InternalServerError } options

/-- Go `func WithInterceptors(interceptors ...cinterceptor.Interceptor) Option`. -/
def WithInterceptors (interceptors : List (HTTPHandler → HTTPHandler)) : RouterOption :=
  fun r => ({ r with interceptors := r.interceptors ++ interceptors }, none)

/-- Go `func Params(ctx context.Context) map[string]string`; the type assertion panics on a
missing value and on a value of another type. -/
def Params (ctx : Context) : Option (List (String × String)) :=
  match ctx.Value CtxParams with
  | some (.params m) => some m
  | _ => none

/-- Go `func (r *router) isAllowedHostname(hostname string) bool`. -/
def router.isAllowedHostname (r : router) (hostname : String) : Bool :=
  match mapGet r.hostnames hostname with
  | some _ => true
  | none => (mapGet r.hostnames matchall).isSome

/-- Go `func (r *router) isAllowedScheme(scheme string) bool`. -/
def router.isAllowedScheme (r : router) (scheme : String) : Bool :=
  match mapGet r.schemes scheme with
  | some _ => true
  | none => (mapGet r.schemes matchall).isSome

/-- Go `func (r *router) match(req *http.Request) (http.Handler, map[string]string)`. The
slice `path[1:]` panics on an empty path; the escaped path is ASCII, so its first byte is
its first character. -/
def router.matchRequest (r : router) (req : Request) :
    Option (HTTPHandler × List (String × String)) :=
  match req.EscapedPath.data with
  | [] => none
  | _ :: rest =>
    let segments := stringsSplit rest
    match r.matcher.Find req.Method segments with
    | none => none
    | some (h, found) =>
      if found then
        match h with
        | none => none
        | some t =>
          match t.Params segments with
          | none => none
          | some params => some (t.HTTPHandler, params)
      else some (r.notfound, [])

/-- The selection of `h, params` in `ServeHTTP`. -/
def router.selectHandler (r : router) (req : Request) :
    Option (HTTPHandler × List (String × String)) :=
  if (!r.isAllowedScheme req.Scheme || !r.isAllowedHostname req.Hostname) = true then
    some (r.notfound, [])
  else r.matchRequest req

/-- The loop of `ServeHTTP` over the interceptors, from the last index down to 0, each step
replacing `h` by `interceptors[i].Middleware(h)`. -/
def router.wrap (r : router) (h : HTTPHandler) : HTTPHandler :=
  r.interceptors.reverse.foldl (fun acc interceptor => interceptor acc) h

/-- The call `h.ServeHTTP(rw, req)` at the end of `ServeHTTP`: the handler and the request
it receives. -/
structure Call where
  handler : HTTPHandler
  request : Request
  deriving DecidableEq, Repr

/-- The statements of Go `func (r *router) ServeHTTP` up to its final call: selection of the
handler, attachment of the parameters to the context of the request, wrapping by the
interceptors. The result is the call it makes; `none` when `match` panics first. -/
def router.dispatch (r : router) (req : Request) : Option Call :=
  match r.selectHandler req with
  | none => none
  | some (h, params) =>
    let ctx := req.ctx.WithValue CtxParams (.params params)
    some { handler := r.wrap h, request := { req with ctx := ctx } }

/-- A router with the given allow-lists and interceptors whose matcher has the given routes
registered under `GET`. -/
def routerWith (schemes hostnames : List String)
    (interceptors : List (HTTPHandler → HTTPHandler)) (routes : List (String × HTTPHandler)) :
    router :=
  { interceptors := interceptors,
    matcher := (stateAfter (routes.map fun p => ("GET", routeOf p.1 p.2))).1,
    schemes := schemes.map fun s => (s, ()),
    hostnames := hostnames.map fun s => (s, ()),
    notfound := NotFoundHandler,
    internalservererror := InternalServerError }

/-! ## compass.go: options and registration operations -/

/-- Go `delete(m, key)`. -/
def mapDelete {α : Type} (l : List (String × α)) (key : String) : List (String × α) :=
  l.filter fun e => decide (e.1 ≠ key)

/-- The loop `for k := range m { delete(m, k) }`. -/
def mapClear {α : Type} (l : List (String × α)) : List (String × α) :=
  (l.map Prod.fst).foldl mapDelete l

/-- The loop `for _, k := range keys { m[k] = struct{}{} }`. -/
def mapSetAll (l : List (String × Unit)) (keys : List String) : List (String × Unit) :=
  keys.foldl (fun m k => mapSet m k ()) l

/-- Go `func WithSchemes(schemes ...string) Option`. -/
def WithSchemes (schemes : List String) : RouterOption :=
  fun r => ({ r with schemes := mapSetAll (mapClear r.schemes) schemes }, none)

/-- Go `func WithHostnames(hostnames ...string) Option`. -/
def WithHostnames (hostnames : List String) : RouterOption :=
  fun r => ({ r with hostnames := mapSetAll (mapClear r.hostnames) hostnames }, none)

/-- Go `func WithHandler(statusCode int, h http.Handler) Option`. -/
def WithHandler (statusCode : Int) (h : Option HTTPHandler) : RouterOption :=
  fun r =>
    match h with
    | none => (r, some "handler can't be nil")
    | some hh =>
      if statusCode = 404 then ({ r with notfound := hh }, none)
      else if statusCode = 500 then ({ r with internalservererror := hh }, none)
      else (r, some ("can't set a default handler for status code " ++ toString statusCode))

/-- The options a caller can build: the type `router` is not exported, so an `Option` comes
from one of the four constructors of the package. -/
inductive OptionCall where
  | schemes (l : List String)
  | hostnames (l : List String)
  | handler (statusCode : Int) (h : Option HTTPHandler)
  | interceptors (l : List (HTTPHandler → HTTPHandler))

/-- The `Option` built by a call of one of the four constructors. -/
def OptionCall.toOption : OptionCall → RouterOption
  | .schemes l => WithSchemes l
  | .hostnames l => WithHostnames l
  | .handler statusCode h => WithHandler statusCode h
  | .interceptors l => WithInterceptors l

/-- Go `func (r *router) registerHandler(method, path string, handler http.Handler) error`:
the router after the call and the returned error. -/
def router.registerHandler (r : router) (method path : String)
    (handler : Option HTTPHandler) : Option (router × Option String) :=
  match Compass.registerHandler r.matcher method path handler with
  | none => none
  | some (m, err) => some ({ r with matcher := m }, err)

/-- Go `func (r *router) Get(path string, handler http.Handler) error`. -/
def router.Get (r : router) (path : String) (handler : Option HTTPHandler) :
    Option (router × Option String) :=
  r.registerHandler "GET" path handler

/-- Go `func (r *router) Head(path string, handler http.Handler) error`. -/
def router.Head (r : router) (path : String) (handler : Option HTTPHandler) :
    Option (router × Option String) :=
  r.registerHandler "HEAD" path handler

/-- Go `func (r *router) Post(path string, handler http.Handler) error`. -/
def router.Post (r : router) (path : String) (handler : Option HTTPHandler) :
    Option (router × Option String) :=
  r.registerHandler "POST" path handler

/-- Go `func (r *router) Put(path string, handler http.Handler) error`. -/
def router.Put (r : router) (path : String) (handler : Option HTTPHandler) :
    Option (router × Option String) :=
  r.registerHandler "PUT" path handler

/-- Go `func (r *router) Patch(path string, handler http.Handler) error`. -/
def router.Patch (r : router) (path : String) (handler : Option HTTPHandler) :
    Option (router × Option String) :=
  r.registerHandler "PATCH" path handler

/-- Go `func (r *router) Delete(path string, handler http.Handler) error`. -/
def router.Delete (r : router) (path : String) (handler : Option HTTPHandler) :
    Option (router × Option String) :=
  r.registerHandler "DELETE" path handler

/-- Go `func (r *router) Connect(path string, handler http.Handler) error`. -/
def router.Connect (r : router) (path : String) (handler : Option HTTPHandler) :
    Option (router × Option String) :=
  r.registerHandler "CONNECT" path handler

/-- Go `func (r *router) Options(path string, handler http.Handler) error`. -/
def router.Options (r : router) (path : String) (handler : Option HTTPHandler) :
    Option (router × Option String) :=
  r.registerHandler "OPTIONS" path handler

/-- Go `func (r *router) Trace(path string, handler http.Handler) error`. -/
def router.Trace (r : router) (path : String) (handler : Option HTTPHandler) :
    Option (router × Option String) :=
  r.registerHandler "TRACE" path handler

/-- The nine registration operations, each with the method it registers under. -/
def registrations :
    List ((router → String → Option HTTPHandler → Option (router × Option String)) × String) :=
  [(router.Get, "GET"), (router.Head, "HEAD"), (router.Post, "POST"), (router.Put, "PUT"),
   (router.Patch, "PATCH"), (router.Delete, "DELETE"), (router.Connect, "CONNECT"),
   (router.Options, "OPTIONS"), (router.Trace, "TRACE")]

/-! ## Serving a request -/

/-- The state of an `http.ResponseWriter` as `httptest.ResponseRecorder` records it: the
status code once the header is written, and the chunks of the body. Header fields are left
out. -/
structure Response where
  status : Option Nat
  body : List String
  deriving DecidableEq, Repr

/-- Go `rw.WriteHeader(code)`: only the first header written counts. -/
def Response.WriteHeader (w : Response) (code : Nat) : Response :=
  match w.status with
  | some _ => w
  | none => { w with status := some code }

/-- Go `rw.Write(b)`: writes the header with status 200 when none is written yet. -/
def Response.Write (w : Response) (b : String) : Response :=
  { status := (w.WriteHeader 200).status, body := w.body ++ [b] }

/-- Go `http.Error(w, error, code)`: writes the header with the code and the text followed
by a newline. -/
def httpError (w : Response) (error : String) (code : Nat) : Response :=
  (w.WriteHeader code).Write (error ++ "\n")

/-- How a call `h.ServeHTTP(rw, req)` ends: it returns, or it panics (with a value that is
not nil); in both cases with what it has written to the response writer by then. -/
inductive Outcome where
  | returned (w : Response)
  | panicked (w : Response)
  deriving DecidableEq, Repr

/-- The response writer at the end of a call. -/
def Outcome.response : Outcome → Response
  | .returned w => w
  | .panicked w => w

/-- The behaviour of the handlers the router does not define: `serve h req w` is the call
`h.ServeHTTP(w, req)`, and `deferred h req out` is the same call run as a deferred call when
the surrounding function ended with `out`. -/
structure Behaviour where
  serve : HTTPHandler → Request → Response → Outcome
  deferred : HTTPHandler → Request → Outcome → Outcome

/-- Go `func (h InternalServerError) ServeHTTP(rw http.ResponseWriter, req *http.Request)`
run as a deferred call: `recover()` returns nil unless a panic is in flight; when one is,
it is stopped and `http.Error` writes the status text of 500. -/
def InternalServerError.ServeHTTP : Outcome → Outcome
  | .returned w => .returned w
  | .panicked w => .returned (httpError w "Internal Server Error" 500)

/-- Go `func (r *router) ServeHTTP(rw http.ResponseWriter, req *http.Request)`: the body
ends with the call that `dispatch` prepares, or with a panic before that call, and the
internal-error handler runs as the deferred call. No statement assigns to the router. -/
def router.ServeHTTP (r : router) (b : Behaviour) (req : Request) (w : Response) : Outcome :=
  let out :=
    match r.dispatch req with
    | none => Outcome.panicked w
    | some call => b.serve call.handler call.request w
  if r.internalservererror = InternalServerError then InternalServerError.ServeHTTP out
  else b.deferred r.internalservererror req out

/-- The keys of the tree below a node are keys that `insert` computes: a key that starts
with `:` is the wildcard key. -/
def node.keysOK (n : node) : Prop :=
  ∀ (q : List String) (x c : node) (k : String), n.at q = some x → mapGet x.nodes k = some c →
    isParam k = true → k = pathvar

/-- A behaviour for the examples: handler 1 writes `ok` and returns, handler 2 writes
`partial` and panics, handler 3 panics at once, and every other handler, the not-found
handler among them, writes the header 404 and returns. -/
def exampleBehaviour : Behaviour :=
  { serve := fun h _ w =>
      if h = 1 then .returned (w.Write "ok")
      else if h = 2 then .panicked (w.Write "partial")
      else if h = 3 then .panicked w
      else .returned (w.WriteHeader 404),
    deferred := fun _ _ out => out }

/-- The request `GET http://localhost<path>` with an empty context. -/
def getRequest (path : String) : Request :=
  { Method := "GET", Scheme := "http", Hostname := "localhost", EscapedPath := path, ctx := [] }

/-- The router `New` returns for a list of options; the router without options when `New`
returns an error. -/
def routerOf (options : List RouterOption) : router :=
  match router.New options with
  | .ok r => r
  | .error _ =>
    { interceptors := [],
      matcher := Matcher.New,
      schemes := [(matchall, ())],
      hostnames := [(matchall, ())],
      notfound := NotFoundHandler,
      internalservererror := InternalServerError }

/-- The router after a registration operation; the router itself when the operation
panics. -/
def routerAfter (r : router) (result : Option (router × Option String)) : router :=
  match result with
  | some (r1, _) => r1
  | none => r

/-! ## `New` on the paths of its test table -/

theorem New_posts_comments : New "/posts/:id/comments/:commentID" (some 7) =
    .ok { HTTPHandler := 7, segments := ["posts", ":id", "comments", ":commentID"],
          params := [("id", 1), ("commentID", 3)] } := by decide
theorem New_root :
    New "/" (some 7) = .ok { HTTPHandler := 7, segments := [""], params := [] } := by decide
theorem New_empty_segment : New "//" (some 7) = .panic := by decide
theorem New_trailing_separator :
    New "/a/" (some 7) = .ok { HTTPHandler := 7, segments := ["a"], params := [] } := by decide
theorem New_empty_path : New "" (some 7) = .error "path can't be empty" := by decide
theorem New_missing_separator :
    New "x" none = .error "path must start with '/' char" := by decide

/-! ## Lemmas on maps -/

theorem mapGet_mapSet_same {α : Type} (l : List (String × α)) (k : String) (v : α) :
    mapGet (mapSet l k v) k = some v := by
  induction l with
  | nil => simp [mapSet, mapGet]
  | cons e rest ih =>
    obtain ⟨k1, w⟩ := e
    by_cases hk : k1 = k
    · simp [mapSet, mapGet, hk]
    · simp [mapSet, mapGet, hk, ih]

theorem mapGet_mapSet_ne {α : Type} (l : List (String × α)) (k k1 : String) (v : α)
    (hne : k ≠ k1) : mapGet (mapSet l k v) k1 = mapGet l k1 := by
  induction l with
  | nil => simp [mapSet, mapGet, hne]
  | cons e rest ih =>
    obtain ⟨k2, w⟩ := e
    by_cases hk : k2 = k
    · subst hk
      simp [mapSet, mapGet, hne]
    · by_cases hk1 : k2 = k1
      · subst hk1
        simp [mapSet, mapGet, hk]
      · simp [mapSet, mapGet, hk, hk1, ih]

theorem mapSet_of_mapGet {α : Type} (l : List (String × α)) (k : String) (v : α)
    (hget : mapGet l k = some v) : mapSet l k v = l := by
  induction l with
  | nil => simp [mapGet] at hget
  | cons e rest ih =>
    obtain ⟨k2, w⟩ := e
    by_cases hk : k2 = k
    · simp [mapGet, hk] at hget
      simp [mapSet, hk, hget]
    · simp [mapGet, hk] at hget
      simp [mapSet, hk, ih hget]

/-! ## Lemmas on nodes -/

theorem node.eta (n : node) : node.mk n.handler n.nodes = n := by
  cases n; rfl

@[simp] theorem node.handler_mk (h : Option Handler) (cs : List (String × node)) :
    (node.mk h cs).handler = h := rfl

@[simp] theorem node.nodes_mk (h : Option Handler) (cs : List (String × node)) :
    (node.mk h cs).nodes = cs := rfl

@[simp] theorem node.at_nil (n : node) : n.at [] = some n := rfl

theorem node.at_cons (n : node) (k : String) (q : List String) :
    n.at (k :: q) = (match mapGet n.nodes k with
      | none => none
      | some c => c.at q) := rfl

@[simp] theorem node.handlerAt_nil (n : node) : n.handlerAt [] = n.handler := rfl

theorem node.handlerAt_cons (n : node) (k : String) (q : List String) :
    n.handlerAt (k :: q) = (match mapGet n.nodes k with
      | none => none
      | some c => c.handlerAt q) := by
  unfold node.handlerAt
  rw [node.at_cons]
  cases mapGet n.nodes k <;> rfl

theorem node.handlerAt_cons_some (n c : node) (k : String) (q : List String)
    (hc : mapGet n.nodes k = some c) : n.handlerAt (k :: q) = c.handlerAt q := by
  rw [node.handlerAt_cons, hc]

theorem node.handlerAt_cons_none (n : node) (k : String) (q : List String)
    (hc : mapGet n.nodes k = none) : n.handlerAt (k :: q) = none := by
  rw [node.handlerAt_cons, hc]

theorem node.at_fresh (q : List String) (x : node) (hx : node.fresh.at q = some x) : q = [] := by
  cases q with
  | nil => rfl
  | cons k q => simp [node.at_cons, node.fresh, mapGet] at hx

theorem node.handlerAt_fresh (q : List String) : node.fresh.handlerAt q = none := by
  cases q with
  | nil => rfl
  | cons k q => simp [node.handlerAt_cons, node.fresh, mapGet]

theorem node.handlerAt_some_at (n : node) (q : List String) (h : Handler)
    (hq : n.handlerAt q = some h) : ∃ x, n.at q = some x ∧ x.handler = some h := by
  unfold node.handlerAt at hq
  cases hx : n.at q with
  | none => simp [hx] at hq
  | some x => exact ⟨x, rfl, by simpa [hx] using hq⟩

/-! ## Lemmas on `search` -/

@[simp] theorem node.search_found (n : Option node) (s : List String) (h : Handler) :
    node.search n s (some h) = some h := by
  cases s <;> rfl

@[simp] theorem node.search_nil_receiver (s : List String) (pn : Option Handler) :
    node.search none s pn = pn := by
  cases s <;> cases pn <;> rfl

@[simp] theorem node.search_end (n : node) : node.search (some n) [] none = n.handler := rfl

theorem node.search_cons (n : node) (segment : String) (rest : List String) :
    node.search (some n) (segment :: rest) none =
      node.search (mapGet n.nodes pathvar) rest
        (node.search (mapGet n.nodes segment) rest none) := rfl

/-- The two recursive calls of `search` as a first-success choice. -/
theorem node.search_cons_cases (n : node) (segment : String) (rest : List String) :
    node.search (some n) (segment :: rest) none =
      (match node.search (mapGet n.nodes segment) rest none with
        | some h => some h
        | none => node.search (mapGet n.nodes pathvar) rest none) := by
  rw [node.search_cons]
  cases node.search (mapGet n.nodes segment) rest none <;> simp

/-! ## Lemmas on `insert` -/

theorem node.insert_alias (n : node) (seg : String) (rest : List String)
    (ha : n.aliased seg rest) : n.insert (seg :: rest) = (n, [pathvar]) := by
  obtain ⟨h1, h2, h3, h4⟩ := ha
  simp [node.insert, h1, h2, h3, h4]

theorem node.insert_descend (n : node) (seg : String) (rest : List String)
    (ha : ¬ n.aliased seg rest) :
    n.insert (seg :: rest) =
      (.mk n.handler (mapSet n.nodes (segmentKey seg)
          ((n.child (segmentKey seg)).insert rest).1),
        segmentKey seg :: ((n.child (segmentKey seg)).insert rest).2) := by
  cases hget : mapGet n.nodes (segmentKey seg) with
  | some next => simp [node.insert, node.child, hget]
  | none =>
    have hc : ¬ (segmentKey seg ≠ pathvar ∧ n.wildcardBound = true ∧ rest = []) := by
      intro hc
      exact ha ⟨hget, hc⟩
    simp only [node.insert, node.child, hget]
    rw [if_neg hc]

theorem node.handlerAt_child (n : node) (k : String) (q : List String) :
    n.handlerAt (k :: q) = (n.child k).handlerAt q := by
  rw [node.handlerAt_cons]
  unfold node.child
  cases mapGet n.nodes k with
  | none => simp [node.handlerAt_fresh]
  | some c => rfl

theorem node.at_mapSet_same (h : Option Handler) (cs : List (String × node)) (k : String)
    (c : node) (q : List String) : (node.mk h (mapSet cs k c)).at (k :: q) = c.at q := by
  rw [node.at_cons]
  simp [mapGet_mapSet_same]

theorem node.at_mapSet_ne (h : Option Handler) (cs : List (String × node)) (k k1 : String)
    (c : node) (q : List String) (hne : k ≠ k1) :
    (node.mk h (mapSet cs k c)).at (k1 :: q) = (node.mk h cs).at (k1 :: q) := by
  rw [node.at_cons, node.at_cons]
  simp [mapGet_mapSet_ne _ _ _ _ hne]

theorem node.handlerAt_mapSet_same (h : Option Handler) (cs : List (String × node))
    (k : String) (c : node) (q : List String) :
    (node.mk h (mapSet cs k c)).handlerAt (k :: q) = c.handlerAt q := by
  unfold node.handlerAt
  rw [node.at_mapSet_same]

theorem node.handlerAt_mapSet_ne (h : Option Handler) (cs : List (String × node))
    (k k1 : String) (c : node) (q : List String) (hne : k ≠ k1) :
    (node.mk h (mapSet cs k c)).handlerAt (k1 :: q) = (node.mk h cs).handlerAt (k1 :: q) := by
  unfold node.handlerAt
  rw [node.at_mapSet_ne _ _ _ _ _ _ hne]

/-- The function `insert` binds no handler and removes none. -/
theorem node.insert_handlerAt (segs : List String) :
    ∀ (n : node) (q : List String), (n.insert segs).1.handlerAt q = n.handlerAt q := by
  induction segs with
  | nil => intro n q; rfl
  | cons seg rest ih =>
    intro n q
    by_cases ha : n.aliased seg rest
    · rw [node.insert_alias n seg rest ha]
    · rw [node.insert_descend n seg rest ha]
      cases q with
      | nil => rfl
      | cons k1 q1 =>
        by_cases hk : segmentKey seg = k1
        · subst hk
          rw [node.handlerAt_mapSet_same, ih, ← node.handlerAt_child]
        · rw [node.handlerAt_mapSet_ne _ _ _ _ _ _ hk, node.eta]

/-- The pointer returned by `insert` is a node of the tree. -/
theorem node.insert_at_isSome (segs : List String) :
    ∀ n : node, ((n.insert segs).1.at (n.insert segs).2).isSome = true := by
  induction segs with
  | nil => intro n; rfl
  | cons seg rest ih =>
    intro n
    by_cases ha : n.aliased seg rest
    · rw [node.insert_alias n seg rest ha]
      obtain ⟨_, _, h3, _⟩ := ha
      unfold node.wildcardBound at h3
      cases hw : mapGet n.nodes pathvar with
      | none => simp [hw] at h3
      | some w => simp [node.at_cons, hw]
    · rw [node.insert_descend n seg rest ha]
      simp only
      rw [node.at_mapSet_same]
      exact ih _

/-- When the node returned by `insert` has a handler, `insert` created no node. -/
theorem node.insert_unchanged (segs : List String) :
    ∀ n : node, (n.insert segs).1.handlerAt (n.insert segs).2 ≠ none →
      (n.insert segs).1 = n := by
  induction segs with
  | nil => intro n _; rfl
  | cons seg rest ih =>
    intro n hb
    by_cases ha : n.aliased seg rest
    · rw [node.insert_alias n seg rest ha]
    · rw [node.insert_descend n seg rest ha] at hb ⊢
      simp only at hb ⊢
      rw [node.handlerAt_mapSet_same] at hb
      have hc := ih _ hb
      rw [hc] at hb ⊢
      cases hget : mapGet n.nodes (segmentKey seg) with
      | none =>
        exfalso
        apply hb
        have : n.child (segmentKey seg) = node.fresh := by simp [node.child, hget]
        rw [this, node.handlerAt_fresh]
      | some next =>
        have : n.child (segmentKey seg) = next := by simp [node.child, hget]
        rw [this, mapSet_of_mapGet _ _ _ hget, node.eta]

/-- The node returned by `insert` is the one reached through the keys of the segments,
unless it already has a handler. -/
theorem node.insert_path (segs : List String) :
    ∀ n : node, (n.insert segs).2 = keys segs ∨
      ∃ h, (n.insert segs).1.handlerAt (n.insert segs).2 = some h := by
  induction segs with
  | nil => intro n; left; rfl
  | cons seg rest ih =>
    intro n
    by_cases ha : n.aliased seg rest
    · right
      rw [node.insert_alias n seg rest ha]
      obtain ⟨_, _, h3, _⟩ := ha
      unfold node.wildcardBound at h3
      cases hw : mapGet n.nodes pathvar with
      | none => simp [hw] at h3
      | some w =>
        simp only [hw] at h3
        obtain ⟨h, hh⟩ := Option.isSome_iff_exists.mp h3
        exact ⟨h, by simp [node.handlerAt_cons, hw, hh]⟩
    · rw [node.insert_descend n seg rest ha]
      simp only
      rw [node.handlerAt_mapSet_same]
      rcases ih (n.child (segmentKey seg)) with h1 | h1
      · left
        rw [h1]
        rfl
      · right
        exact h1

theorem node.at_isSome_child (n : node) (k : String) (q : List String)
    (hq : ((n.child k).at q).isSome = true) :
    (n.at (k :: q)).isSome = true ∨ q = [] := by
  rw [node.at_cons]
  unfold node.child at hq
  cases hget : mapGet n.nodes k with
  | none =>
    right
    simp only [hget] at hq
    obtain ⟨x, hx⟩ := Option.isSome_iff_exists.mp hq
    exact node.at_fresh q x hx
  | some c =>
    left
    simpa [hget] using hq

/-- Every node of the tree after `insert` was there before or lies on the path of the
inserted segments. -/
theorem node.insert_at (segs : List String) :
    ∀ (n : node) (q : List String), ((n.insert segs).1.at q).isSome = true →
      (n.at q).isSome = true ∨ q <+: keys segs := by
  induction segs with
  | nil => intro n q hq; left; exact hq
  | cons seg rest ih =>
    intro n q hq
    by_cases ha : n.aliased seg rest
    · rw [node.insert_alias n seg rest ha] at hq
      left; exact hq
    · rw [node.insert_descend n seg rest ha] at hq
      simp only at hq
      cases q with
      | nil => left; rfl
      | cons k1 q1 =>
        by_cases hk : segmentKey seg = k1
        · subst hk
          rw [node.at_mapSet_same] at hq
          rcases ih _ _ hq with h1 | h1
          · rcases node.at_isSome_child n _ _ h1 with h2 | h2
            · left; exact h2
            · right
              subst h2
              simp [keys]
          · right
            simpa [keys] using h1
        · rw [node.at_mapSet_ne _ _ _ _ _ _ hk, node.eta] at hq
          left; exact hq

/-- On an existing path `insert` walks the path and changes nothing. -/
theorem node.insert_existing (segs : List String) :
    ∀ n : node, (n.at (keys segs)).isSome = true → n.insert segs = (n, keys segs) := by
  induction segs with
  | nil => intro n _; rfl
  | cons seg rest ih =>
    intro n hq
    have hq1 : (n.at (segmentKey seg :: keys rest)).isSome = true := hq
    rw [node.at_cons] at hq1
    cases hget : mapGet n.nodes (segmentKey seg) with
    | none => simp [hget] at hq1
    | some next =>
      simp only [hget] at hq1
      have ha : ¬ n.aliased seg rest := by
        intro ha
        rw [ha.1] at hget
        cases hget
      have hc : n.child (segmentKey seg) = next := by simp [node.child, hget]
      rw [node.insert_descend n seg rest ha, hc, ih next hq1]
      simp only
      rw [mapSet_of_mapGet _ _ _ hget, node.eta]
      rfl

/-- The aliasing branch: below an existing path, a final literal segment without a child of
its own but next to a bound wildcard child makes `insert` return the wildcard child. -/
theorem node.insert_aliased_at (pre : List String) (l : String) :
    ∀ (n x : node), n.at (keys pre) = some x → x.aliased l [] →
      n.insert (pre ++ [l]) = (n, keys pre ++ [pathvar]) := by
  induction pre with
  | nil =>
    intro n x hx ha
    simp only [keys, List.map_nil, node.at_nil, Option.some.injEq] at hx
    subst hx
    simpa [keys] using node.insert_alias n l [] ha
  | cons seg rest ih =>
    intro n x hx ha
    have hq1 : n.at (segmentKey seg :: keys rest) = some x := hx
    rw [node.at_cons] at hq1
    cases hget : mapGet n.nodes (segmentKey seg) with
    | none => simp [hget] at hq1
    | some next =>
      simp only [hget] at hq1
      have hna : ¬ n.aliased seg (rest ++ [l]) := by
        intro hna
        rw [hna.1] at hget
        cases hget
      have hc : n.child (segmentKey seg) = next := by simp [node.child, hget]
      rw [List.cons_append, node.insert_descend n seg _ hna, hc, ih next x hq1 ha]
      simp only
      rw [mapSet_of_mapGet _ _ _ hget, node.eta]
      rfl

/-! ## Lemmas on the assignment of a handler -/

theorem node.bind_handlerAt (p : List String) (h : Handler) :
    ∀ (t : node) (q : List String), (t.at p).isSome = true →
      (t.bind p h).handlerAt q = if q = p then some h else t.handlerAt q := by
  induction p with
  | nil =>
    intro t q _
    cases q with
    | nil => rfl
    | cons k q1 =>
      simp only [node.bind, node.handlerAt_cons, node.nodes_mk]
      simp
  | cons k p1 ih =>
    intro t q hp
    rw [node.at_cons] at hp
    cases hget : mapGet t.nodes k with
    | none => simp [hget] at hp
    | some c =>
      simp only [hget] at hp
      simp only [node.bind, hget]
      cases q with
      | nil => simp
      | cons k1 q1 =>
        by_cases hk : k = k1
        · subst hk
          rw [node.handlerAt_mapSet_same, ih c q1 hp, node.handlerAt_cons_some t c k q1 hget]
          simp
        · rw [node.handlerAt_mapSet_ne _ _ _ _ _ _ hk, node.eta]
          have : ¬ (k1 :: q1 = k :: p1) := by
            intro he
            exact hk (List.cons.inj he).1.symm
          rw [if_neg this]

theorem node.bind_at (p : List String) (h : Handler) :
    ∀ (t : node) (q : List String), ((t.bind p h).at q).isSome = (t.at q).isSome := by
  induction p with
  | nil =>
    intro t q
    cases q with
    | nil => rfl
    | cons k q1 => simp only [node.bind, node.at_cons, node.nodes_mk]
  | cons k p1 ih =>
    intro t q
    cases hget : mapGet t.nodes k with
    | none => simp only [node.bind, hget]
    | some c =>
      simp only [node.bind, hget]
      cases q with
      | nil => rfl
      | cons k1 q1 =>
        by_cases hk : k = k1
        · subst hk
          rw [node.at_mapSet_same, ih c q1, node.at_cons, hget]
        · rw [node.at_mapSet_ne _ _ _ _ _ _ hk, node.eta]

/-! ## `Register` in terms of `insert` -/

theorem Matcher.Register_duplicate (m : Matcher) (method : String) (t h1 : Handler)
    (root : node) (hroot : mapGet m.nodes method = some root)
    (hb : (root.insert t.segments).1.handlerAt (root.insert t.segments).2 = some h1) :
    m.Register method t = some (m, some duplicateRoute) := by
  obtain ⟨x, hx, hxh⟩ := node.handlerAt_some_at _ _ _ hb
  have hu : (root.insert t.segments).1 = root := by
    apply node.insert_unchanged
    rw [hb]
    simp
  unfold Matcher.Register
  simp only [hroot, Handler.Segments, hx, hxh]
  rw [hu, mapSet_of_mapGet _ _ _ hroot]
  rfl

theorem Matcher.Register_bound (m : Matcher) (method : String) (t : Handler)
    (root : node) (hroot : mapGet m.nodes method = some root)
    (hb : (root.insert t.segments).1.handlerAt (root.insert t.segments).2 = none) :
    m.Register method t =
      some ({ nodes := mapSet m.nodes method
                ((root.insert t.segments).1.bind (keys t.segments) t) }, none) := by
  have hp : (root.insert t.segments).2 = keys t.segments := by
    rcases node.insert_path t.segments root with h1 | ⟨h, h1⟩
    · exact h1
    · rw [hb] at h1
      cases h1
  obtain ⟨x, hx⟩ := Option.isSome_iff_exists.mp (node.insert_at_isSome t.segments root)
  have hxh : x.handler = none := by
    unfold node.handlerAt at hb
    simpa [hx] using hb
  unfold Matcher.Register
  simp only [hroot, Handler.Segments, hx, hxh]
  rw [hp]

theorem Matcher.Register_no_root (m : Matcher) (method : String) (t : Handler)
    (hroot : mapGet m.nodes method = none) : m.Register method t = none := by
  unfold Matcher.Register
  simp only [hroot]

/-! ## The invariant of reachable matchers -/

theorem mapGet_fresh_roots (l : List String) (k : String) (root : node)
    (hget : mapGet (l.map fun m => (m, node.fresh)) k = some root) : root = node.fresh := by
  induction l with
  | nil => simp [mapGet] at hget
  | cons a rest ih =>
    simp only [List.map_cons, mapGet] at hget
    by_cases hk : a = k
    · simp only [hk, if_true, Option.some.injEq] at hget
      exact hget.symm
    · simp only [hk, if_false] at hget
      exact ih hget

theorem Inv_New : Inv (Matcher.New, []) where
  bound := by
    intro method root q h hroot hq
    have hf := mapGet_fresh_roots methods method root hroot
    subst hf
    rw [node.handlerAt_fresh] at hq
    cases hq
  logged := by
    intro method h hmem
    cases hmem
  onPath := by
    intro method root q hroot hq hne
    have hf := mapGet_fresh_roots methods method root hroot
    subst hf
    obtain ⟨x, hx⟩ := Option.isSome_iff_exists.mp hq
    exact absurd (node.at_fresh q x hx) hne

/-- The two outcomes of a `Register` call that does not panic. -/
theorem registerStep_cases (st st1 : Matcher × List (String × Handler)) (c : String × Handler)
    (hstep : registerStep st c = some st1) :
    (st1 = st ∧ st.1.Register c.1 c.2 = some (st.1, some duplicateRoute)) ∨
    (∃ root, mapGet st.1.nodes c.1 = some root ∧
      (root.insert c.2.segments).1.handlerAt (root.insert c.2.segments).2 = none ∧
      st.1.Register c.1 c.2 =
        some ({ nodes := mapSet st.1.nodes c.1
                  ((root.insert c.2.segments).1.bind (keys c.2.segments) c.2) }, none) ∧
      st1 = ({ nodes := mapSet st.1.nodes c.1
                  ((root.insert c.2.segments).1.bind (keys c.2.segments) c.2) }, c :: st.2)) := by
  cases hroot : mapGet st.1.nodes c.1 with
  | none =>
    rw [registerStep, Matcher.Register_no_root _ _ _ hroot] at hstep
    cases hstep
  | some root =>
    cases hb : (root.insert c.2.segments).1.handlerAt (root.insert c.2.segments).2 with
    | some h1 =>
      left
      have hr := Matcher.Register_duplicate st.1 c.1 c.2 h1 root hroot hb
      rw [registerStep, hr] at hstep
      simp only [Option.some.injEq] at hstep
      exact ⟨hstep.symm, hr⟩
    | none =>
      right
      have hr := Matcher.Register_bound st.1 c.1 c.2 root hroot hb
      rw [registerStep, hr] at hstep
      simp only [Option.some.injEq] at hstep
      exact ⟨root, rfl, hb, hr, hstep.symm⟩

theorem Inv_step (st st1 : Matcher × List (String × Handler)) (c : String × Handler)
    (hinv : Inv st) (hstep : registerStep st c = some st1) : Inv st1 := by
  rcases registerStep_cases st st1 c hstep with ⟨h1, _⟩ | ⟨root, hroot, hb, _, h1⟩
  · rw [h1]; exact hinv
  · obtain ⟨cm, ch⟩ := c
    simp only at hroot hb h1
    subst h1
    have hsome : (((root.insert ch.segments).1).at (keys ch.segments)).isSome = true := by
      have hp : (root.insert ch.segments).2 = keys ch.segments := by
        rcases node.insert_path ch.segments root with h1 | ⟨h, h1⟩
        · exact h1
        · rw [hb] at h1
          cases h1
      rw [← hp]
      exact node.insert_at_isSome _ _
    have hold : root.handlerAt (keys ch.segments) = none := by
      have hp : (root.insert ch.segments).2 = keys ch.segments := by
        rcases node.insert_path ch.segments root with h1 | ⟨h, h1⟩
        · exact h1
        · rw [hb] at h1
          cases h1
      rw [hp, node.insert_handlerAt] at hb
      exact hb
    constructor
    · intro method root1 q h hroot1 hq
      simp only at hroot1
      by_cases hm : cm = method
      · subst hm
        rw [mapGet_mapSet_same] at hroot1
        simp only [Option.some.injEq] at hroot1
        subst hroot1
        rw [node.bind_handlerAt _ _ _ _ hsome] at hq
        by_cases hqp : q = keys ch.segments
        · rw [if_pos hqp] at hq
          simp only [Option.some.injEq] at hq
          subst hq
          exact ⟨hqp.symm, List.mem_cons_self _ _⟩
        · rw [if_neg hqp, node.insert_handlerAt] at hq
          obtain ⟨h2, h3⟩ := hinv.bound cm root q h hroot hq
          exact ⟨h2, List.mem_cons_of_mem _ h3⟩
      · rw [mapGet_mapSet_ne _ _ _ _ hm] at hroot1
        obtain ⟨h2, h3⟩ := hinv.bound method root1 q h hroot1 hq
        exact ⟨h2, List.mem_cons_of_mem _ h3⟩
    · intro method h hmem
      simp only at hmem ⊢
      by_cases hm : cm = method
      · subst hm
        refine ⟨_, mapGet_mapSet_same _ _ _, ?_⟩
        rw [node.bind_handlerAt _ _ _ _ hsome]
        rcases List.mem_cons.mp hmem with he | hmem1
        · simp only [Prod.mk.injEq, true_and] at he
          subst he
          simp
        · obtain ⟨root2, hroot2, hq2⟩ := hinv.logged cm h hmem1
          rw [hroot] at hroot2
          simp only [Option.some.injEq] at hroot2
          subst hroot2
          by_cases hqp : keys h.segments = keys ch.segments
          · rw [hqp, hold] at hq2
            cases hq2
          · rw [if_neg hqp, node.insert_handlerAt]
            exact hq2
      · rw [mapGet_mapSet_ne _ _ _ _ hm]
        rcases List.mem_cons.mp hmem with he | hmem1
        · simp only [Prod.mk.injEq] at he
          exact absurd he.1.symm hm
        · exact hinv.logged method h hmem1
    · intro method root1 q hroot1 hq hne
      simp only at hroot1 ⊢
      by_cases hm : cm = method
      · subst hm
        rw [mapGet_mapSet_same] at hroot1
        simp only [Option.some.injEq] at hroot1
        subst hroot1
        rw [node.bind_at] at hq
        rcases node.insert_at _ _ _ hq with h2 | h2
        · obtain ⟨h, h3, h4⟩ := hinv.onPath cm root q hroot h2 hne
          exact ⟨h, List.mem_cons_of_mem _ h3, h4⟩
        · exact ⟨ch, List.mem_cons_self _ _, h2⟩
      · rw [mapGet_mapSet_ne _ _ _ _ hm] at hroot1
        obtain ⟨h, h3, h4⟩ := hinv.onPath method root1 q hroot1 hq hne
        exact ⟨h, List.mem_cons_of_mem _ h3, h4⟩

theorem Inv_registerAll (calls : List (String × Handler)) :
    ∀ st st1 : Matcher × List (String × Handler), Inv st → registerAll st calls = some st1 →
      Inv st1 := by
  induction calls with
  | nil =>
    intro st st1 hinv hrun
    simp only [registerAll, Option.some.injEq] at hrun
    rw [← hrun]; exact hinv
  | cons c cs ih =>
    intro st st1 hinv hrun
    simp only [registerAll] at hrun
    cases hstep : registerStep st c with
    | none => simp [hstep] at hrun
    | some st2 =>
      simp only [hstep] at hrun
      exact ih st2 st1 (Inv_step st st2 c hinv hstep) hrun

/-- Every matcher reached from `Matcher.New` by `Register` calls satisfies the invariant. -/
theorem Inv_reachable (calls : List (String × Handler)) (st : Matcher × List (String × Handler))
    (hrun : registerAll (Matcher.New, []) calls = some st) : Inv st :=
  Inv_registerAll calls _ _ Inv_New hrun

/-! ## What `search` finds -/

theorem node.search_receiver (o : Option node) (s : List String) (t : Handler)
    (hs : node.search o s none = some t) : ∃ c, o = some c := by
  cases o with
  | none => simp at hs
  | some c => exact ⟨c, rfl⟩

/-- A handler bound at the path spelled by the request itself is the result. -/
theorem node.search_exact (s : List String) :
    ∀ (n : node) (t : Handler), n.handlerAt s = some t →
      node.search (some n) s none = some t := by
  induction s with
  | nil => intro n t ht; exact ht
  | cons seg rest ih =>
    intro n t ht
    rw [node.handlerAt_cons] at ht
    cases hget : mapGet n.nodes seg with
    | none => simp [hget] at ht
    | some c =>
      simp only [hget] at ht
      rw [node.search_cons, hget, ih c t ht]
      simp

/-- Completeness of `search`: a handler bound at any candidate path makes it succeed. -/
theorem node.search_complete (s : List String) :
    ∀ (n : node) (q : List String) (t : Handler), candidate q s → n.handlerAt q = some t →
      ∃ t1, node.search (some n) s none = some t1 := by
  induction s with
  | nil =>
    intro n q t hc ht
    cases q with
    | nil => exact ⟨t, ht⟩
    | cons k q1 => cases hc
  | cons seg rest ih =>
    intro n q t hc ht
    cases q with
    | nil => cases hc
    | cons k q1 =>
      obtain ⟨hk, hc1⟩ := hc
      rw [node.handlerAt_cons] at ht
      cases hget : mapGet n.nodes k with
      | none => simp [hget] at ht
      | some c =>
        simp only [hget] at ht
        obtain ⟨t1, ht1⟩ := ih c q1 t hc1 ht
        rw [node.search_cons_cases]
        rcases hk with hk | hk
        · subst hk
          rw [hget, ht1]
          exact ⟨t1, rfl⟩
        · subst hk
          cases hlit : node.search (mapGet n.nodes seg) rest none with
          | some t2 => exact ⟨t2, rfl⟩
          | none =>
            simp only
            rw [hget, ht1]
            exact ⟨t1, rfl⟩

/-- Soundness and priority of `search`: the result is bound at a candidate path, and that
path is tried before every other candidate path that has a handler. -/
theorem node.search_first (s : List String) :
    ∀ (n : node) (t : Handler), node.search (some n) s none = some t →
      ∃ q, candidate q s ∧ n.handlerAt q = some t ∧
        ∀ (q1 : List String) (t1 : Handler), candidate q1 s → n.handlerAt q1 = some t1 →
          triedBefore q q1 s := by
  induction s with
  | nil =>
    intro n t hs
    refine ⟨[], trivial, hs, ?_⟩
    intro q1 t1 _ _
    cases q1 <;> trivial
  | cons seg rest ih =>
    intro n t hs
    rw [node.search_cons_cases] at hs
    cases hlit : node.search (mapGet n.nodes seg) rest none with
    | some t2 =>
      simp only [hlit, Option.some.injEq] at hs
      subst hs
      obtain ⟨c, hc⟩ := node.search_receiver _ _ _ hlit
      rw [hc] at hlit
      obtain ⟨q, hq, hqt, hmin⟩ := ih c t2 hlit
      refine ⟨seg :: q, ⟨Or.inl rfl, hq⟩, ?_, ?_⟩
      · rw [node.handlerAt_cons_some n c seg q hc]
        exact hqt
      · intro q1 t1 hc1 ht1
        cases q1 with
        | nil => cases hc1
        | cons k q2 =>
          by_cases hk : seg = k
          · subst hk
            left
            refine ⟨rfl, hmin q2 t1 hc1.2 ?_⟩
            rw [node.handlerAt_cons_some n c seg q2 hc] at ht1
            exact ht1
          · right
            exact ⟨hk, rfl⟩
    | none =>
      simp only [hlit] at hs
      obtain ⟨w, hw⟩ := node.search_receiver _ _ _ hs
      rw [hw] at hs
      obtain ⟨q, hq, hqt, hmin⟩ := ih w t hs
      refine ⟨pathvar :: q, ⟨Or.inr rfl, hq⟩, ?_, ?_⟩
      · rw [node.handlerAt_cons_some n w pathvar q hw]
        exact hqt
      · intro q1 t1 hc1 ht1
        cases q1 with
        | nil => cases hc1
        | cons k q2 =>
          by_cases hk : pathvar = k
          · subst hk
            left
            refine ⟨rfl, hmin q2 t1 hc1.2 ?_⟩
            rw [node.handlerAt_cons_some n w pathvar q2 hw] at ht1
            exact ht1
          · exfalso
            obtain ⟨hk1, hc2⟩ := hc1
            rcases hk1 with hk1 | hk1
            · subst hk1
              rw [node.handlerAt_cons] at ht1
              cases hget : mapGet n.nodes k with
              | none => simp [hget] at ht1
              | some c =>
                simp only [hget] at ht1
                obtain ⟨t3, ht3⟩ := node.search_complete rest c q2 t1 hc2 ht1
                rw [hget, ht3] at hlit
                cases hlit
            · exact hk hk1.symm

/-! ## Segments, keys and matching -/

theorem isParam_pathvar : isParam pathvar = true := by decide

theorem segmentKey_param (a : String) (ha : isParam a = true) : segmentKey a = pathvar := by
  simp [segmentKey, ha]

theorem segmentKey_literal (a : String) (ha : isParam a = false) : segmentKey a = a := by
  simp [segmentKey, ha]

theorem segmentKey_literal_ne (a : String) (ha : isParam a = false) :
    segmentKey a ≠ pathvar := by
  rw [segmentKey_literal a ha]
  intro he
  rw [he, isParam_pathvar] at ha
  cases ha

theorem keys_literal (segs : List String) (hl : ∀ a ∈ segs, isParam a = false) :
    keys segs = segs := by
  induction segs with
  | nil => rfl
  | cons a rest ih =>
    simp only [keys, List.map_cons]
    rw [segmentKey_literal a (hl a (List.mem_cons_self _ _))]
    congr 1
    exact ih fun b hb => hl b (List.mem_cons_of_mem _ hb)

/-- The keys of a template that matches a request form a candidate path of the request. -/
theorem candidate_of_matchesPath (t : List String) :
    ∀ s : List String, matchesPath t s = true → candidate (keys t) s := by
  induction t with
  | nil =>
    intro s hm
    cases s with
    | nil => trivial
    | cons b s1 => simp [matchesPath] at hm
  | cons a t1 ih =>
    intro s hm
    cases s with
    | nil => simp [matchesPath] at hm
    | cons b s1 =>
      simp only [matchesPath, Bool.and_eq_true, Bool.or_eq_true, decide_eq_true_eq] at hm
      refine ⟨?_, ih s1 hm.2⟩
      cases hp : isParam a with
      | true => right; exact segmentKey_param a hp
      | false =>
        left
        rw [segmentKey_literal a hp]
        rcases hm.1 with h1 | h1
        · rw [hp] at h1; cases h1
        · exact h1

/-- A template whose keys form a candidate path of a request matches the request. -/
theorem matchesPath_of_candidate (t : List String) :
    ∀ s : List String, candidate (keys t) s → matchesPath t s = true := by
  induction t with
  | nil =>
    intro s hc
    cases s with
    | nil => rfl
    | cons b s1 => cases hc
  | cons a t1 ih =>
    intro s hc
    cases s with
    | nil => cases hc
    | cons b s1 =>
      obtain ⟨hk, hc1⟩ := hc
      simp only [matchesPath, Bool.and_eq_true, Bool.or_eq_true, decide_eq_true_eq]
      refine ⟨?_, ih s1 hc1⟩
      cases hp : isParam a with
      | true => left; rfl
      | false =>
        right
        rw [segmentKey_literal a hp] at hk
        rcases hk with h1 | h1
        · exact h1
        · rw [h1, isParam_pathvar] at hp
          cases hp

/-- The meaning of `matchesPath` position by position. -/
theorem matchesPath_iff (t : List String) :
    ∀ s : List String, matchesPath t s = true ↔
      (t.length = s.length ∧
        ∀ (i : Nat) (a b : String), t[i]? = some a → s[i]? = some b →
          isParam a = true ∨ a = b) := by
  induction t with
  | nil =>
    intro s
    cases s with
    | nil => simp [matchesPath]
    | cons b s1 => simp [matchesPath]
  | cons a t1 ih =>
    intro s
    cases s with
    | nil => simp [matchesPath]
    | cons b s1 =>
      simp only [matchesPath, Bool.and_eq_true, Bool.or_eq_true, decide_eq_true_eq, ih s1,
        List.length_cons, Nat.add_right_cancel_iff]
      constructor
      · rintro ⟨h0, hlen, hrest⟩
        refine ⟨hlen, ?_⟩
        intro i x y hx hy
        cases i with
        | zero =>
          simp only [List.getElem?_cons_zero, Option.some.injEq] at hx hy
          subst hx; subst hy
          exact h0
        | succ j =>
          simp only [List.getElem?_cons_succ] at hx hy
          exact hrest j x y hx hy
      · rintro ⟨hlen, hall⟩
        refine ⟨hall 0 a b (by simp) (by simp), hlen, ?_⟩
        intro i x y hx hy
        exact hall (i + 1) x y (by simpa using hx) (by simpa using hy)

/-- Two templates that match the same request, the first stored on a path tried before the
path of the second: at the first position where one has a literal segment and the other a
parameter segment, the first has the literal segment. -/
theorem first_difference (s : List String) :
    ∀ t t1 : List String, matchesPath t s = true → matchesPath t1 s = true →
      triedBefore (keys t) (keys t1) s →
      ∀ (i : Nat) (a b : String), t[i]? = some a → t1[i]? = some b →
        (∀ (j : Nat) (x y : String), j < i → t[j]? = some x → t1[j]? = some y →
          isParam x = isParam y) →
        isParam a ≠ isParam b → isParam a = false := by
  induction s with
  | nil =>
    intro t t1 hm _ _ i a b ha
    cases t with
    | nil => simp at ha
    | cons a0 t2 => simp [matchesPath] at hm
  | cons c s1 ih =>
    intro t t1 hm hm1 htb i a b ha hb hpre hne
    cases t with
    | nil => simp at ha
    | cons a0 t2 =>
      cases t1 with
      | nil => simp at hb
      | cons b0 t3 =>
        simp only [matchesPath, Bool.and_eq_true, Bool.or_eq_true, decide_eq_true_eq] at hm hm1
        have htb1 : (segmentKey a0 = segmentKey b0 ∧ triedBefore (keys t2) (keys t3) s1) ∨
            (segmentKey a0 ≠ segmentKey b0 ∧ segmentKey a0 = c) := htb
        cases i with
        | zero =>
          simp only [List.getElem?_cons_zero, Option.some.injEq] at ha hb
          subst ha; subst hb
          cases hpa : isParam a0 with
          | false => rfl
          | true =>
            exfalso
            have hpb : isParam b0 = false := by
              cases hpb : isParam b0 with
              | false => rfl
              | true => rw [hpa, hpb] at hne; exact absurd rfl hne
            have hbc : b0 = c := by
              rcases hm1.1 with h1 | h1
              · rw [hpb] at h1; cases h1
              · exact h1
            have hka := segmentKey_param a0 hpa
            have hkb := segmentKey_literal b0 hpb
            rcases htb1 with ⟨h1, _⟩ | ⟨_, h1⟩
            · rw [hka, hkb] at h1
              rw [← h1, isParam_pathvar] at hpb
              cases hpb
            · rw [hka] at h1
              rw [hbc, ← h1, isParam_pathvar] at hpb
              cases hpb
        | succ j =>
          simp only [List.getElem?_cons_succ] at ha hb
          have h0 : isParam a0 = isParam b0 :=
            hpre 0 a0 b0 (Nat.succ_pos j) (by simp) (by simp)
          have hrest : triedBefore (keys t2) (keys t3) s1 := by
            rcases htb1 with ⟨_, h1⟩ | ⟨h1, _⟩
            · exact h1
            · exfalso
              apply h1
              cases hpa : isParam a0 with
              | true =>
                rw [segmentKey_param a0 hpa, segmentKey_param b0 (by rw [← h0]; exact hpa)]
              | false =>
                have hpb : isParam b0 = false := by rw [← h0]; exact hpa
                rw [segmentKey_literal a0 hpa, segmentKey_literal b0 hpb]
                have hac : a0 = c := by
                  rcases hm.1 with h2 | h2
                  · rw [hpa] at h2; cases h2
                  · exact h2
                have hbc : b0 = c := by
                  rcases hm1.1 with h2 | h2
                  · rw [hpb] at h2; cases h2
                  · exact h2
                rw [hac, hbc]
          refine ih t2 t3 hm.2 hm1.2 hrest j a b ha hb ?_ hne
          intro k x y hk hx hy
          exact hpre (k + 1) x y (Nat.succ_lt_succ hk) (by simpa using hx) (by simpa using hy)

/-! ## `Find` on reachable matchers -/

theorem Matcher.Find_cons (m : Matcher) (method a : String) (s : List String) :
    m.Find method (a :: s) =
      some (node.search (mapGet m.nodes method) (a :: s) none,
        (node.search (mapGet m.nodes method) (a :: s) none).isSome) := rfl

/-- A handler bound at the path spelled by the request is what `Find` returns. -/
theorem Matcher.Find_exact (m : Matcher) (method : String) (root : node) (s : List String)
    (t : Handler) (hroot : mapGet m.nodes method = some root)
    (ht : root.handlerAt s = some t) : m.Find method s = some (some t, true) := by
  cases s with
  | nil =>
    simp only [Matcher.Find, hroot]
    rw [node.handlerAt_nil] at ht
    rw [ht]
    rfl
  | cons a s1 =>
    rw [Matcher.Find_cons, hroot, node.search_exact (a :: s1) root t ht]
    rfl

/-- The result of `Find` on a non-empty request, on a matcher that satisfies the invariant:
the handler is logged, matches the request, and its path is tried before the path of every
other logged handler that matches. -/
theorem Matcher.Find_first (st : Matcher × List (String × Handler)) (hinv : Inv st)
    (method : String) (s : List String) (t : Handler) (b : Bool) (hs : s ≠ [])
    (hfind : st.1.Find method s = some (some t, b)) :
    (method, t) ∈ st.2 ∧ matchesPath t.segments s = true ∧
      ∀ t1 : Handler, (method, t1) ∈ st.2 → matchesPath t1.segments s = true →
        triedBefore (keys t.segments) (keys t1.segments) s := by
  cases s with
  | nil => exact absurd rfl hs
  | cons a s1 =>
    rw [Matcher.Find_cons] at hfind
    simp only [Option.some.injEq, Prod.mk.injEq] at hfind
    obtain ⟨root, hroot⟩ := node.search_receiver _ _ _ hfind.1
    rw [hroot] at hfind
    obtain ⟨q, hq, hqt, hmin⟩ := node.search_first (a :: s1) root t hfind.1
    obtain ⟨hkeys, hlog⟩ := hinv.bound method root q t hroot hqt
    refine ⟨hlog, ?_, ?_⟩
    · apply matchesPath_of_candidate
      rw [hkeys]
      exact hq
    · intro t1 hlog1 hm1
      obtain ⟨root1, hroot1, hb1⟩ := hinv.logged method t1 hlog1
      rw [hroot] at hroot1
      simp only [Option.some.injEq] at hroot1
      subst hroot1
      rw [hkeys]
      exact hmin (keys t1.segments) t1 (candidate_of_matchesPath _ _ hm1) hb1

/-- On a matcher that satisfies the invariant `Find` succeeds on a non-empty request that a
logged handler matches. -/
theorem Matcher.Find_some (st : Matcher × List (String × Handler)) (hinv : Inv st)
    (method a : String) (s : List String) (t : Handler)
    (hlog : (method, t) ∈ st.2) (hm : matchesPath t.segments (a :: s) = true) :
    ∃ t1, st.1.Find method (a :: s) = some (some t1, true) := by
  obtain ⟨root, hroot, hb⟩ := hinv.logged method t hlog
  obtain ⟨t1, ht1⟩ :=
    node.search_complete (a :: s) root (keys t.segments) t (candidate_of_matchesPath _ _ hm) hb
  refine ⟨t1, ?_⟩
  rw [Matcher.Find_cons, hroot, ht1]
  rfl

/-- The log only grows along a sequence of `Register` calls. -/
theorem registerAll_log (calls : List (String × Handler)) :
    ∀ (st st1 : Matcher × List (String × Handler)) (c : String × Handler),
      registerAll st calls = some st1 → c ∈ st.2 → c ∈ st1.2 := by
  induction calls with
  | nil =>
    intro st st1 c hrun hc
    simp only [registerAll, Option.some.injEq] at hrun
    rw [← hrun]; exact hc
  | cons d cs ih =>
    intro st st1 c hrun hc
    simp only [registerAll] at hrun
    cases hstep : registerStep st d with
    | none => simp [hstep] at hrun
    | some st2 =>
      simp only [hstep] at hrun
      refine ih st2 st1 c hrun ?_
      rcases registerStep_cases st st2 d hstep with ⟨h1, _⟩ | ⟨_, _, _, _, h1⟩
      · rw [h1]; exact hc
      · rw [h1]; exact List.mem_cons_of_mem _ hc

/-- A `Register` call that returns an error leaves the matcher as it was, and the error is
the duplicate-route error. -/
theorem Matcher.Register_error (m m1 : Matcher) (method e : String) (t : Handler)
    (hreg : m.Register method t = some (m1, some e)) : m1 = m ∧ e = duplicateRoute := by
  cases hroot : mapGet m.nodes method with
  | none =>
    rw [Matcher.Register_no_root _ _ _ hroot] at hreg
    cases hreg
  | some root =>
    cases hb : (root.insert t.segments).1.handlerAt (root.insert t.segments).2 with
    | some h1 =>
      rw [Matcher.Register_duplicate m method t h1 root hroot hb] at hreg
      simp only [Option.some.injEq, Prod.mk.injEq] at hreg
      exact ⟨hreg.1.symm, hreg.2.symm⟩
    | none =>
      rw [Matcher.Register_bound m method t root hroot hb] at hreg
      simp only [Option.some.injEq, Prod.mk.injEq] at hreg
      cases hreg.2

/-! ## Lookup of registered routes -/

/-- C1. On a matcher reached from `Matcher.New` by any sequence of `Register` calls, a
template `t` whose segments are all literal and whose `Register` under `method` returned a
nil error is what `Find method t.Segments` returns, also after any further sequence of
`Register` calls. The statement holds for every template value, in particular for those
built by `New`. -/
theorem find_registered_literal (calls calls2 : List (String × Handler))
    (st1 st3 : Matcher × List (String × Handler)) (method : String) (t : Handler)
    (m2 : Matcher)
    (hrun1 : registerAll (Matcher.New, []) calls = some st1)
    (hreg : st1.1.Register method t = some (m2, none))
    (hlit : ∀ a ∈ t.Segments, isParam a = false)
    (hrun2 : registerAll (m2, (method, t) :: st1.2) calls2 = some st3) :
    st3.1.Find method t.Segments = some (some t, true) := by
  have hstep : registerStep st1 (method, t) = some (m2, (method, t) :: st1.2) := by
    simp only [registerStep, hreg]
  have hinv2 := Inv_step _ _ _ (Inv_reachable calls st1 hrun1) hstep
  have hinv3 := Inv_registerAll calls2 _ _ hinv2 hrun2
  have hlog : (method, t) ∈ st3.2 :=
    registerAll_log calls2 _ _ _ hrun2 (List.mem_cons_self _ _)
  obtain ⟨root, hroot, hb⟩ := hinv3.logged method t hlog
  rw [keys_literal t.segments hlit] at hb
  exact Matcher.Find_exact st3.1 method root t.segments t hroot hb

/-- C1, on the literal route `-1` below `/posts`, registered after `/posts` and before
`/posts/:id`. -/
theorem find_registered_literal_witness :
    (∀ a ∈ (routeOf "/posts/-1" 3).Segments, isParam a = false) ∧
    (stateAfter [("GET", routeOf "/posts" 1), ("GET", routeOf "/posts/-1" 3),
        ("GET", routeOf "/posts/:id" 2)]).1.Find "GET" ["posts", "-1"] =
      some (some (routeOf "/posts/-1" 3), true) :=
  ⟨by decide,
   find_registered_literal [("GET", routeOf "/posts" 1)] [("GET", routeOf "/posts/:id" 2)]
    (stateAfter [("GET", routeOf "/posts" 1)])
    (stateAfter [("GET", routeOf "/posts" 1), ("GET", routeOf "/posts/-1" 3),
        ("GET", routeOf "/posts/:id" 2)])
    "GET" (routeOf "/posts/-1" 3)
    (matcherAfter (stateAfter [("GET", routeOf "/posts" 1)]).1 "GET" (routeOf "/posts/-1" 3))
    rfl rfl (by decide) rfl⟩

/-- C2. Literal before parameter: on a reachable matcher, when `Find method s` returns the
template `t` for a non-empty `s` and `t1` is a template registered successfully under
`method` that also matches `s`, then at the first position where one of `t`, `t1` has a
literal segment and the other a parameter segment, `t` has the literal segment. -/
theorem literal_before_parameter (calls : List (String × Handler))
    (st : Matcher × List (String × Handler)) (method : String) (s : List String)
    (t t1 : Handler)
    (hrun : registerAll (Matcher.New, []) calls = some st) (hs : s ≠ [])
    (hfind : st.1.Find method s = some (some t, true))
    (hreg : (method, t1) ∈ st.2) (hmatch : matchesPath t1.Segments s = true)
    (i : Nat) (a b : String) (ha : t.Segments[i]? = some a) (hb : t1.Segments[i]? = some b)
    (hpre : ∀ (j : Nat) (x y : String), j < i → t.Segments[j]? = some x →
      t1.Segments[j]? = some y → isParam x = isParam y)
    (hne : isParam a ≠ isParam b) :
    isParam a = false ∧ isParam b = true := by
  obtain ⟨_, hm, hmin⟩ :=
    Matcher.Find_first st (Inv_reachable calls st hrun) method s t true hs hfind
  have h1 := first_difference s t.segments t1.segments hm hmatch (hmin t1 hreg hmatch)
    i a b ha hb hpre hne
  refine ⟨h1, ?_⟩
  cases hpb : isParam b with
  | true => rfl
  | false => rw [h1, hpb] at hne; exact absurd rfl hne

/-- C2, on the literal route `-1` below `/posts` and `/posts/:id`, looked up with the
segments `posts`, `-1`. -/
theorem literal_before_parameter_witness :
    (stateAfter [("GET", routeOf "/posts/-1" 3), ("GET", routeOf "/posts/:id" 2)]).1.Find
        "GET" ["posts", "-1"] = some (some (routeOf "/posts/-1" 3), true) ∧
    matchesPath (routeOf "/posts/:id" 2).Segments ["posts", "-1"] = true ∧
    (isParam "-1" = false ∧ isParam ":id" = true) :=
  ⟨by decide, by decide,
   literal_before_parameter
    [("GET", routeOf "/posts/-1" 3), ("GET", routeOf "/posts/:id" 2)]
    (stateAfter [("GET", routeOf "/posts/-1" 3), ("GET", routeOf "/posts/:id" 2)])
    "GET" ["posts", "-1"] (routeOf "/posts/-1" 3) (routeOf "/posts/:id" 2)
    rfl (by decide) (by decide) (by decide) (by decide) 1 "-1" ":id" (by decide) (by decide)
    (by
      intro j x y hj hx hy
      have hj0 : j = 0 := by omega
      subst hj0
      have hx1 : x = "posts" := by
        have : (routeOf "/posts/-1" 3).Segments[0]? = some "posts" := by decide
        rw [this] at hx
        exact (Option.some.inj hx).symm
      have hy1 : y = "posts" := by
        have : (routeOf "/posts/:id" 2).Segments[0]? = some "posts" := by decide
        rw [this] at hy
        exact (Option.some.inj hy).symm
      rw [hx1, hy1])
    (by decide)⟩

/-- C3. Soundness of `Find`: on a reachable matcher, when `Find method s` returns
`(t, true)` for a non-empty `s`, the template `t` was registered successfully under
`method`, has as many segments as `s`, and each of its segments is a parameter segment or
equals the segment of `s` at the same position. -/
theorem find_sound (calls : List (String × Handler))
    (st : Matcher × List (String × Handler)) (method : String) (s : List String) (t : Handler)
    (hrun : registerAll (Matcher.New, []) calls = some st) (hs : s ≠ [])
    (hfind : st.1.Find method s = some (some t, true)) :
    (method, t) ∈ st.2 ∧ t.Segments.length = s.length ∧
      ∀ (i : Nat) (a b : String), t.Segments[i]? = some a → s[i]? = some b →
        isParam a = true ∨ a = b := by
  obtain ⟨hlog, hm, _⟩ :=
    Matcher.Find_first st (Inv_reachable calls st hrun) method s t true hs hfind
  exact ⟨hlog, (matchesPath_iff t.segments s).mp hm⟩

/-- C3, on `/posts` and `/posts/:id` looked up with `posts/99`. -/
theorem find_sound_witness :
    ("GET", routeOf "/posts/:id" 2) ∈
        (stateAfter [("GET", routeOf "/posts" 1), ("GET", routeOf "/posts/:id" 2)]).2 ∧
    (routeOf "/posts/:id" 2).Segments.length = ["posts", "99"].length ∧
    ∀ (i : Nat) (a b : String), (routeOf "/posts/:id" 2).Segments[i]? = some a →
      ["posts", "99"][i]? = some b → isParam a = true ∨ a = b :=
  find_sound [("GET", routeOf "/posts" 1), ("GET", routeOf "/posts/:id" 2)]
    (stateAfter [("GET", routeOf "/posts" 1), ("GET", routeOf "/posts/:id" 2)])
    "GET" ["posts", "99"] (routeOf "/posts/:id" 2) rfl (by decide) (by decide)

/-- C4. Completeness of `Find` with backtracking: on a reachable matcher and a non-empty
`s`, `Find method s` reports `true` whenever a template registered successfully under
`method` matches `s`, and returns `(nil, false)` when none does; inside `search`, a literal
branch that yields no handler hands over to the wildcard sibling. -/
theorem find_complete (calls : List (String × Handler))
    (st : Matcher × List (String × Handler)) (method : String) (s : List String)
    (hrun : registerAll (Matcher.New, []) calls = some st) (hs : s ≠ []) :
    ((∃ t, (method, t) ∈ st.2 ∧ matchesPath t.Segments s = true) →
      ∃ t1, st.1.Find method s = some (some t1, true)) ∧
    ((¬ ∃ t, (method, t) ∈ st.2 ∧ matchesPath t.Segments s = true) →
      st.1.Find method s = some (none, false)) ∧
    (∀ (n : node) (segment : String) (rest : List String),
      node.search (mapGet n.nodes segment) rest none = none →
        node.search (some n) (segment :: rest) none =
          node.search (mapGet n.nodes pathvar) rest none) := by
  have hinv := Inv_reachable calls st hrun
  cases s with
  | nil => exact absurd rfl hs
  | cons a s1 =>
    refine ⟨?_, ?_, ?_⟩
    · rintro ⟨t, hlog, hm⟩
      exact Matcher.Find_some st hinv method a s1 t hlog hm
    · intro hnone
      cases hres : node.search (mapGet st.1.nodes method) (a :: s1) none with
      | none =>
        rw [Matcher.Find_cons, hres]
        rfl
      | some t =>
        exfalso
        have hfind : st.1.Find method (a :: s1) = some (some t, true) := by
          rw [Matcher.Find_cons, hres]
          rfl
        obtain ⟨hlog, hm, _⟩ := Matcher.Find_first st hinv method (a :: s1) t true hs hfind
        exact hnone ⟨t, hlog, hm⟩
    · intro n segment rest hlit
      rw [node.search_cons, hlit]

/-- C4, on the routes of the lookup test: the literal branch `101` ends without a handler
for `posts/99/reviews/101` and the wildcard sibling answers. -/
theorem find_complete_witness :
    (stateAfter [("GET", routeOf "/posts/:id/reviews/:reviewID" 6),
        ("GET", routeOf "/posts/:id/reviews/101/likers" 9)]).1.Find "GET"
      ["posts", "99", "reviews", "101"] =
        some (some (routeOf "/posts/:id/reviews/:reviewID" 6), true) ∧
    (stateAfter [("GET", routeOf "/posts/:id/reviews/:reviewID" 6),
        ("GET", routeOf "/posts/:id/reviews/101/likers" 9)]).1.Find "GET"
      ["comments", "76"] = some (none, false) :=
  ⟨by decide,
   (find_complete [("GET", routeOf "/posts/:id/reviews/:reviewID" 6),
        ("GET", routeOf "/posts/:id/reviews/101/likers" 9)]
      (stateAfter [("GET", routeOf "/posts/:id/reviews/:reviewID" 6),
        ("GET", routeOf "/posts/:id/reviews/101/likers" 9)])
      "GET" ["comments", "76"] rfl (by decide)).2.1 (by
        rintro ⟨t, hlog, hm⟩
        have hl : (stateAfter [("GET", routeOf "/posts/:id/reviews/:reviewID" 6),
            ("GET", routeOf "/posts/:id/reviews/101/likers" 9)]).2 =
            [("GET", routeOf "/posts/:id/reviews/101/likers" 9),
              ("GET", routeOf "/posts/:id/reviews/:reviewID" 6)] := by decide
        rw [hl] at hlog
        simp only [List.mem_cons, Prod.mk.injEq, true_and, List.mem_nil_iff, or_false] at hlog
        rcases hlog with h1 | h1
        · rw [h1] at hm
          exact absurd hm (by decide)
        · rw [h1] at hm
          exact absurd hm (by decide))⟩

/-! ## Rejected registrations -/

/-- C6. Duplicate detection: on a reachable matcher, once a template `t` has been
registered successfully under `method`, `Register method t1` returns the duplicate-route
error, and leaves the matcher as it is, for every template `t1` whose segments give the same
keys as those of `t` (each segment that starts with `:` replaced by the wildcard key): the
same path again, or the same path with its parameters renamed. -/
theorem register_duplicate_keys (calls : List (String × Handler))
    (st : Matcher × List (String × Handler)) (method : String) (t t1 : Handler)
    (hrun : registerAll (Matcher.New, []) calls = some st)
    (hreg : (method, t) ∈ st.2)
    (hkeys : t1.Segments.map segmentKey = t.Segments.map segmentKey) :
    st.1.Register method t1 = some (st.1, some duplicateRoute) := by
  obtain ⟨root, hroot, hb⟩ := (Inv_reachable calls st hrun).logged method t hreg
  have hk : keys t1.segments = keys t.segments := hkeys
  obtain ⟨x, hx, _⟩ := node.handlerAt_some_at _ _ _ hb
  have hins : root.insert t1.segments = (root, keys t1.segments) := by
    apply node.insert_existing
    rw [hk, hx]
    rfl
  apply Matcher.Register_duplicate st.1 method t1 t root hroot
  rw [hins]
  simp only
  rw [hk]
  exact hb

/-- C6, on `/posts/:id/comments` registered again with the parameter renamed. -/
theorem register_duplicate_keys_witness :
    ("GET", routeOf "/posts/:id/comments" 4) ∈
        (stateAfter [("GET", routeOf "/posts/:id/comments" 4),
          ("GET", routeOf "/posts" 1)]).2 ∧
    (stateAfter [("GET", routeOf "/posts/:id/comments" 4),
        ("GET", routeOf "/posts" 1)]).1.Register "GET" (routeOf "/posts/:key/comments" 5) =
      some ((stateAfter [("GET", routeOf "/posts/:id/comments" 4),
        ("GET", routeOf "/posts" 1)]).1, some duplicateRoute) :=
  ⟨by decide,
   register_duplicate_keys
    [("GET", routeOf "/posts/:id/comments" 4), ("GET", routeOf "/posts" 1)]
    (stateAfter [("GET", routeOf "/posts/:id/comments" 4), ("GET", routeOf "/posts" 1)])
    "GET" (routeOf "/posts/:id/comments" 4) (routeOf "/posts/:key/comments" 5)
    rfl (by decide) (by decide)⟩

/-- C7. A failed registration is atomic: when `registerHandler` returns an error (from `New`
for an invalid path or a nil handler, or from `Register` for a duplicate route, aliased or
not), the matcher after the call is the matcher before it, node for node, and `Find` gives
the same result for every method and every segment sequence. -/
theorem failed_registration_atomic (m m1 : Matcher) (method path e : String)
    (handler : Option HTTPHandler)
    (hfail : registerHandler m method path handler = some (m1, some e)) :
    m1 = m ∧ ∀ (method1 : String) (s : List String), m1.Find method1 s = m.Find method1 s := by
  have hm : m1 = m := by
    unfold registerHandler at hfail
    cases hnew : New path handler with
    | panic => simp [hnew] at hfail
    | error msg =>
      simp only [hnew, Option.some.injEq, Prod.mk.injEq] at hfail
      exact hfail.1.symm
    | ok t =>
      simp only [hnew] at hfail
      exact (Matcher.Register_error m m1 method e t hfail).1
  refine ⟨hm, ?_⟩
  intro method1 s
  rw [hm]

/-- C7, on `/posts/:id/reviews/9` registered after `/posts/:id/reviews/:reviewID`, a
duplicate reached through the aliasing rule. -/
theorem failed_registration_atomic_witness :
    registerHandler (stateAfter [("GET", routeOf "/posts/:id/reviews/:reviewID" 6)]).1
        "GET" "/posts/:id/reviews/9" (some 7) =
      some ((stateAfter [("GET", routeOf "/posts/:id/reviews/:reviewID" 6)]).1,
        some duplicateRoute) ∧
    ∀ (method1 : String) (s : List String),
      (stateAfter [("GET", routeOf "/posts/:id/reviews/:reviewID" 6)]).1.Find method1 s =
        (stateAfter [("GET", routeOf "/posts/:id/reviews/:reviewID" 6)]).1.Find method1 s :=
  ⟨rfl,
   (failed_registration_atomic
    (stateAfter [("GET", routeOf "/posts/:id/reviews/:reviewID" 6)]).1
    (stateAfter [("GET", routeOf "/posts/:id/reviews/:reviewID" 6)]).1
    "GET" "/posts/:id/reviews/9" duplicateRoute (some 7) rfl).2⟩

/-- The aliasing branch at the level of `Register`: below an existing path, a final literal
segment without a child of its own next to a bound wildcard child is rejected as a duplicate
route and the matcher is unchanged. -/
theorem Matcher.Register_aliased (m : Matcher) (method : String) (root x w : node)
    (t : Handler) (pre : List String) (l : String)
    (hroot : mapGet m.nodes method = some root)
    (hsegs : t.segments = pre ++ [l]) (hl : isParam l = false)
    (hx : root.at (keys pre) = some x)
    (hno : mapGet x.nodes l = none)
    (hw : mapGet x.nodes pathvar = some w) (hwb : w.handler ≠ none) :
    m.Register method t = some (m, some duplicateRoute) := by
  have hal : x.aliased l [] := by
    refine ⟨?_, segmentKey_literal_ne l hl, ?_, rfl⟩
    · rw [segmentKey_literal l hl]
      exact hno
    · unfold node.wildcardBound
      rw [hw]
      cases hh : w.handler with
      | none => exact absurd hh hwb
      | some h => simp [hh]
  have hins := node.insert_aliased_at pre l root x hx hal
  obtain ⟨h, hh⟩ : ∃ h, w.handler = some h := by
    cases hh : w.handler with
    | none => exact absurd hh hwb
    | some h => exact ⟨h, rfl⟩
  have hb : root.handlerAt (keys pre ++ [pathvar]) = some h := by
    have hgen : ∀ (p : List String) (n : node), n.at p = some x →
        n.handlerAt (p ++ [pathvar]) = some h := by
      intro p
      induction p with
      | nil =>
        intro n hn
        simp only [node.at_nil, Option.some.injEq] at hn
        subst hn
        rw [List.nil_append, node.handlerAt_cons_some n w pathvar [] hw]
        exact hh
      | cons k p1 ih =>
        intro n hn
        rw [node.at_cons] at hn
        cases hget : mapGet n.nodes k with
        | none => simp [hget] at hn
        | some c =>
          simp only [hget] at hn
          rw [List.cons_append, node.handlerAt_cons_some n c k _ hget]
          exact ih c hn
    exact hgen (keys pre) root hx
  apply Matcher.Register_duplicate m method t h root hroot
  rw [hsegs, hins]
  exact hb

/-- C9. Aliasing rule: for every matcher and every template whose final segment `l` is a
literal, when the node `x` reached through the keys of the preceding segments has no child
keyed by `l` but has a wildcard child `w` with a bound handler, `Register` returns the
duplicate-route error and the matcher is unchanged, so `x` still has no child keyed by
`l`. -/
theorem aliasing_rule_rejects (m : Matcher) (method : String) (root x w : node) (t : Handler)
    (pre : List String) (l : String)
    (hroot : mapGet m.nodes method = some root)
    (hsegs : t.Segments = pre ++ [l]) (hl : isParam l = false)
    (hx : root.at (pre.map segmentKey) = some x)
    (hno : mapGet x.nodes l = none)
    (hw : mapGet x.nodes pathvar = some w) (hwb : w.handler ≠ none) :
    m.Register method t = some (m, some duplicateRoute) ∧
      (∀ (root1 x1 : node), mapGet m.nodes method = some root1 →
        root1.at (pre.map segmentKey) = some x1 → mapGet x1.nodes l = none) := by
  refine ⟨Matcher.Register_aliased m method root x w t pre l hroot hsegs hl hx hno hw hwb, ?_⟩
  intro root1 x1 hroot1 hx1
  rw [hroot] at hroot1
  simp only [Option.some.injEq] at hroot1
  subst hroot1
  rw [hx] at hx1
  simp only [Option.some.injEq] at hx1
  subst hx1
  exact hno

/-- C9, on `/posts/:id/reviews/9` registered after `/posts/:id/reviews/:reviewID`. -/
theorem aliasing_rule_rejects_witness :
    (routeOf "/posts/:id/reviews/9" 7).Segments = ["posts", ":id", "reviews"] ++ ["9"] ∧
    (stateAfter [("GET", routeOf "/posts/:id/reviews/:reviewID" 6)]).1.Register "GET"
        (routeOf "/posts/:id/reviews/9" 7) =
      some ((stateAfter [("GET", routeOf "/posts/:id/reviews/:reviewID" 6)]).1,
        some duplicateRoute) :=
  ⟨by decide,
   (aliasing_rule_rejects
    (stateAfter [("GET", routeOf "/posts/:id/reviews/:reviewID" 6)]).1 "GET"
    (nodeAt (mapGet (stateAfter
      [("GET", routeOf "/posts/:id/reviews/:reviewID" 6)]).1.nodes "GET") [])
    (nodeAt (mapGet (stateAfter
      [("GET", routeOf "/posts/:id/reviews/:reviewID" 6)]).1.nodes "GET")
      ["posts", ":", "reviews"])
    (nodeAt (mapGet (stateAfter
      [("GET", routeOf "/posts/:id/reviews/:reviewID" 6)]).1.nodes "GET")
      ["posts", ":", "reviews", ":"])
    (routeOf "/posts/:id/reviews/9" 7) ["posts", ":id", "reviews"] "9"
    rfl (by decide) (by decide) rfl rfl rfl (by decide)).1⟩

/-! ## Literal and parameter routes at the same position -/

/-- C8, as stated, fails: on a new matcher, `/posts/:id` and then `/posts/99` registered
under `GET`; the second registration is rejected (only the first is logged) and the lookup
of `posts`, `99` returns the handler of `/posts/:id`, not a handler of `/posts/99`. -/
theorem literal_after_parameter_counterexample :
    (stateAfter [("GET", routeOf "/posts/:id" 1), ("GET", routeOf "/posts/99" 2)]).2 =
      [("GET", routeOf "/posts/:id" 1)] ∧
    (stateAfter [("GET", routeOf "/posts/:id" 1), ("GET", routeOf "/posts/99" 2)]).1.Find
      "GET" ["posts", "99"] = some (some (routeOf "/posts/:id" 1), true) ∧
    (stateAfter [("GET", routeOf "/posts/:id" 1), ("GET", routeOf "/posts/99" 2)]).1.Find
      "GET" ["posts", "99"] ≠ some (some (routeOf "/posts/99" 2), true) := by
  decide

theorem mapGet_methods (l : List String) (method : String) (hm : method ∈ l) :
    mapGet (l.map fun m => (m, node.fresh)) method = some node.fresh := by
  induction l with
  | nil => cases hm
  | cons a rest ih =>
    simp only [List.map_cons, mapGet]
    by_cases hk : a = method
    · simp [hk]
    · simp only [hk, if_false]
      rcases List.mem_cons.mp hm with h | h
      · exact absurd h.symm hk
      · exact ih h

theorem Matcher.Register_withRoute (m : Matcher) (method : String) (t : Handler)
    (root : node) (hroot : mapGet m.nodes method = some root)
    (hb : (root.insert t.segments).1.handlerAt (root.insert t.segments).2 = none) :
    m.Register method t =
      some ({ nodes := mapSet m.nodes method (root.withRoute t) }, none) :=
  Matcher.Register_bound m method t root hroot hb

theorem stateAfter_rejected (method : String) (t t1 h : Handler) (hm : method ∈ methods)
    (h0 : (node.fresh.insert t.segments).1.handlerAt (node.fresh.insert t.segments).2 = none)
    (h1 : ((node.fresh.withRoute t).insert t1.segments).1.handlerAt
      ((node.fresh.withRoute t).insert t1.segments).2 = some h) :
    matcherAfter Matcher.New method t =
      { nodes := mapSet Matcher.New.nodes method (node.fresh.withRoute t) } ∧
    (matcherAfter Matcher.New method t).Register method t1 =
      some (matcherAfter Matcher.New method t, some duplicateRoute) ∧
    stateAfter [(method, t), (method, t1)] =
      ({ nodes := mapSet Matcher.New.nodes method (node.fresh.withRoute t) },
        [(method, t)]) := by
  have hroot := mapGet_methods methods method hm
  have hr1 := Matcher.Register_withRoute Matcher.New method t node.fresh hroot h0
  have hma : matcherAfter Matcher.New method t =
      { nodes := mapSet Matcher.New.nodes method (node.fresh.withRoute t) } := by
    simp only [matcherAfter, hr1]
  have hr2 := Matcher.Register_duplicate
    { nodes := mapSet Matcher.New.nodes method (node.fresh.withRoute t) } method t1 h
    (node.fresh.withRoute t) (mapGet_mapSet_same _ _ _) h1
  refine ⟨hma, ?_, ?_⟩
  · rw [hma]; exact hr2
  · simp only [stateAfter, registerAll, registerStep, hr1, hr2]

theorem stateAfter_accepted (method : String) (t t1 : Handler) (hm : method ∈ methods)
    (h0 : (node.fresh.insert t.segments).1.handlerAt (node.fresh.insert t.segments).2 = none)
    (h1 : ((node.fresh.withRoute t).insert t1.segments).1.handlerAt
      ((node.fresh.withRoute t).insert t1.segments).2 = none) :
    stateAfter [(method, t), (method, t1)] =
      ({ nodes := mapSet (mapSet Matcher.New.nodes method (node.fresh.withRoute t)) method
          ((node.fresh.withRoute t).withRoute t1) },
        [(method, t1), (method, t)]) := by
  have hroot := mapGet_methods methods method hm
  have hr1 := Matcher.Register_withRoute Matcher.New method t node.fresh hroot h0
  have hr2 := Matcher.Register_withRoute
    { nodes := mapSet Matcher.New.nodes method (node.fresh.withRoute t) } method t1
    (node.fresh.withRoute t) (mapGet_mapSet_same _ _ _) h1
  simp only [stateAfter, registerAll, registerStep, hr1, hr2]

/-- C8 as amended. On a new matcher and for every supported method: after `/posts/:id` and
then `/posts/99`, the second registration is rejected with the duplicate-route error and the
lookup of `posts`, `99` returns the handler of `/posts/:id`; after `/posts/99` and then
`/posts/:id`, both registrations succeed and the lookup returns the handler of
`/posts/99`. -/
theorem literal_priority_by_order (method : String) (h1 h2 : HTTPHandler)
    (hm : method ∈ methods) :
    ((matcherAfter Matcher.New method (routeOf "/posts/:id" h1)).Register method
        (routeOf "/posts/99" h2) =
      some (matcherAfter Matcher.New method (routeOf "/posts/:id" h1), some duplicateRoute) ∧
     (stateAfter [(method, routeOf "/posts/:id" h1), (method, routeOf "/posts/99" h2)]).2 =
      [(method, routeOf "/posts/:id" h1)] ∧
     (stateAfter [(method, routeOf "/posts/:id" h1), (method, routeOf "/posts/99" h2)]).1.Find
      method ["posts", "99"] = some (some (routeOf "/posts/:id" h1), true)) ∧
    ((stateAfter [(method, routeOf "/posts/99" h2), (method, routeOf "/posts/:id" h1)]).2 =
      [(method, routeOf "/posts/:id" h1), (method, routeOf "/posts/99" h2)] ∧
     (stateAfter [(method, routeOf "/posts/99" h2), (method, routeOf "/posts/:id" h1)]).1.Find
      method ["posts", "99"] = some (some (routeOf "/posts/99" h2), true)) := by
  obtain ⟨hma, hrej, hst⟩ := stateAfter_rejected method (routeOf "/posts/:id" h1)
    (routeOf "/posts/99" h2) (routeOf "/posts/:id" h1) hm rfl rfl
  have hacc := stateAfter_accepted method (routeOf "/posts/99" h2) (routeOf "/posts/:id" h1)
    hm rfl rfl
  refine ⟨⟨hrej, ?_, ?_⟩, ?_, ?_⟩
  · rw [hst]
  · rw [hst, Matcher.Find_cons]
    simp only
    rw [mapGet_mapSet_same]
    rfl
  · rw [hacc]
  · rw [hacc, Matcher.Find_cons]
    simp only
    rw [mapGet_mapSet_same]
    rfl

/-- C8 as amended, for `POST`. -/
theorem literal_priority_by_order_witness :
    "POST" ∈ methods ∧
    (stateAfter [("POST", routeOf "/posts/:id" 1), ("POST", routeOf "/posts/99" 2)]).1.Find
      "POST" ["posts", "99"] = some (some (routeOf "/posts/:id" 1), true) ∧
    (stateAfter [("POST", routeOf "/posts/99" 2), ("POST", routeOf "/posts/:id" 1)]).1.Find
      "POST" ["posts", "99"] = some (some (routeOf "/posts/99" 2), true) :=
  ⟨by decide, (literal_priority_by_order "POST" 1 2 (by decide)).1.2.2,
    (literal_priority_by_order "POST" 1 2 (by decide)).2.2⟩

/-- C10, as stated, fails: `/posts/:id`, then `/posts/99/c`, then `/posts/99` under `GET`
all succeed; the literal route registered after the parameter route is bound next to it. -/
theorem coexistence_counterexample :
    (stateAfter [("GET", routeOf "/posts/:id" 1), ("GET", routeOf "/posts/99/c" 2),
        ("GET", routeOf "/posts/99" 3)]).2 =
      [("GET", routeOf "/posts/99" 3), ("GET", routeOf "/posts/99/c" 2),
        ("GET", routeOf "/posts/:id" 1)] ∧
    (stateAfter [("GET", routeOf "/posts/:id" 1),
        ("GET", routeOf "/posts/99/c" 2)]).1.Register "GET" (routeOf "/posts/99" 3) ≠
      some ((stateAfter [("GET", routeOf "/posts/:id" 1),
        ("GET", routeOf "/posts/99/c" 2)]).1, some duplicateRoute) ∧
    (stateAfter [("GET", routeOf "/posts/:id" 1), ("GET", routeOf "/posts/99/c" 2),
        ("GET", routeOf "/posts/99" 3)]).1.Find "GET" ["posts", "99"] =
      some (some (routeOf "/posts/99" 3), true) ∧
    (stateAfter [("GET", routeOf "/posts/:id" 1), ("GET", routeOf "/posts/99/c" 2),
        ("GET", routeOf "/posts/99" 3)]).1.Find "GET" ["posts", "5"] =
      some (some (routeOf "/posts/:id" 1), true) := by
  refine ⟨by decide, ?_, by decide, by decide⟩
  intro h
  have h1 : ((stateAfter [("GET", routeOf "/posts/:id" 1),
      ("GET", routeOf "/posts/99/c" 2)]).1.Register "GET" (routeOf "/posts/99" 3)).map
        Prod.snd = some (some duplicateRoute) := by
    rw [h]
    rfl
  exact absurd h1 (by decide)

theorem node.handlerAt_snoc (p : List String) (k : String) (h : Handler) :
    ∀ n : node, n.handlerAt (p ++ [k]) = some h →
      ∃ x w, n.at p = some x ∧ mapGet x.nodes k = some w ∧ w.handler = some h := by
  induction p with
  | nil =>
    intro n hn
    rw [List.nil_append, node.handlerAt_cons] at hn
    cases hget : mapGet n.nodes k with
    | none => simp [hget] at hn
    | some w =>
      simp only [hget, node.handlerAt_nil] at hn
      exact ⟨n, w, rfl, hget, hn⟩
  | cons k1 p1 ih =>
    intro n hn
    rw [List.cons_append, node.handlerAt_cons] at hn
    cases hget : mapGet n.nodes k1 with
    | none => simp [hget] at hn
    | some c =>
      simp only [hget] at hn
      obtain ⟨x, w, hx, hw, hh⟩ := ih c hn
      refine ⟨x, w, ?_, hw, hh⟩
      rw [node.at_cons, hget]
      exact hx

theorem node.at_snoc (p : List String) (k : String) (x c : node) :
    ∀ n : node, n.at p = some x → mapGet x.nodes k = some c →
      (n.at (p ++ [k])).isSome = true := by
  induction p with
  | nil =>
    intro n hn hc
    simp only [node.at_nil, Option.some.injEq] at hn
    subst hn
    rw [List.nil_append, node.at_cons, hc]
    rfl
  | cons k1 p1 ih =>
    intro n hn hc
    rw [node.at_cons] at hn
    cases hget : mapGet n.nodes k1 with
    | none => simp [hget] at hn
    | some c1 =>
      simp only [hget] at hn
      rw [List.cons_append, node.at_cons, hget]
      exact ih c1 hn hc

theorem keys_snoc (pre : List String) (a : String) :
    keys (pre ++ [a]) = keys pre ++ [segmentKey a] := by
  simp [keys]

/-- C10 as amended. On a reachable matcher, once a template `pre ++ [p]` with a parameter
final segment has been registered successfully under `method`, registering a template
`pre ++ [l]` with a literal final segment under `method` returns the duplicate-route error,
leaves the matcher unchanged and the literal route unbound, provided no template registered
successfully under `method` so far has the keys of `pre` followed by `l` as a prefix of its
keys (no registered route passes through that literal at that position). -/
theorem aliasing_prevents_coexistence (calls : List (String × Handler))
    (st : Matcher × List (String × Handler)) (method : String) (t t1 : Handler)
    (pre : List String) (p l : String)
    (hrun : registerAll (Matcher.New, []) calls = some st)
    (hreg : (method, t) ∈ st.2)
    (ht : t.Segments = pre ++ [p]) (hp : isParam p = true)
    (ht1 : t1.Segments = pre ++ [l]) (hl : isParam l = false)
    (hfree : ∀ h : Handler, (method, h) ∈ st.2 →
      ¬ (pre.map segmentKey ++ [l]) <+: h.Segments.map segmentKey) :
    st.1.Register method t1 = some (st.1, some duplicateRoute) ∧ (method, t1) ∉ st.2 := by
  have hinv := Inv_reachable calls st hrun
  have hts : t.segments = pre ++ [p] := ht
  have ht1s : t1.segments = pre ++ [l] := ht1
  obtain ⟨root, hroot, hb⟩ := hinv.logged method t hreg
  rw [hts, keys_snoc, segmentKey_param p hp] at hb
  obtain ⟨x, w, hx, hw, hwh⟩ := node.handlerAt_snoc (keys pre) pathvar t root hb
  have hno : mapGet x.nodes l = none := by
    cases hget : mapGet x.nodes l with
    | none => rfl
    | some c =>
      exfalso
      have hsome := node.at_snoc (keys pre) l x c root hx hget
      obtain ⟨h, hlog, hpre⟩ := hinv.onPath method root (keys pre ++ [l]) hroot hsome (by simp)
      exact hfree h hlog hpre
  refine ⟨?_, ?_⟩
  · refine Matcher.Register_aliased st.1 method root x w t1 pre l hroot ht1s hl hx hno hw ?_
    rw [hwh]
    simp
  · intro hmem
    apply hfree t1 hmem
    have : List.map segmentKey t1.Segments = keys pre ++ [l] := by
      show keys t1.segments = _
      rw [ht1s, keys_snoc, segmentKey_literal l hl]
    rw [this]
    exact List.prefix_refl _

/-- C10 as amended, on `/posts/99` registered after `/posts/:id` and `/comments`. -/
theorem aliasing_prevents_coexistence_witness :
    ("GET", routeOf "/posts/:id" 1) ∈
        (stateAfter [("GET", routeOf "/posts/:id" 1), ("GET", routeOf "/comments" 2)]).2 ∧
    (stateAfter [("GET", routeOf "/posts/:id" 1),
        ("GET", routeOf "/comments" 2)]).1.Register "GET" (routeOf "/posts/99" 3) =
      some ((stateAfter [("GET", routeOf "/posts/:id" 1), ("GET", routeOf "/comments" 2)]).1,
        some duplicateRoute) ∧
    ("GET", routeOf "/posts/99" 3) ∉
        (stateAfter [("GET", routeOf "/posts/:id" 1), ("GET", routeOf "/comments" 2)]).2 :=
  ⟨by decide,
   aliasing_prevents_coexistence
    [("GET", routeOf "/posts/:id" 1), ("GET", routeOf "/comments" 2)]
    (stateAfter [("GET", routeOf "/posts/:id" 1), ("GET", routeOf "/comments" 2)])
    "GET" (routeOf "/posts/:id" 1) (routeOf "/posts/99" 3) ["posts"] ":id" "99"
    rfl (by decide) (by decide) (by decide) (by decide) (by decide)
    (by
      intro h hlog
      have hl : (stateAfter [("GET", routeOf "/posts/:id" 1),
          ("GET", routeOf "/comments" 2)]).2 =
          [("GET", routeOf "/comments" 2), ("GET", routeOf "/posts/:id" 1)] := by decide
      rw [hl] at hlog
      simp only [List.mem_cons, Prod.mk.injEq, true_and, List.mem_nil_iff, or_false] at hlog
      rcases hlog with h1 | h1
      · rw [h1]
        decide
      · rw [h1]
        decide)⟩

/-! ## Parameters of a template -/

theorem mapGet_none_of_not_mem {α : Type} (l : List (String × α)) (k : String)
    (hk : k ∉ l.map Prod.fst) : mapGet l k = none := by
  induction l with
  | nil => rfl
  | cons e rest ih =>
    obtain ⟨k1, v⟩ := e
    simp only [List.map_cons, List.mem_cons, not_or] at hk
    simp only [mapGet]
    rw [if_neg (fun h => hk.1 h.symm)]
    exact ih hk.2

theorem mapGet_mem {α : Type} (l : List (String × α)) (k : String) (v : α)
    (hget : mapGet l k = some v) : (k, v) ∈ l := by
  induction l with
  | nil => simp [mapGet] at hget
  | cons e rest ih =>
    obtain ⟨k1, w⟩ := e
    simp only [mapGet] at hget
    by_cases hk : k1 = k
    · simp only [hk, if_true, Option.some.injEq] at hget
      subst hk; subst hget
      exact List.mem_cons_self _ _
    · simp only [hk, if_false] at hget
      exact List.mem_cons_of_mem _ (ih hget)

theorem mapSet_keys {α : Type} (l : List (String × α)) (k : String) (v : α) :
    (mapSet l k v).map Prod.fst =
      if k ∈ l.map Prod.fst then l.map Prod.fst else l.map Prod.fst ++ [k] := by
  induction l with
  | nil => simp [mapSet]
  | cons e rest ih =>
    obtain ⟨k1, w⟩ := e
    by_cases hk : k1 = k
    · subst hk
      simp [mapSet]
    · have hk1 : ¬ k = k1 := fun h => hk h.symm
      simp only [mapSet, hk, if_false, List.map_cons, ih, List.mem_cons, hk1, false_or]
      split <;> simp

theorem mapSet_nodup {α : Type} (l : List (String × α)) (k : String) (v : α)
    (hn : (l.map Prod.fst).Nodup) : ((mapSet l k v).map Prod.fst).Nodup := by
  rw [mapSet_keys]
  split
  · exact hn
  · rename_i hk
    rw [List.nodup_append]
    refine ⟨hn, List.nodup_singleton k, ?_⟩
    intro a ha hb
    simp only [List.mem_singleton] at hb
    subst hb
    exact hk ha

theorem paramName_mk (c : Char) (name : List Char) :
    paramName (String.mk (c :: name)) =
      if c = paramInitialChar then some (String.mk name) else none := rfl

/-- The effect of `addSegment` in terms of the declared name of the new segment. -/
theorem addSegment_eq (st st1 : SplitState) (segment : List Char)
    (hadd : addSegment st segment = some st1) :
    st1.segments = st.segments ++ [String.mk segment] ∧
    st1.params = (match paramName (String.mk segment) with
      | some name => mapSet st.params name st.segments.length
      | none => st.params) := by
  cases segment with
  | nil => simp [addSegment] at hadd
  | cons c name =>
    simp only [addSegment, Option.some.injEq] at hadd
    subst hadd
    refine ⟨rfl, ?_⟩
    rw [paramName_mk]
    by_cases hc : c = paramInitialChar
    · simp [hc]
    · simp [hc]

theorem ParamsOK_snoc (segs : List String) (params : List (String × Nat)) (new : String)
    (hok : ParamsOK segs params) :
    ParamsOK (segs ++ [new]) (match paramName new with
      | some name => mapSet params name segs.length
      | none => params) := by
  have hold : ∀ (name : String) (i : Nat), paramName new ≠ some name →
      lastParamAt segs name i → lastParamAt (segs ++ [new]) name i := by
    intro name i hne ⟨⟨seg, hseg, hpn⟩, hlast⟩
    have hi : i < segs.length := by
      rcases Nat.lt_or_ge i segs.length with h | h
      · exact h
      · rw [List.getElem?_eq_none h] at hseg
        cases hseg
    refine ⟨⟨seg, ?_, hpn⟩, ?_⟩
    · rw [List.getElem?_append_left hi]
      exact hseg
    · intro j seg1 hj hpn1
      rcases Nat.lt_or_ge j segs.length with h | h
      · rw [List.getElem?_append_left h] at hj
        exact hlast j seg1 hj hpn1
      · exfalso
        rw [List.getElem?_append_right h] at hj
        cases hjl : j - segs.length with
        | zero =>
          rw [hjl] at hj
          simp only [List.getElem?_cons_zero, Option.some.injEq] at hj
          subst hj
          exact hne hpn1
        | succ k =>
          rw [hjl] at hj
          simp at hj
  have hmem : ∀ (seg name : String), seg ∈ segs ++ [new] → paramName seg = some name →
      paramName new ≠ some name → seg ∈ segs := by
    intro seg name hseg hpn hne
    rcases List.mem_append.mp hseg with h | h
    · exact h
    · simp only [List.mem_singleton] at h
      subst h
      exact absurd hpn hne
  cases hnew : paramName new with
  | none =>
    simp only
    refine ⟨hok.nodup, ?_, ?_⟩
    · intro name i hget
      exact hold name i (by rw [hnew]; simp) (hok.sound name i hget)
    · intro seg name hseg hpn
      exact hok.complete seg name (hmem seg name hseg hpn (by rw [hnew]; simp)) hpn
  | some nm =>
    simp only
    refine ⟨mapSet_nodup _ _ _ hok.nodup, ?_, ?_⟩
    · intro name i hget
      by_cases hk : nm = name
      · subst hk
        rw [mapGet_mapSet_same] at hget
        simp only [Option.some.injEq] at hget
        subst hget
        refine ⟨⟨new, ?_, hnew⟩, ?_⟩
        · rw [List.getElem?_append_right (Nat.le_refl _)]
          simp
        · intro j seg1 hj _
          have hjl : j < (segs ++ [new]).length := by
            rcases Nat.lt_or_ge j (segs ++ [new]).length with h | h
            · exact h
            · rw [List.getElem?_eq_none h] at hj
              cases hj
          simp only [List.length_append, List.length_singleton] at hjl
          omega
      · rw [mapGet_mapSet_ne _ _ _ _ hk] at hget
        exact hold name i (by rw [hnew]; simp [hk]) (hok.sound name i hget)
    · intro seg name hseg hpn
      by_cases hk : nm = name
      · subst hk
        exact ⟨segs.length, mapGet_mapSet_same _ _ _⟩
      · rw [mapGet_mapSet_ne _ _ _ _ hk]
        exact hok.complete seg name (hmem seg name hseg hpn (by rw [hnew]; simp [hk])) hpn

theorem addSegment_ok (st st1 : SplitState) (segment : List Char)
    (hok : ParamsOK st.segments st.params) (hadd : addSegment st segment = some st1) :
    ParamsOK st1.segments st1.params := by
  obtain ⟨h1, h2⟩ := addSegment_eq st st1 segment hadd
  rw [h1, h2]
  exact ParamsOK_snoc _ _ _ hok

theorem splitLoop_ok (chars : List Char) :
    ∀ (cur : List Char) (st st1 : SplitState), ParamsOK st.segments st.params →
      splitLoop chars cur st = some st1 → ParamsOK st1.segments st1.params := by
  induction chars with
  | nil =>
    intro cur st st1 hok hrun
    exact addSegment_ok st st1 cur hok hrun
  | cons c rest ih =>
    intro cur st st1 hok hrun
    simp only [splitLoop] at hrun
    by_cases hc : c = separator
    · simp only [hc, if_true] at hrun
      cases hadd : addSegment st cur with
      | none => simp [hadd] at hrun
      | some st2 =>
        simp only [hadd] at hrun
        have hok2 := addSegment_ok st st2 cur hok hadd
        cases rest with
        | nil =>
          simp only [Option.some.injEq] at hrun
          subst hrun
          exact hok2
        | cons d rest1 =>
          simp only at hrun
          exact ih [] st2 st1 hok2 hrun
    · simp only [hc, if_false] at hrun
      exact ih (cur ++ [c]) st st1 hok hrun

/-- The parameter map of every template returned by `New` agrees with its segments. -/
theorem New_ok (path : String) (hh : Option HTTPHandler) (t : Handler)
    (hnew : New path hh = .ok t) : ParamsOK t.segments t.params := by
  have hempty : ParamsOK [] [] := by
    refine ⟨List.nodup_nil, ?_, ?_⟩
    · intro name i hget
      simp [mapGet] at hget
    · intro seg name hseg
      cases hseg
  unfold New at hnew
  cases hp : path.data with
  | nil => simp [hp] at hnew
  | cons c rest =>
    simp only [hp] at hnew
    by_cases hc : c = '/'
    · simp only [hc, ne_eq, not_true_eq_false, if_false] at hnew
      cases hh with
      | none => simp at hnew
      | some h1 =>
        simp only at hnew
        cases rest with
        | nil =>
          simp only [NewResult.ok.injEq] at hnew
          subst hnew
          have := ParamsOK_snoc [] [] "" hempty
          exact this
        | cons d rest1 =>
          simp only at hnew
          cases hrun : splitLoop (d :: rest1) [] { segments := [], params := [] } with
          | none => simp [hrun] at hnew
          | some st =>
            simp only [hrun, NewResult.ok.injEq] at hnew
            subst hnew
            exact splitLoop_ok (d :: rest1) [] _ st hempty hrun
    · simp [hc] at hnew

theorem paramsLoop_spec (s : List String) (l : List (String × Nat)) :
    (l.map Prod.fst).Nodup → (∀ (k : String) (i : Nat), (k, i) ∈ l → i < s.length) →
      ∀ acc : List (String × String), ∃ ps, paramsLoop s l acc = some ps ∧
        (∀ name : String, mapGet ps name =
          (match mapGet l name with
            | some i => s[i]?
            | none => mapGet acc name)) ∧
        ((acc.map Prod.fst).Nodup → (ps.map Prod.fst).Nodup) := by
  induction l with
  | nil =>
    intro _ _ acc
    exact ⟨acc, rfl, fun name => rfl, fun h => h⟩
  | cons e rest ih =>
    obtain ⟨k, i⟩ := e
    intro hn hb acc
    simp only [List.map_cons, List.nodup_cons] at hn
    have hi : i < s.length := hb k i (List.mem_cons_self _ _)
    have hget : s.get? i = some s[i] := by
      rw [List.get?_eq_getElem?]
      exact List.getElem?_eq_getElem hi
    obtain ⟨ps, hps, hval, hnd⟩ := ih hn.2
      (fun k1 i1 h1 => hb k1 i1 (List.mem_cons_of_mem _ h1)) (mapSet acc k s[i])
    refine ⟨ps, ?_, ?_, ?_⟩
    · simp only [paramsLoop, hget]
      exact hps
    · intro name
      rw [hval name]
      simp only [mapGet]
      by_cases hk : k = name
      · subst hk
        rw [mapGet_none_of_not_mem rest k hn.1]
        simp only [if_true]
        rw [mapGet_mapSet_same]
        exact (List.getElem?_eq_getElem hi).symm
      · simp only [hk, if_false]
        cases mapGet rest name with
        | some j => rfl
        | none =>
          simp only
          exact mapGet_mapSet_ne _ _ _ _ hk
    · intro hacc
      exact hnd (mapSet_nodup _ _ _ hacc)

/-- C5. For every template `t` returned by `New` and every request `s` at least as long as
the segments of `t`, `t.Params s` returns a map without a panic; its keys are exactly the
names declared by the parameter segments of `t`, each key once; and each name is bound to
the segment of `s` at the position the template stores for the name, which is the last
position of `t` whose segment declares that name. -/
theorem params_exact (path : String) (hh : HTTPHandler) (t : Handler) (s : List String)
    (hnew : New path (some hh) = .ok t) (hlen : t.Segments.length ≤ s.length) :
    ∃ ps, t.Params s = some ps ∧ (ps.map Prod.fst).Nodup ∧
      (∀ name : String, (mapGet ps name).isSome = true ↔
        ∃ seg, seg ∈ t.Segments ∧ paramName seg = some name) ∧
      (∀ name v : String, mapGet ps name = some v →
        ∃ (i : Nat) (seg : String), t.Segments[i]? = some seg ∧ paramName seg = some name ∧
          s[i]? = some v ∧
          ∀ (j : Nat) (seg1 : String), t.Segments[j]? = some seg1 →
            paramName seg1 = some name → j ≤ i) := by
  have hok := New_ok path (some hh) t hnew
  have hlen1 : t.segments.length ≤ s.length := hlen
  have hbound : ∀ (k : String) (i : Nat), mapGet t.params k = some i → i < s.length := by
    intro k i hget
    obtain ⟨⟨seg, hseg, _⟩, _⟩ := hok.sound k i hget
    rcases Nat.lt_or_ge i t.segments.length with h | h
    · omega
    · rw [List.getElem?_eq_none h] at hseg
      cases hseg
  have hmemb : ∀ (k : String) (i : Nat), (k, i) ∈ t.params → mapGet t.params k = some i := by
    intro k i hmem
    cases hget : mapGet t.params k with
    | none =>
      exfalso
      have hk : k ∈ t.params.map Prod.fst := List.mem_map.mpr ⟨(k, i), hmem, rfl⟩
      have hall : ∀ (l : List (String × Nat)) (k : String), k ∈ l.map Prod.fst →
          mapGet l k ≠ none := by
        intro l
        induction l with
        | nil => intro k hk; cases hk
        | cons e rest ih =>
          obtain ⟨k1, v⟩ := e
          intro k hk
          simp only [mapGet]
          by_cases h1 : k1 = k
          · simp [h1]
          · simp only [h1, if_false]
            simp only [List.map_cons, List.mem_cons] at hk
            rcases hk with h2 | h2
            · exact absurd h2.symm h1
            · exact ih k h2
      exact hall t.params k hk hget
    | some j =>
      have h1 := mapGet_mem t.params k j hget
      have hinj : ∀ (l : List (String × Nat)), (l.map Prod.fst).Nodup →
          ∀ (k : String) (a b : Nat), (k, a) ∈ l → (k, b) ∈ l → a = b := by
        intro l
        induction l with
        | nil => intro _ k a b ha; cases ha
        | cons e rest ih =>
          obtain ⟨k1, v⟩ := e
          intro hn k a b ha hb
          simp only [List.map_cons, List.nodup_cons] at hn
          rcases List.mem_cons.mp ha with ha1 | ha1
          · rcases List.mem_cons.mp hb with hb1 | hb1
            · simp only [Prod.mk.injEq] at ha1 hb1
              rw [ha1.2, hb1.2]
            · exfalso
              simp only [Prod.mk.injEq] at ha1
              apply hn.1
              rw [← ha1.1]
              exact List.mem_map.mpr ⟨(k, b), hb1, rfl⟩
          · rcases List.mem_cons.mp hb with hb1 | hb1
            · exfalso
              simp only [Prod.mk.injEq] at hb1
              apply hn.1
              rw [← hb1.1]
              exact List.mem_map.mpr ⟨(k, a), ha1, rfl⟩
            · exact ih hn.2 k a b ha1 hb1
      rw [hinj t.params hok.nodup k j i h1 hmem]
  obtain ⟨ps, hps, hval, hnd⟩ := paramsLoop_spec s t.params hok.nodup
    (fun k i hmem => hbound k i (hmemb k i hmem)) []
  refine ⟨ps, hps, hnd List.nodup_nil, ?_, ?_⟩
  · intro name
    rw [hval name]
    constructor
    · intro hsome
      cases hget : mapGet t.params name with
      | none => simp [hget, mapGet] at hsome
      | some i =>
        obtain ⟨⟨seg, hseg, hpn⟩, _⟩ := hok.sound name i hget
        exact ⟨seg, List.getElem?_mem hseg, hpn⟩
    · rintro ⟨seg, hseg, hpn⟩
      obtain ⟨i, hget⟩ := hok.complete seg name hseg hpn
      simp only [hget]
      rw [List.getElem?_eq_getElem (hbound name i hget)]
      rfl
  · intro name v hv
    rw [hval name] at hv
    cases hget : mapGet t.params name with
    | none => simp [hget, mapGet] at hv
    | some i =>
      simp only [hget] at hv
      obtain ⟨⟨seg, hseg, hpn⟩, hlast⟩ := hok.sound name i hget
      exact ⟨i, seg, hseg, hpn, hv, hlast⟩

/-- C5, on `/posts/:id/comments/:commentID` and the request `posts/7/comments/9/x`, one
segment longer than the template. -/
theorem params_exact_witness :
    New "/posts/:id/comments/:commentID" (some 5) =
      .ok (routeOf "/posts/:id/comments/:commentID" 5) ∧
    (routeOf "/posts/:id/comments/:commentID" 5).Params ["posts", "7", "comments", "9", "x"] =
      some [("id", "7"), ("commentID", "9")] ∧
    ∃ ps, (routeOf "/posts/:id/comments/:commentID" 5).Params
        ["posts", "7", "comments", "9", "x"] = some ps ∧ (ps.map Prod.fst).Nodup ∧
      (∀ name : String, (mapGet ps name).isSome = true ↔
        ∃ seg, seg ∈ (routeOf "/posts/:id/comments/:commentID" 5).Segments ∧
          paramName seg = some name) ∧
      (∀ name v : String, mapGet ps name = some v →
        ∃ (i : Nat) (seg : String),
          (routeOf "/posts/:id/comments/:commentID" 5).Segments[i]? = some seg ∧
          paramName seg = some name ∧
          ["posts", "7", "comments", "9", "x"][i]? = some v ∧
          ∀ (j : Nat) (seg1 : String),
            (routeOf "/posts/:id/comments/:commentID" 5).Segments[j]? = some seg1 →
              paramName seg1 = some name → j ≤ i) :=
  ⟨by decide, by decide,
   params_exact "/posts/:id/comments/:commentID" 5 (routeOf "/posts/:id/comments/:commentID" 5)
    ["posts", "7", "comments", "9", "x"] (by decide) (by decide)⟩

/-! ## The outcomes of `New` -/

theorem String.eq_empty_iff_data (s : String) : s = "" ↔ s.data = [] := by
  constructor
  · intro h
    rw [h]
  · intro h
    cases s
    simp only at h
    subst h
    rfl

/-- The four ways through `New`. -/
theorem New_cases (path : String) (h : Option HTTPHandler) :
    (path.data = [] ∧ New path h = .error "path can't be empty") ∨
    (∃ c rest, path.data = c :: rest ∧ c ≠ '/' ∧
      New path h = .error "path must start with '/' char") ∨
    (∃ rest, path.data = '/' :: rest ∧ h = none ∧ New path h = .error "handler can't be nil") ∨
    (∃ rest hh, path.data = '/' :: rest ∧ h = some hh ∧
      (New path h = .panic ∨ ∃ t, New path h = .ok t)) := by
  unfold New
  cases hp : path.data with
  | nil => left; exact ⟨rfl, rfl⟩
  | cons c rest =>
    right
    by_cases hc : c = '/'
    · right
      subst hc
      cases h with
      | none =>
        left
        exact ⟨rest, rfl, rfl, by simp⟩
      | some hh =>
        right
        refine ⟨rest, hh, rfl, rfl, ?_⟩
        simp only [ne_eq, not_true_eq_false, if_false]
        cases rest with
        | nil => right; exact ⟨_, rfl⟩
        | cons d rest1 =>
          simp only
          cases splitLoop (d :: rest1) [] { segments := [], params := [] } with
          | none => left; rfl
          | some st => right; exact ⟨_, rfl⟩
    · left
      exact ⟨c, rest, rfl, hc, by simp [hc]⟩

/-- C11. `New path h` returns the error `path can't be empty` exactly when the path is the
empty string, the error `path must start with '/' char` exactly when the path is not empty
and its first character is not the separator, and the error `handler can't be nil` exactly
when the path starts with the separator and `h` is nil, so the path errors come first; it
returns no other error, and it returns a template only for a path that starts with the
separator and a handler that is not nil. -/
theorem New_errors (path : String) (h : Option HTTPHandler) :
    (New path h = .error "path can't be empty" ↔ path = "") ∧
    (New path h = .error "path must start with '/' char" ↔
      ∃ c rest, path.data = c :: rest ∧ c ≠ '/') ∧
    (New path h = .error "handler can't be nil" ↔
      (∃ rest, path.data = '/' :: rest) ∧ h = none) ∧
    (∀ msg : String, New path h = .error msg →
      msg = "path can't be empty" ∨ msg = "path must start with '/' char" ∨
        msg = "handler can't be nil") ∧
    (∀ t : Handler, New path h = .ok t → (∃ rest, path.data = '/' :: rest) ∧ h ≠ none) := by
  rw [String.eq_empty_iff_data]
  rcases New_cases path h with ⟨hp, hn⟩ | ⟨c, rest, hp, hc, hn⟩ | ⟨rest, hp, hh, hn⟩ |
    ⟨rest, hh, hp, hh1, hn⟩
  · rw [hn, hp]
    refine ⟨by simp, ?_, ?_, ?_, ?_⟩
    · simp only [NewResult.error.injEq]
      constructor
      · intro he
        exact absurd he (by decide)
      · rintro ⟨c, rest, he, _⟩
        cases he
    · simp only [NewResult.error.injEq]
      constructor
      · intro he
        exact absurd he (by decide)
      · rintro ⟨⟨rest, he⟩, _⟩
        cases he
    · intro msg he
      simp only [NewResult.error.injEq] at he
      left; exact he.symm
    · intro t he
      cases he
  · rw [hn, hp]
    refine ⟨?_, ?_, ?_, ?_, ?_⟩
    · simp only [NewResult.error.injEq]
      constructor
      · intro he
        exact absurd he (by decide)
      · intro he
        cases he
    · simp only [true_iff]
      exact ⟨c, rest, rfl, hc⟩
    · simp only [NewResult.error.injEq]
      constructor
      · intro he
        exact absurd he (by decide)
      · rintro ⟨⟨rest1, he⟩, _⟩
        simp only [List.cons.injEq] at he
        exact absurd he.1 hc
    · intro msg he
      simp only [NewResult.error.injEq] at he
      right; left; exact he.symm
    · intro t he
      cases he
  · rw [hn, hp]
    refine ⟨?_, ?_, ?_, ?_, ?_⟩
    · simp only [NewResult.error.injEq]
      constructor
      · intro he
        exact absurd he (by decide)
      · intro he
        cases he
    · simp only [NewResult.error.injEq]
      constructor
      · intro he
        exact absurd he (by decide)
      · rintro ⟨c, rest1, he, hc⟩
        simp only [List.cons.injEq] at he
        exact absurd he.1.symm hc
    · simp only [true_iff]
      exact ⟨⟨rest, rfl⟩, hh⟩
    · intro msg he
      simp only [NewResult.error.injEq] at he
      right; right; exact he.symm
    · intro t he
      cases he
  · have hne : ∀ msg : String, New path h ≠ .error msg := by
      intro msg he
      rcases hn with hn | ⟨t, hn⟩
      · rw [hn] at he; cases he
      · rw [hn] at he; cases he
    rw [hp]
    refine ⟨?_, ?_, ?_, ?_, ?_⟩
    · constructor
      · intro he
        exact absurd he (hne _)
      · intro he
        cases he
    · constructor
      · intro he
        exact absurd he (hne _)
      · rintro ⟨c, rest1, he, hc⟩
        simp only [List.cons.injEq] at he
        exact absurd he.1.symm hc
    · constructor
      · intro he
        exact absurd he (hne _)
      · rintro ⟨_, he⟩
        rw [hh1] at he
        cases he
    · intro msg he
      exact absurd he (hne _)
    · intro t _
      refine ⟨⟨rest, rfl⟩, ?_⟩
      rw [hh1]
      simp

/-! ## The segments of a template and the pieces of its path -/

theorem String.mk_eq_empty_iff (cur : List Char) : String.mk cur = "" ↔ cur = [] := by
  rw [String.eq_empty_iff_data]

theorem splitPieces_ne_nil (chars : List Char) : ∀ cur : List Char, splitPieces chars cur ≠ [] := by
  induction chars with
  | nil => intro cur; simp [splitPieces]
  | cons c rest ih =>
    intro cur
    simp only [splitPieces]
    split
    · simp
    · exact ih _

theorem dropTrailingEmpty_cons (p : String) (ps : List String) (hps : ps ≠ []) :
    dropTrailingEmpty (p :: ps) = p :: dropTrailingEmpty ps := by
  cases ps with
  | nil => exact absurd rfl hps
  | cons q rest => rfl

theorem addSegment_segments (st : SplitState) (segment : List Char) :
    (segment = [] ∧ addSegment st segment = none) ∨
    (segment ≠ [] ∧ ∃ st1, addSegment st segment = some st1 ∧
      st1.segments = st.segments ++ [String.mk segment]) := by
  cases segment with
  | nil => left; exact ⟨rfl, rfl⟩
  | cons c name =>
    right
    exact ⟨by simp, _, rfl, rfl⟩

/-- The loops of `New` against `strings.Split`: the loops panic exactly when a piece other
than a final one is empty, and otherwise append the pieces without a final empty piece. -/
theorem splitLoop_pieces (chars : List Char) :
    ∀ (cur : List Char) (st : SplitState), (chars ≠ [] ∨ cur ≠ []) →
      (splitLoop chars cur st = none ∧ "" ∈ dropTrailingEmpty (splitPieces chars cur)) ∨
      (∃ st1, splitLoop chars cur st = some st1 ∧
        "" ∉ dropTrailingEmpty (splitPieces chars cur) ∧
        st1.segments = st.segments ++ dropTrailingEmpty (splitPieces chars cur)) := by
  induction chars with
  | nil =>
    intro cur st hne
    have hcur : cur ≠ [] := by
      rcases hne with h | h
      · exact absurd rfl h
      · exact h
    have hmk : String.mk cur ≠ "" := fun h => hcur ((String.mk_eq_empty_iff cur).mp h)
    rcases addSegment_segments st cur with ⟨h1, _⟩ | ⟨_, st1, h1, h2⟩
    · exact absurd h1 hcur
    · right
      refine ⟨st1, h1, ?_, ?_⟩
      · simp only [splitPieces, dropTrailingEmpty, hmk, if_false, List.mem_singleton]
        exact fun h => hmk h.symm
      · simp only [splitPieces, dropTrailingEmpty, hmk, if_false]
        exact h2
  | cons c rest ih =>
    intro cur st _
    by_cases hc : c = '/'
    · subst hc
      have hsp : splitPieces ('/' :: rest) cur = String.mk cur :: splitPieces rest [] := by
        simp [splitPieces]
      rw [hsp, dropTrailingEmpty_cons _ _ (splitPieces_ne_nil rest [])]
      rcases addSegment_segments st cur with ⟨h1, h2⟩ | ⟨h1, st1, h2, h3⟩
      · left
        refine ⟨?_, ?_⟩
        · simp [splitLoop, separator, h2]
        · rw [h1]
          exact List.mem_cons_self _ _
      · have hmk : String.mk cur ≠ "" := fun h => h1 ((String.mk_eq_empty_iff cur).mp h)
        cases rest with
        | nil =>
          right
          refine ⟨st1, ?_, ?_, ?_⟩
          · simp [splitLoop, separator, h2]
          · simp only [splitPieces, dropTrailingEmpty]
            simp only [show String.mk [] = "" from rfl, if_true, List.mem_singleton]
            exact fun h => hmk h.symm
          · simp only [splitPieces, dropTrailingEmpty]
            simp only [show String.mk [] = "" from rfl, if_true]
            exact h3
        | cons d rest1 =>
          have hloop : splitLoop ('/' :: d :: rest1) cur st = splitLoop (d :: rest1) [] st1 := by
            simp [splitLoop, separator, h2]
          rw [hloop]
          rcases ih [] st1 (Or.inl (by simp)) with ⟨h4, h5⟩ | ⟨st2, h4, h5, h6⟩
          · left
            exact ⟨h4, List.mem_cons_of_mem _ h5⟩
          · right
            refine ⟨st2, h4, ?_, ?_⟩
            · intro hmem
              rcases List.mem_cons.mp hmem with h7 | h7
              · exact hmk h7.symm
              · exact h5 h7
            · rw [h6, h3]
              simp
    · have hsp : splitPieces (c :: rest) cur = splitPieces rest (cur ++ [c]) := by
        simp [splitPieces, hc]
      have hloop : splitLoop (c :: rest) cur st = splitLoop rest (cur ++ [c]) st := by
        simp [splitLoop, separator, hc]
      rw [hsp, hloop]
      exact ih (cur ++ [c]) st (Or.inr (by simp))

/-- The segments of a template against `strings.Split`, for a path of at least two
characters that starts with the separator: `New` panics exactly when a piece of the rest of
the path, other than a final one, is empty, and otherwise returns the pieces without a final
empty piece. -/
theorem New_pieces (path : String) (hh : HTTPHandler) (d : Char) (rest : List Char)
    (hp : path.data = '/' :: d :: rest) :
    (New path (some hh) = .panic ∧ "" ∈ dropTrailingEmpty (stringsSplit (d :: rest))) ∨
    (∃ t, New path (some hh) = .ok t ∧ "" ∉ dropTrailingEmpty (stringsSplit (d :: rest)) ∧
      t.segments = dropTrailingEmpty (stringsSplit (d :: rest))) := by
  unfold New
  simp only [hp, ne_eq, not_true_eq_false, if_false]
  rcases splitLoop_pieces (d :: rest) [] { segments := [], params := [] } (Or.inl (by simp))
    with ⟨h1, h2⟩ | ⟨st1, h1, h2, h3⟩
  · left
    rw [h1]
    exact ⟨rfl, h2⟩
  · right
    rw [h1]
    refine ⟨_, rfl, h2, ?_⟩
    simpa using h3

/-- C12: `New` on a path with a final separator. The template of `/a/` has the one segment
`a`, while `strings.Split` of the path without its leading separator gives the pieces `a`
and the empty string. -/
theorem New_drops_final_empty_piece :
    New "/a/" (some 7) = .ok { HTTPHandler := 7, segments := ["a"], params := [] } ∧
    stringsSplit "a/".data = ["a", ""] := by
  decide

/-- C13: `New` on a path with an empty piece. For `//` and for `/a//b`, with a handler that
is not nil, the expression `segment[0]` is evaluated on an empty segment and `New` stops
with a run-time panic instead of returning a template or an error. -/
theorem New_panics_on_empty_piece :
    New "//" (some 7) = .panic ∧ New "/a//b" (some 7) = .panic := by
  decide

/-! ## The parameter map and the segments of a template -/

theorem paramName_iff (seg n : String) : paramName seg = some n ↔ seg = ":" ++ n := by
  have happ : (":" ++ n).data = ':' :: n.data := by
    rw [String.data_append]
    rfl
  constructor
  · intro h
    unfold paramName at h
    cases hd : seg.data with
    | nil => simp [hd] at h
    | cons c name =>
      simp only [hd] at h
      by_cases hc : c = paramInitialChar
      · simp only [hc, if_true, Option.some.injEq] at h
        apply String.ext
        rw [happ, hd, hc, ← h]
        rfl
      · simp [hc] at h
  · intro h
    unfold paramName
    rw [h, happ]
    simp [paramInitialChar]

/-- C14. For every template returned by `New`, the map `params` has the key `n` exactly
when some segment is `:` followed by `n`, so literal segments give no entry; each key is
there once; the position stored for `n` is smaller than the number of segments, the segment
at that position is `:` followed by `n`, and no later segment is. -/
theorem New_params_map (path : String) (h : Option HTTPHandler) (t : Handler)
    (hnew : New path h = .ok t) :
    (∀ n : String, (mapGet t.params n).isSome = true ↔ (":" ++ n) ∈ t.Segments) ∧
    (t.params.map Prod.fst).Nodup ∧
    (∀ (n : String) (i : Nat), mapGet t.params n = some i →
      i < t.Segments.length ∧ t.Segments[i]? = some (":" ++ n) ∧
        ∀ j : Nat, t.Segments[j]? = some (":" ++ n) → j ≤ i) := by
  have hok := New_ok path h t hnew
  refine ⟨?_, hok.nodup, ?_⟩
  · intro n
    constructor
    · intro hsome
      obtain ⟨i, hi⟩ := Option.isSome_iff_exists.mp hsome
      obtain ⟨⟨seg, hseg, hpn⟩, _⟩ := hok.sound n i hi
      rw [(paramName_iff seg n).mp hpn] at hseg
      exact List.getElem?_mem hseg
    · intro hmem
      obtain ⟨i, hi⟩ := hok.complete (":" ++ n) n hmem ((paramName_iff _ n).mpr rfl)
      rw [hi]
      rfl
  · intro n i hi
    obtain ⟨⟨seg, hseg, hpn⟩, hlast⟩ := hok.sound n i hi
    rw [(paramName_iff seg n).mp hpn] at hseg
    refine ⟨?_, hseg, ?_⟩
    · rcases Nat.lt_or_ge i t.segments.length with hlt | hge
      · exact hlt
      · rw [List.getElem?_eq_none hge] at hseg
        cases hseg
    · intro j hj
      exact hlast j (":" ++ n) hj ((paramName_iff _ n).mpr rfl)

/-- C14, on `/:id/x/:id`, where the name `id` occurs at positions 0 and 2. -/
theorem New_params_map_witness :
    New "/:id/x/:id" (some 1) = .ok (routeOf "/:id/x/:id" 1) ∧
    mapGet (routeOf "/:id/x/:id" 1).params "id" = some 2 ∧
    (2 < (routeOf "/:id/x/:id" 1).Segments.length ∧
      (routeOf "/:id/x/:id" 1).Segments[2]? = some (":" ++ "id") ∧
      ∀ j : Nat, (routeOf "/:id/x/:id" 1).Segments[j]? = some (":" ++ "id") → j ≤ 2) :=
  ⟨by decide, by decide,
   (New_params_map "/:id/x/:id" (some 1) (routeOf "/:id/x/:id" 1) (by decide)).2.2 "id" 2
    (by decide)⟩

theorem splitLoop_length (chars : List Char) :
    ∀ (cur : List Char) (st st1 : SplitState), splitLoop chars cur st = some st1 →
      st.segments.length < st1.segments.length := by
  induction chars with
  | nil =>
    intro cur st st1 hrun
    rcases addSegment_segments st cur with ⟨_, h1⟩ | ⟨_, st2, h1, h2⟩
    · simp only [splitLoop] at hrun
      rw [h1] at hrun
      cases hrun
    · simp only [splitLoop] at hrun
      rw [h1] at hrun
      simp only [Option.some.injEq] at hrun
      subst hrun
      rw [h2]
      simp
  | cons c rest ih =>
    intro cur st st1 hrun
    simp only [splitLoop] at hrun
    by_cases hc : c = separator
    · simp only [hc, if_true] at hrun
      rcases addSegment_segments st cur with ⟨_, h1⟩ | ⟨_, st2, h1, h2⟩
      · rw [h1] at hrun
        cases hrun
      · rw [h1] at hrun
        have hlt : st.segments.length < st2.segments.length := by
          rw [h2]
          simp
        cases rest with
        | nil =>
          simp only [Option.some.injEq] at hrun
          subst hrun
          exact hlt
        | cons d rest1 =>
          simp only at hrun
          exact Nat.lt_trans hlt (ih [] st2 st1 hrun)
    · simp only [hc, if_false] at hrun
      exact ih (cur ++ [c]) st st1 hrun

/-- C15. Every template returned by `New` has at least one segment, and for the root path
`/` it has exactly one segment, the empty string, and an empty parameter map. -/
theorem New_has_segment (path : String) (h : Option HTTPHandler) (t : Handler)
    (hnew : New path h = .ok t) :
    1 ≤ t.Segments.length ∧ (path = "/" → t.Segments = [""] ∧ t.params = []) := by
  have hnew1 := hnew
  unfold New at hnew
  cases hp : path.data with
  | nil => simp [hp] at hnew
  | cons c rest =>
    simp only [hp] at hnew
    by_cases hc : c = '/'
    · simp only [hc, ne_eq, not_true_eq_false, if_false] at hnew
      cases h with
      | none => simp at hnew
      | some hh =>
        simp only at hnew
        cases rest with
        | nil =>
          simp only [NewResult.ok.injEq] at hnew
          subst hnew
          exact ⟨Nat.le_refl _, fun _ => ⟨rfl, rfl⟩⟩
        | cons d rest1 =>
          simp only at hnew
          cases hrun : splitLoop (d :: rest1) [] { segments := [], params := [] } with
          | none => simp [hrun] at hnew
          | some st =>
            simp only [hrun, NewResult.ok.injEq] at hnew
            subst hnew
            refine ⟨?_, ?_⟩
            · have := splitLoop_length (d :: rest1) [] _ st hrun
              exact this
            · intro hroot
              rw [hroot] at hp
              cases hp
    · simp [hc] at hnew

/-- C15, on the root path. -/
theorem New_has_segment_witness :
    New "/" (some 3) = .ok (routeOf "/" 3) ∧
    1 ≤ (routeOf "/" 3).Segments.length ∧
    (routeOf "/" 3).Segments = [""] ∧ (routeOf "/" 3).params = [] :=
  ⟨by decide, (New_has_segment "/" (some 3) (routeOf "/" 3) (by decide)).1,
    (New_has_segment "/" (some 3) (routeOf "/" 3) (by decide)).2 rfl⟩

/-! ## `Find` without segments -/

/-- C16: `Find` without segments after the registration of `/`. On a new matcher the
template of `/` is registered under `GET` without error; it is bound at the child keyed by
its one segment, the empty string, and the root keeps no handler, so `Find` without segments
returns `(nil, false)` while `Find` on the one empty segment returns the template. -/
theorem Find_empty_misses_root_route :
    (stateAfter [("GET", routeOf "/" 1)]).2 = [("GET", routeOf "/" 1)] ∧
    (stateAfter [("GET", routeOf "/" 1)]).1.Find "GET" [] = some (none, false) ∧
    (stateAfter [("GET", routeOf "/" 1)]).1.Find "GET" [""] =
      some (some (routeOf "/" 1), true) := by
  decide

/-- C17: `Find` without segments under a method that has no root. On a new matcher and the
method `na`, `Find` without segments dereferences the missing root and stops with a run-time
panic, while `Find` on a non-empty request returns `(nil, false)` through the nil test of
`search`. -/
theorem Find_empty_panics_without_root :
    Matcher.New.Find "na" [] = none ∧
    Matcher.New.Find "na" ["posts"] = some (none, false) := by
  decide

/-! ## The router: gating, selection and interceptors -/

theorem router.isAllowedScheme_iff (r : router) (v : String) :
    r.isAllowedScheme v = true ↔
      ((mapGet r.schemes v).isSome = true ∨ (mapGet r.schemes matchall).isSome = true) := by
  unfold router.isAllowedScheme
  cases mapGet r.schemes v <;> simp

theorem router.isAllowedHostname_iff (r : router) (v : String) :
    r.isAllowedHostname v = true ↔
      ((mapGet r.hostnames v).isSome = true ∨ (mapGet r.hostnames matchall).isSome = true) := by
  unfold router.isAllowedHostname
  cases mapGet r.hostnames v <;> simp

theorem Params_WithValue (ctx : Context) (params : List (String × String)) :
    Params (ctx.WithValue CtxParams (.params params)) = some params := by
  simp [Params, Context.WithValue, Context.Value]

theorem router.dispatch_of_select (r : router) (req : Request) (h : HTTPHandler)
    (params : List (String × String)) (hsel : r.selectHandler req = some (h, params)) :
    r.dispatch req =
      some { handler := r.wrap h,
             request := { req with ctx := req.ctx.WithValue CtxParams (.params params) } } := by
  simp only [router.dispatch, hsel]

/-- The wrapping loop nests the interceptors with the first one outermost. -/
theorem router.wrap_eq_foldr (r : router) (h : HTTPHandler) :
    r.wrap h = r.interceptors.foldr (fun interceptor acc => interceptor acc) h := by
  unfold router.wrap
  rw [List.foldl_reverse]

/-- C18. Gating: when the scheme of the request is not in the allowed-scheme set and the
set does not contain `*`, or the hostname is not in the allowed-hostname set and that set
does not contain `*`, `ServeHTTP` selects the not-found handler with an empty parameter map
and calls it, wrapped, with that map in the context, whatever the matcher holds; a scheme or
hostname is allowed exactly when it is in its set or `*` is. -/
theorem gating_selects_notfound (r : router) (req : Request)
    (hgate : (mapGet r.schemes req.Scheme = none ∧ mapGet r.schemes matchall = none) ∨
      (mapGet r.hostnames req.Hostname = none ∧ mapGet r.hostnames matchall = none)) :
    r.selectHandler req = some (r.notfound, []) ∧
    r.dispatch req =
      some { handler := r.wrap r.notfound,
             request := { req with ctx := req.ctx.WithValue CtxParams (.params []) } } ∧
    (∀ v : String, r.isAllowedScheme v = true ↔
      ((mapGet r.schemes v).isSome = true ∨ (mapGet r.schemes matchall).isSome = true)) ∧
    (∀ v : String, r.isAllowedHostname v = true ↔
      ((mapGet r.hostnames v).isSome = true ∨
        (mapGet r.hostnames matchall).isSome = true)) := by
  have hsel : r.selectHandler req = some (r.notfound, []) := by
    unfold router.selectHandler
    rcases hgate with ⟨h1, h2⟩ | ⟨h1, h2⟩
    · have : r.isAllowedScheme req.Scheme = false := by
        simp [router.isAllowedScheme, h1, h2]
      simp [this]
    · have : r.isAllowedHostname req.Hostname = false := by
        simp [router.isAllowedHostname, h1, h2]
      simp [this]
  exact ⟨hsel, router.dispatch_of_select r req _ _ hsel, router.isAllowedScheme_iff r,
    router.isAllowedHostname_iff r⟩

/-- C18, on a router that allows `http` and `example.com` only and has `/posts` registered:
the request `https://example.com/posts` gets the not-found handler. -/
theorem gating_selects_notfound_witness :
    mapGet (routerWith ["http"] ["example.com"] [] [("/posts", 1)]).schemes "https" = none ∧
    (routerWith ["http"] ["example.com"] [] [("/posts", 1)]).matcher.Find "GET" ["posts"] =
      some (some (routeOf "/posts" 1), true) ∧
    (routerWith ["http"] ["example.com"] [] [("/posts", 1)]).selectHandler
        { Method := "GET", Scheme := "https", Hostname := "example.com",
          EscapedPath := "/posts", ctx := [] } =
      some (NotFoundHandler, []) :=
  ⟨by decide, by decide,
   (gating_selects_notfound (routerWith ["http"] ["example.com"] [] [("/posts", 1)])
    { Method := "GET", Scheme := "https", Hostname := "example.com",
      EscapedPath := "/posts", ctx := [] }
    (Or.inl ⟨by decide, by decide⟩)).1⟩

/-- C19. Dispatch selection: for a request with an allowed scheme and hostname and a path
that begins with the separator, `ServeHTTP` looks up the pieces of the path without its
first character, split on the separator. `Find` answers `(t, true)` or `(nil, false)`. In
the first case the selection is the handler of `t` with `t.Params` of the pieces, and
`ServeHTTP` panics when `Params` does; in the second it is the not-found handler with an
empty map. The request handed to the wrapped handler carries the selected map under
`CtxParams`, and `Params` of its context returns that map. -/
theorem dispatch_selection (r : router) (req : Request) (rest : List Char)
    (hs : r.isAllowedScheme req.Scheme = true) (hh : r.isAllowedHostname req.Hostname = true)
    (hp : req.EscapedPath.data = '/' :: rest) :
    (∃ pn, r.matcher.Find req.Method (stringsSplit rest) = some (pn, pn.isSome)) ∧
    (∀ (t : Handler) (ps : List (String × String)),
      r.matcher.Find req.Method (stringsSplit rest) = some (some t, true) →
      t.Params (stringsSplit rest) = some ps →
        r.selectHandler req = some (t.HTTPHandler, ps) ∧
        r.dispatch req =
          some { handler := r.wrap t.HTTPHandler,
                 request := { req with ctx := req.ctx.WithValue CtxParams (.params ps) } } ∧
        Params (req.ctx.WithValue CtxParams (.params ps)) = some ps) ∧
    (∀ t : Handler,
      r.matcher.Find req.Method (stringsSplit rest) = some (some t, true) →
      t.Params (stringsSplit rest) = none → r.dispatch req = none) ∧
    (r.matcher.Find req.Method (stringsSplit rest) = some (none, false) →
      r.selectHandler req = some (r.notfound, []) ∧
      r.dispatch req =
        some { handler := r.wrap r.notfound,
               request := { req with ctx := req.ctx.WithValue CtxParams (.params []) } } ∧
      Params (req.ctx.WithValue CtxParams (.params [])) = some []) := by
  have hsel : r.selectHandler req = r.matchRequest req := by
    unfold router.selectHandler
    simp [hs, hh]
  have hne : stringsSplit rest ≠ [] := splitPieces_ne_nil rest []
  refine ⟨?_, ?_, ?_, ?_⟩
  · cases hsp : stringsSplit rest with
    | nil => exact absurd hsp hne
    | cons a s => exact ⟨_, Matcher.Find_cons _ _ _ _⟩
  · intro t ps hfind hps
    have h1 : r.selectHandler req = some (t.HTTPHandler, ps) := by
      rw [hsel]
      simp only [router.matchRequest, hp, hfind, hps, if_true]
    exact ⟨h1, router.dispatch_of_select r req _ _ h1, Params_WithValue _ _⟩
  · intro t hfind hps
    have h1 : r.selectHandler req = none := by
      rw [hsel]
      simp only [router.matchRequest, hp, hfind, hps, if_true]
    simp only [router.dispatch, h1]
  · intro hfind
    have h1 : r.selectHandler req = some (r.notfound, []) := by
      rw [hsel]
      simp [router.matchRequest, hp, hfind]
    exact ⟨h1, router.dispatch_of_select r req _ _ h1, Params_WithValue _ _⟩

/-- C19, on `/posts/:id` and the request path `/posts/1`: the handler of the route is called
with the map that binds `id` to `1`. -/
theorem dispatch_selection_witness :
    (routerWith ["*"] ["*"] [] [("/posts/:id", 1)]).matcher.Find "GET"
        (stringsSplit "posts/1".data) = some (some (routeOf "/posts/:id" 1), true) ∧
    (routeOf "/posts/:id" 1).Params (stringsSplit "posts/1".data) = some [("id", "1")] ∧
    (routerWith ["*"] ["*"] [] [("/posts/:id", 1)]).dispatch
        { Method := "GET", Scheme := "https", Hostname := "example.com",
          EscapedPath := "/posts/1", ctx := [] } =
      some { handler := 1,
             request := { Method := "GET", Scheme := "https", Hostname := "example.com",
                          EscapedPath := "/posts/1",
                          ctx := [(CtxParams, .params [("id", "1")])] } } :=
  ⟨by decide, by decide,
   ((dispatch_selection (routerWith ["*"] ["*"] [] [("/posts/:id", 1)])
    { Method := "GET", Scheme := "https", Hostname := "example.com",
      EscapedPath := "/posts/1", ctx := [] } "posts/1".data
    (by decide) (by decide) (by decide)).2.1 (routeOf "/posts/:id" 1) [("id", "1")]
    (by decide) (by decide)).2.1⟩

theorem router.applyOptions_interceptors (groups : List (List (HTTPHandler → HTTPHandler))) :
    ∀ r : router, ∃ r1, router.applyOptions r (groups.map WithInterceptors) = .ok r1 ∧
      r1.interceptors = r.interceptors ++ groups.flatten ∧ r1.matcher = r.matcher ∧
      r1.schemes = r.schemes ∧ r1.hostnames = r.hostnames ∧ r1.notfound = r.notfound ∧
      r1.internalservererror = r.internalservererror := by
  induction groups with
  | nil =>
    intro r
    exact ⟨r, rfl, by simp, rfl, rfl, rfl, rfl, rfl⟩
  | cons g rest ih =>
    intro r
    obtain ⟨r1, h1, h2, h3, h4, h5, h6, h7⟩ :=
      ih { r with interceptors := r.interceptors ++ g }
    refine ⟨r1, ?_, ?_, h3, h4, h5, h6, h7⟩
    · simp only [List.map_cons, router.applyOptions, WithInterceptors]
      exact h1
    · rw [h2]
      simp

/-- C20. Interceptor order: `WithInterceptors` appends its arguments, in order, to the
interceptors of the router, so `New` on a list of such options collects them in argument
order across the options; for a selected handler `h`, the handler `ServeHTTP` calls is the
interceptors applied to `h` nested from the last one inward to the first one outermost.
With two interceptors `A` (first) and `B` that each run a step before and a step after the
handler they wrap, the steps are observed in the order before-`A`, before-`B`, the handler,
after-`B`, after-`A`. -/
theorem interceptor_order (r : router) (req : Request) (h : HTTPHandler)
    (ps : List (String × String)) (hsel : r.selectHandler req = some (h, ps)) :
    (r.dispatch req).map (fun call => call.handler) =
      some (r.interceptors.foldr (fun interceptor acc => interceptor acc) h) ∧
    (∀ ics : List (HTTPHandler → HTTPHandler),
      (WithInterceptors ics r).1.interceptors = r.interceptors ++ ics ∧
      (WithInterceptors ics r).2 = none) ∧
    (∀ groups : List (List (HTTPHandler → HTTPHandler)),
      ∃ r1, router.New (groups.map WithInterceptors) = .ok r1 ∧
        r1.interceptors = groups.flatten) ∧
    (∀ A B : HTTPHandler → HTTPHandler, r.interceptors = [A, B] →
      (r.dispatch req).map (fun call => call.handler) = some (A (B h))) ∧
    (∀ (A B : HTTPHandler → HTTPHandler) (steps : HTTPHandler → List String)
      (beforeA afterA beforeB afterB : String), r.interceptors = [A, B] →
      steps (B h) = beforeB :: steps h ++ [afterB] →
      steps (A (B h)) = beforeA :: steps (B h) ++ [afterA] →
      (r.dispatch req).map (fun call => steps call.handler) =
        some (beforeA :: beforeB :: steps h ++ [afterB, afterA])) := by
  have hd := router.dispatch_of_select r req h ps hsel
  refine ⟨?_, ?_, ?_, ?_, ?_⟩
  · rw [hd, router.wrap_eq_foldr]
    rfl
  · intro ics
    exact ⟨rfl, rfl⟩
  · intro groups
    obtain ⟨r1, h1, h2, _⟩ := router.applyOptions_interceptors groups
      { interceptors := [],
        matcher := Matcher.New,
        schemes := [(matchall, ())],
        hostnames := [(matchall, ())],
        notfound := NotFoundHandler,
        internalservererror := InternalServerError }
    exact ⟨r1, h1, by simpa using h2⟩
  · intro A B hAB
    rw [hd, router.wrap_eq_foldr, hAB]
    rfl
  · intro A B steps beforeA afterA beforeB afterB hAB hB hA
    rw [hd, router.wrap_eq_foldr, hAB]
    simp only [Option.map_some', List.foldr_cons, List.foldr_nil, Option.some.injEq]
    rw [hA, hB]
    simp

/-- C20, on a router with the interceptors `A` (adds 10) and `B` (adds 1) in this order and
the route `/posts` with handler 0: the handler called is `A (B 0)`, and with the steps of
the handlers 0, 1 and 11 given as below the observed order is `A`, `B`, `h`, `B`, `A`. -/
theorem interceptor_order_witness :
    (routerWith ["*"] ["*"] [fun x => x + 10, fun x => x + 1] [("/posts", 0)]).selectHandler
        { Method := "GET", Scheme := "http", Hostname := "localhost",
          EscapedPath := "/posts", ctx := [] } = some (0, []) ∧
    ((routerWith ["*"] ["*"] [fun x => x + 10, fun x => x + 1] [("/posts", 0)]).dispatch
        { Method := "GET", Scheme := "http", Hostname := "localhost",
          EscapedPath := "/posts", ctx := [] }).map
      (fun call =>
        (fun x : HTTPHandler =>
          if x = 0 then ["h"] else if x = 1 then ["B-before", "h", "B-after"]
          else ["A-before", "B-before", "h", "B-after", "A-after"]) call.handler) =
      some ("A-before" :: "B-before" :: ["h"] ++ ["B-after", "A-after"]) :=
  ⟨by decide,
   (interceptor_order
    (routerWith ["*"] ["*"] [fun x => x + 10, fun x => x + 1] [("/posts", 0)])
    { Method := "GET", Scheme := "http", Hostname := "localhost",
      EscapedPath := "/posts", ctx := [] } 0 [] (by decide)).2.2.2.2
    (fun x => x + 10) (fun x => x + 1)
    (fun x : HTTPHandler =>
      if x = 0 then ["h"] else if x = 1 then ["B-before", "h", "B-after"]
      else ["A-before", "B-before", "h", "B-after", "A-after"])
    "A-before" "A-after" "B-before" "B-after" rfl (by decide) (by decide)⟩

/-! ## The options of `New` -/

theorem mapDelete_all {α : Type} (ks : List String) :
    ∀ l : List (String × α), (∀ e ∈ l, e.1 ∈ ks) → ks.foldl mapDelete l = [] := by
  induction ks with
  | nil =>
    intro l hl
    cases l with
    | nil => rfl
    | cons e rest => exact absurd (hl e (List.mem_cons_self _ _)) (List.not_mem_nil _)
  | cons k ks1 ih =>
    intro l hl
    simp only [List.foldl_cons]
    apply ih
    intro e he
    simp only [mapDelete, List.mem_filter, decide_eq_true_eq] at he
    rcases List.mem_cons.mp (hl e he.1) with h | h
    · exact absurd h he.2
    · exact h

/-- The loop that deletes every key leaves an empty map. -/
theorem mapClear_eq {α : Type} (l : List (String × α)) : mapClear l = [] := by
  unfold mapClear
  apply mapDelete_all
  intro e he
  exact List.mem_map.mpr ⟨e, he, rfl⟩

theorem mapSetAll_get (keys : List String) :
    ∀ (l : List (String × Unit)) (v : String),
      (mapGet (mapSetAll l keys) v).isSome = true ↔
        ((mapGet l v).isSome = true ∨ v ∈ keys) := by
  induction keys with
  | nil => intro l v; simp [mapSetAll]
  | cons k ks ih =>
    intro l v
    have hstep : mapSetAll l (k :: ks) = mapSetAll (mapSet l k ()) ks := rfl
    rw [hstep, ih]
    by_cases hk : k = v
    · subst hk
      simp [mapGet_mapSet_same]
    · rw [mapGet_mapSet_ne _ _ _ _ hk]
      simp only [List.mem_cons]
      constructor
      · rintro (h | h)
        · exact Or.inl h
        · exact Or.inr (Or.inr h)
      · rintro (h | h | h)
        · exact Or.inl h
        · exact absurd h.symm hk
        · exact Or.inr h

theorem mapSetAll_nodup (keys : List String) :
    ∀ l : List (String × Unit), (l.map Prod.fst).Nodup →
      ((mapSetAll l keys).map Prod.fst).Nodup := by
  induction keys with
  | nil => intro l hl; exact hl
  | cons k ks ih =>
    intro l hl
    exact ih _ (mapSet_nodup l k () hl)

theorem mapSet_ne_nil {α : Type} (l : List (String × α)) (k : String) (v : α) :
    mapSet l k v ≠ [] := by
  cases l with
  | nil => simp [mapSet]
  | cons e rest =>
    obtain ⟨k1, w⟩ := e
    simp only [mapSet]
    split <;> simp

theorem mapSetAll_ne_nil (keys : List String) :
    ∀ l : List (String × Unit), (l ≠ [] ∨ keys ≠ []) → mapSetAll l keys ≠ [] := by
  induction keys with
  | nil =>
    intro l h
    rcases h with h | h
    · exact h
    · exact absurd rfl h
  | cons k ks ih =>
    intro l _
    exact ih _ (Or.inl (mapSet_ne_nil l k ()))

theorem router.applyOptions_append (a b : List RouterOption) :
    ∀ r r1 : router, router.applyOptions r a = .ok r1 →
      router.applyOptions r (a ++ b) = router.applyOptions r1 b := by
  induction a with
  | nil =>
    intro r r1 h
    simp only [router.applyOptions, Except.ok.injEq] at h
    subst h
    rfl
  | cons o rest ih =>
    intro r r1 h
    simp only [List.cons_append, router.applyOptions] at h ⊢
    rcases ho : o r with ⟨r2, e⟩
    cases e with
    | none =>
      simp only [ho] at h ⊢
      exact ih r2 r1 h
    | some err =>
      simp only [ho] at h
      cases h

/-- C22. `WithHandler statusCode h` applied to a router returns an error exactly when `h`
is nil (`handler can't be nil`) or the code is neither 404 nor 500 (`can't set a default
handler for status code` followed by the code); with a handler and 404 it replaces the
not-found handler and nothing else, with 500 the internal-error handler and nothing else;
when it returns an error the router is unchanged, and `New` on a list of options in which
it is the first to fail returns that error and no router. -/
theorem WithHandler_result (statusCode : Int) (h : Option HTTPHandler) (r : router) :
    ((WithHandler statusCode h r).2 ≠ none ↔
      (h = none ∨ (statusCode ≠ 404 ∧ statusCode ≠ 500))) ∧
    (h = none → WithHandler statusCode h r = (r, some "handler can't be nil")) ∧
    (∀ hh : HTTPHandler, h = some hh → statusCode ≠ 404 → statusCode ≠ 500 →
      WithHandler statusCode h r =
        (r, some ("can't set a default handler for status code " ++ toString statusCode))) ∧
    (∀ hh : HTTPHandler, h = some hh → statusCode = 404 →
      WithHandler statusCode h r = ({ r with notfound := hh }, none)) ∧
    (∀ hh : HTTPHandler, h = some hh → statusCode = 500 →
      WithHandler statusCode h r = ({ r with internalservererror := hh }, none)) ∧
    (∀ e : String, (WithHandler statusCode h r).2 = some e →
      (WithHandler statusCode h r).1 = r ∧
      ∀ before after : List RouterOption, router.New before = .ok r →
        router.New (before ++ WithHandler statusCode h :: after) = .error e) := by
  have herr : ∀ e : String, (WithHandler statusCode h r).2 = some e →
      (WithHandler statusCode h r).1 = r := by
    intro e he
    unfold WithHandler at he ⊢
    cases h with
    | none => rfl
    | some hh =>
      simp only at he ⊢
      by_cases h1 : statusCode = 404
      · simp [h1] at he
      · by_cases h2 : statusCode = 500
        · simp [h1, h2] at he
        · simp [h1, h2]
  refine ⟨?_, ?_, ?_, ?_, ?_, ?_⟩
  · unfold WithHandler
    cases h with
    | none => simp
    | some hh =>
      simp only
      by_cases h1 : statusCode = 404
      · simp [h1]
      · by_cases h2 : statusCode = 500
        · simp [h1, h2]
        · simp [h1, h2]
  · intro hn
    subst hn
    rfl
  · intro hh hs h1 h2
    subst hs
    simp [WithHandler, h1, h2]
  · intro hh hs h1
    subst hs
    simp [WithHandler, h1]
  · intro hh hs h1
    subst hs
    subst h1
    simp [WithHandler]
  · intro e he
    refine ⟨herr e he, ?_⟩
    intro before after hnew
    unfold router.New at hnew ⊢
    rw [router.applyOptions_append before _ _ r hnew]
    simp only [router.applyOptions]
    rcases ho : WithHandler statusCode h r with ⟨r2, e2⟩
    rw [ho] at he
    simp only at he
    subst he
    rfl

/-- The second row of the test table of `New`: the code 401 is refused. -/
theorem New_refuses_status_401 :
    (router.New [WithSchemes ["http", "https"], WithHostnames ["*"],
        WithHandler 401 (some 7)]).toOption.isNone = true ∧
    (WithHandler 401 (some 7) (routerWith [] [] [] [])).2 =
      some "can't set a default handler for status code 401" := by
  constructor
  · rfl
  · decide

/-- C23. `WithSchemes l` applied to a router returns no error and makes the allowed-scheme
set exactly the members of `l`, each once: every earlier entry, the default `*` included, is
gone; the hostname set, the handlers, the interceptors and the matcher are unchanged.
`WithHostnames l` does the same with the roles of the two sets exchanged. -/
theorem WithSchemes_result (l : List String) (r : router) :
    ((WithSchemes l r).2 = none ∧
      (∀ v : String, (mapGet (WithSchemes l r).1.schemes v).isSome = true ↔ v ∈ l) ∧
      ((WithSchemes l r).1.schemes.map Prod.fst).Nodup ∧
      (WithSchemes l r).1.hostnames = r.hostnames ∧
      (WithSchemes l r).1.notfound = r.notfound ∧
      (WithSchemes l r).1.internalservererror = r.internalservererror ∧
      (WithSchemes l r).1.interceptors = r.interceptors ∧
      (WithSchemes l r).1.matcher = r.matcher) ∧
    ((WithHostnames l r).2 = none ∧
      (∀ v : String, (mapGet (WithHostnames l r).1.hostnames v).isSome = true ↔ v ∈ l) ∧
      ((WithHostnames l r).1.hostnames.map Prod.fst).Nodup ∧
      (WithHostnames l r).1.schemes = r.schemes ∧
      (WithHostnames l r).1.notfound = r.notfound ∧
      (WithHostnames l r).1.internalservererror = r.internalservererror ∧
      (WithHostnames l r).1.interceptors = r.interceptors ∧
      (WithHostnames l r).1.matcher = r.matcher) := by
  refine ⟨⟨rfl, ?_, ?_, rfl, rfl, rfl, rfl, rfl⟩, ⟨rfl, ?_, ?_, rfl, rfl, rfl, rfl, rfl⟩⟩
  · intro v
    simp only [WithSchemes, mapClear_eq]
    rw [mapSetAll_get]
    simp [mapGet]
  · simp only [WithSchemes, mapClear_eq]
    exact mapSetAll_nodup l [] List.nodup_nil
  · intro v
    simp only [WithHostnames, mapClear_eq]
    rw [mapSetAll_get]
    simp [mapGet]
  · simp only [WithHostnames, mapClear_eq]
    exact mapSetAll_nodup l [] List.nodup_nil

/-- The test tables of `WithSchemes` and `WithHostnames`, and the default `*` replaced. -/
theorem WithSchemes_test_table :
    (WithSchemes ["file", "ftp"] (routerWith [] [] [] [])).1.schemes =
      [("file", ()), ("ftp", ())] ∧
    (WithHostnames ["example.com", "test.com"] (routerWith [] [] [] [])).1.hostnames =
      [("example.com", ()), ("test.com", ())] ∧
    (WithSchemes ["http", "https"] (routerWith ["*"] ["*"] [] [])).1.schemes =
      [("http", ()), ("https", ())] := by
  decide

/-- C24. The router that `New` returns without options has `*` as the only member of its
allowed-scheme set and of its allowed-hostname set, so every scheme and every hostname is
allowed and `ServeHTTP` goes on to `match` for every request. -/
theorem New_default_allows_all :
    ∃ r, router.New [] = .ok r ∧
      r.schemes = [(matchall, ())] ∧ r.hostnames = [(matchall, ())] ∧
      (∀ v : String, (mapGet r.schemes v).isSome = true ↔ v = "*") ∧
      (∀ v : String, (mapGet r.hostnames v).isSome = true ↔ v = "*") ∧
      (∀ v : String, r.isAllowedScheme v = true) ∧
      (∀ v : String, r.isAllowedHostname v = true) ∧
      (∀ req : Request, r.selectHandler req = r.matchRequest req) := by
  have hget : ∀ v : String,
      (mapGet [(matchall, ())] v).isSome = true ↔ v = "*" := by
    intro v
    simp only [mapGet, matchall]
    by_cases hv : "*" = v
    · simp [hv]
    · simp only [hv, if_false]
      constructor
      · intro h; cases h
      · intro h; exact absurd h.symm hv
  have hs : ∀ (r : router) (v : String), r.schemes = [(matchall, ())] →
      r.isAllowedScheme v = true := by
    intro r v hr
    rw [router.isAllowedScheme_iff, hr]
    right
    exact (hget "*").mpr rfl
  have hh : ∀ (r : router) (v : String), r.hostnames = [(matchall, ())] →
      r.isAllowedHostname v = true := by
    intro r v hr
    rw [router.isAllowedHostname_iff, hr]
    right
    exact (hget "*").mpr rfl
  refine ⟨_, rfl, rfl, rfl, hget, hget, fun v => hs _ v rfl, fun v => hh _ v rfl, ?_⟩
  intro req
  unfold router.selectHandler
  rw [hs _ req.Scheme rfl, hh _ req.Hostname rfl]
  simp

/-- C25, as stated, fails: `New` accepts the option `WithSchemes()` without arguments, and
the router it returns has an empty allowed-scheme set, which allows no scheme; the same
holds for `WithHostnames()`. -/
theorem New_accepts_empty_allow_list :
    (router.New [WithSchemes []]).toOption.map (fun r => r.schemes) = some [] ∧
    (router.New [WithSchemes []]).toOption.map (fun r => r.isAllowedScheme "http") =
      some false ∧
    (router.New [WithHostnames []]).toOption.map (fun r => r.hostnames) = some [] := by
  decide

theorem OptionCall.toOption_nonempty (c : OptionCall) (r r2 : router)
    (hs : ∀ l : List String, c = .schemes l → l ≠ [])
    (hh : ∀ l : List String, c = .hostnames l → l ≠ [])
    (hrs : r.schemes ≠ []) (hrh : r.hostnames ≠ [])
    (ho : c.toOption r = (r2, none)) : r2.schemes ≠ [] ∧ r2.hostnames ≠ [] := by
  cases c with
  | schemes l =>
    simp only [OptionCall.toOption, WithSchemes, Prod.mk.injEq, and_true] at ho
    subst ho
    exact ⟨mapSetAll_ne_nil l _ (Or.inr (hs l rfl)), hrh⟩
  | hostnames l =>
    simp only [OptionCall.toOption, WithHostnames, Prod.mk.injEq, and_true] at ho
    subst ho
    exact ⟨hrs, mapSetAll_ne_nil l _ (Or.inr (hh l rfl))⟩
  | handler statusCode h =>
    simp only [OptionCall.toOption, WithHandler] at ho
    cases h with
    | none => simp at ho
    | some hx =>
      simp only at ho
      by_cases h1 : statusCode = 404
      · simp only [h1, if_true, Prod.mk.injEq, and_true] at ho
        subst ho
        exact ⟨hrs, hrh⟩
      · by_cases h2 : statusCode = 500
        · subst h2
          simp only [h1, if_false, if_true, Prod.mk.injEq, and_true] at ho
          subst ho
          exact ⟨hrs, hrh⟩
        · simp [h1, h2] at ho
  | interceptors l =>
    simp only [OptionCall.toOption, WithInterceptors, Prod.mk.injEq, and_true] at ho
    subst ho
    exact ⟨hrs, hrh⟩

theorem router.applyOptions_nonempty (calls : List OptionCall) :
    ∀ r r1 : router, r.schemes ≠ [] → r.hostnames ≠ [] →
      (∀ l : List String, OptionCall.schemes l ∈ calls → l ≠ []) →
      (∀ l : List String, OptionCall.hostnames l ∈ calls → l ≠ []) →
      router.applyOptions r (calls.map OptionCall.toOption) = .ok r1 →
        r1.schemes ≠ [] ∧ r1.hostnames ≠ [] := by
  induction calls with
  | nil =>
    intro r r1 hrs hrh _ _ hrun
    simp only [List.map_nil, router.applyOptions, Except.ok.injEq] at hrun
    subst hrun
    exact ⟨hrs, hrh⟩
  | cons c rest ih =>
    intro r r1 hrs hrh hs hh hrun
    simp only [List.map_cons, router.applyOptions] at hrun
    rcases ho : c.toOption r with ⟨r2, e⟩
    cases e with
    | some err =>
      simp only [ho] at hrun
      cases hrun
    | none =>
      simp only [ho] at hrun
      obtain ⟨h1, h2⟩ := OptionCall.toOption_nonempty c r r2
        (fun l hl => hs l (by rw [hl]; exact List.mem_cons_self _ _))
        (fun l hl => hh l (by rw [hl]; exact List.mem_cons_self _ _)) hrs hrh ho
      exact ih r2 r1 h1 h2 (fun l hl => hs l (List.mem_cons_of_mem _ hl))
        (fun l hl => hh l (List.mem_cons_of_mem _ hl)) hrun

/-- C25 as amended. For every list of options that `New` accepts and in which every
`WithSchemes` and every `WithHostnames` is given at least one argument, the allowed-scheme
set and the allowed-hostname set of the router returned are not empty. -/
theorem New_nonempty_allow_lists (calls : List OptionCall) (r : router)
    (hs : ∀ l : List String, OptionCall.schemes l ∈ calls → l ≠ [])
    (hh : ∀ l : List String, OptionCall.hostnames l ∈ calls → l ≠ [])
    (hnew : router.New (calls.map OptionCall.toOption) = .ok r) :
    r.schemes ≠ [] ∧ r.hostnames ≠ [] := by
  unfold router.New at hnew
  exact router.applyOptions_nonempty calls _ r (by simp) (by simp) hs hh hnew

/-- C25 as amended, on the options of the first row of the test table of `New`. -/
theorem New_nonempty_allow_lists_witness :
    (routerOf [WithSchemes ["http", "https"], WithHostnames ["*"],
        WithHandler 404 (some 7)]).schemes = [("http", ()), ("https", ())] ∧
    ((routerOf [WithSchemes ["http", "https"], WithHostnames ["*"],
        WithHandler 404 (some 7)]).schemes ≠ [] ∧
      (routerOf [WithSchemes ["http", "https"], WithHostnames ["*"],
        WithHandler 404 (some 7)]).hostnames ≠ []) :=
  ⟨by decide,
   New_nonempty_allow_lists
    [.schemes ["http", "https"], .hostnames ["*"], .handler 404 (some 7)]
    (routerOf [WithSchemes ["http", "https"], WithHostnames ["*"], WithHandler 404 (some 7)])
    (by
      intro l hl
      simp only [List.mem_cons, OptionCall.schemes.injEq, List.mem_singleton,
        reduceCtorEq, or_false, List.mem_nil_iff] at hl
      rw [hl]
      simp)
    (by
      intro l hl
      simp only [List.mem_cons, OptionCall.hostnames.injEq, List.mem_singleton,
        reduceCtorEq, or_false, false_or, List.mem_nil_iff] at hl
      rw [hl]
      simp)
    rfl⟩

/-! ## Lookup of a template by its own segments -/

theorem node.keysOK_child (n c : node) (k : String) (hn : n.keysOK)
    (hc : mapGet n.nodes k = some c) : c.keysOK := by
  intro q x c1 k1 hx hc1 hp
  apply hn (k :: q) x c1 k1 _ hc1 hp
  rw [node.at_cons, hc]
  exact hx

/-- On a matcher that satisfies the invariant every key below a root is a key computed by
`insert`. -/
theorem Inv.keysOK (st : Matcher × List (String × Handler)) (hinv : Inv st) (method : String)
    (root : node) (hroot : mapGet st.1.nodes method = some root) : root.keysOK := by
  intro q x c k hx hc hp
  have hsome := node.at_snoc q k x c root hx hc
  obtain ⟨h, _, hpre⟩ := hinv.onPath method root (q ++ [k]) hroot hsome (by simp)
  obtain ⟨tail, htail⟩ := hpre
  have hk : k ∈ keys h.segments := by
    rw [← htail]
    simp
  obtain ⟨a, _, ha⟩ := List.mem_map.mp hk
  cases hpa : isParam a with
  | true =>
    rw [segmentKey_param a hpa] at ha
    exact ha.symm
  | false =>
    rw [segmentKey_literal a hpa] at ha
    rw [← ha, hpa] at hp
    cases hp

/-- A handler bound at the path of the keys of a request is what `search` finds for the
request, in a tree whose keys are keys computed by `insert`. -/
theorem node.search_keys (s : List String) :
    ∀ (n : node) (t : Handler), n.keysOK → n.handlerAt (keys s) = some t →
      node.search (some n) s none = some t := by
  induction s with
  | nil => intro n t _ ht; exact ht
  | cons seg rest ih =>
    intro n t hn ht
    have ht1 : n.handlerAt (segmentKey seg :: keys rest) = some t := ht
    rw [node.handlerAt_cons] at ht1
    cases hget : mapGet n.nodes (segmentKey seg) with
    | none => simp [hget] at ht1
    | some c =>
      simp only [hget] at ht1
      have hfound := ih c t (node.keysOK_child n c _ hn hget) ht1
      rw [node.search_cons_cases]
      cases hp : isParam seg with
      | false =>
        rw [segmentKey_literal seg hp] at hget
        rw [hget, hfound]
      | true =>
        rw [segmentKey_param seg hp] at hget
        cases hlit : mapGet n.nodes seg with
        | none =>
          simp only [node.search_nil_receiver]
          rw [hget, hfound]
        | some c1 =>
          have hk : seg = pathvar := hn [] n c1 seg rfl hlit hp
          rw [hk, hget] at hlit
          simp only [Option.some.injEq] at hlit
          subst hlit
          rw [hfound]

theorem Matcher.Find_keys (m : Matcher) (method : String) (root : node) (s : List String)
    (t : Handler) (hroot : mapGet m.nodes method = some root) (hk : root.keysOK)
    (ht : root.handlerAt (keys s) = some t) : m.Find method s = some (some t, true) := by
  cases s with
  | nil =>
    simp only [Matcher.Find, hroot]
    have ht1 : root.handler = some t := ht
    rw [ht1]
    rfl
  | cons a s1 =>
    rw [Matcher.Find_cons, hroot, node.search_keys (a :: s1) root t hk ht]
    rfl

theorem Matcher.Find_mapSet_ne (m : Matcher) (method method1 : String) (x : node)
    (s : List String) (hne : method1 ≠ method) :
    ({ nodes := mapSet m.nodes method x } : Matcher).Find method1 s = m.Find method1 s := by
  have hget : mapGet (mapSet m.nodes method x) method1 = mapGet m.nodes method1 :=
    mapGet_mapSet_ne _ _ _ _ (fun h => hne h.symm)
  cases s with
  | nil => simp only [Matcher.Find, hget]
  | cons a s1 => simp only [Matcher.Find, hget]

theorem New_handler (path : String) (h : Option HTTPHandler) (t : Handler)
    (hnew : New path h = .ok t) : h = some t.HTTPHandler := by
  unfold New at hnew
  cases hp : path.data with
  | nil => simp [hp] at hnew
  | cons c rest =>
    simp only [hp] at hnew
    by_cases hc : c = '/'
    · simp only [hc, ne_eq, not_true_eq_false, if_false] at hnew
      cases h with
      | none => simp at hnew
      | some hh =>
        simp only at hnew
        cases rest with
        | nil =>
          simp only [NewResult.ok.injEq] at hnew
          subst hnew
          rfl
        | cons d rest1 =>
          simp only at hnew
          cases hrun : splitLoop (d :: rest1) [] { segments := [], params := [] } with
          | none => simp [hrun] at hnew
          | some st =>
            simp only [hrun, NewResult.ok.injEq] at hnew
            subst hnew
            rfl
    · simp [hc] at hnew

theorem registrations_method (op : router → String → Option HTTPHandler →
      Option (router × Option String)) (method : String)
    (hop : (op, method) ∈ registrations) :
    ∀ (r : router) (path : String) (handler : Option HTTPHandler),
      op r path handler = r.registerHandler method path handler := by
  simp only [registrations, List.mem_cons, Prod.mk.injEq, List.mem_singleton,
    List.mem_nil_iff, or_false] at hop
  rcases hop with h | h | h | h | h | h | h | h | h <;>
    (obtain ⟨h1, h2⟩ := h; subst h1; subst h2; intro r path handler; rfl)

/-- C26. For each of the nine registration operations, on a router whose matcher is
reachable: a successful call with a path and a handler makes `Find` under the method of the
operation, on the segments of the template of the path, return that template, whose handler
is the given one, and leaves `Find` under every other method as it was and the other fields
of the router unchanged; when `New` returns an error the call returns it, and otherwise the
call returns what `Register` returns. -/
theorem registration_operations (calls : List (String × Handler))
    (st : Matcher × List (String × Handler)) (r : router)
    (op : router → String → Option HTTPHandler → Option (router × Option String))
    (method path : String) (handler : Option HTTPHandler)
    (hrun : registerAll (Matcher.New, []) calls = some st) (hm : r.matcher = st.1)
    (hop : (op, method) ∈ registrations) :
    (∀ r1 : router, op r path handler = some (r1, none) →
      ∃ t, New path handler = .ok t ∧ handler = some t.HTTPHandler ∧
        r1.matcher.Find method t.Segments = some (some t, true) ∧
        (∀ (method1 : String) (s : List String), method1 ≠ method →
          r1.matcher.Find method1 s = r.matcher.Find method1 s) ∧
        r1 = { r with matcher := r1.matcher }) ∧
    (∀ msg : String, New path handler = .error msg →
      op r path handler = some (r, some msg)) ∧
    (∀ t : Handler, New path handler = .ok t →
      op r path handler =
        (r.matcher.Register method t).map fun res => ({ r with matcher := res.1 }, res.2)) ∧
    (∀ (t : Handler) (e : String) (m : Matcher), New path handler = .ok t →
      r.matcher.Register method t = some (m, some e) →
        op r path handler = some (r, some e)) := by
  have hopeq := registrations_method op method hop r path handler
  have hok : ∀ t : Handler, New path handler = .ok t →
      op r path handler =
        (r.matcher.Register method t).map fun res => ({ r with matcher := res.1 }, res.2) := by
    intro t hnew
    rw [hopeq]
    simp only [router.registerHandler, registerHandler, hnew]
    cases r.matcher.Register method t with
    | none => rfl
    | some res => rfl
  refine ⟨?_, ?_, hok, ?_⟩
  · intro r1 hcall
    cases hnew : New path handler with
    | panic =>
      rw [hopeq] at hcall
      simp [router.registerHandler, registerHandler, hnew] at hcall
    | error msg =>
      rw [hopeq] at hcall
      simp [router.registerHandler, registerHandler, hnew] at hcall
    | ok t =>
      rw [hok t hnew] at hcall
      cases hreg : r.matcher.Register method t with
      | none => simp [hreg] at hcall
      | some res =>
        obtain ⟨m1, e⟩ := res
        simp only [hreg, Option.map_some', Option.some.injEq, Prod.mk.injEq] at hcall
        obtain ⟨hr1, he⟩ := hcall
        subst he
        subst hr1
        rw [hm] at hreg
        have hstep : registerStep st (method, t) = some (m1, (method, t) :: st.2) := by
          simp only [registerStep, hreg]
        have hinv1 := Inv_step _ _ _ (Inv_reachable calls st hrun) hstep
        obtain ⟨root1, hroot1, hb1⟩ := hinv1.logged method t (List.mem_cons_self _ _)
        refine ⟨t, rfl, New_handler path handler t hnew, ?_, ?_, rfl⟩
        · exact Matcher.Find_keys m1 method root1 t.segments t hroot1
            (Inv.keysOK _ hinv1 method root1 hroot1) hb1
        · intro method1 s hne
          rcases registerStep_cases st _ (method, t) hstep with ⟨_, h2⟩ | ⟨root, _, _, _, h2⟩
          · simp only at h2
            rw [hreg] at h2
            cases h2
          · simp only [Prod.mk.injEq] at h2
            simp only
            rw [h2.1, hm]
            exact Matcher.Find_mapSet_ne st.1 method method1 _ s hne
  · intro msg hnew
    rw [hopeq]
    simp only [router.registerHandler, registerHandler, hnew]
  · intro t e m hnew hreg
    rw [hok t hnew, hreg]
    obtain ⟨h1, _⟩ := Matcher.Register_error r.matcher m method e t hreg
    subst h1
    rfl

/-- C26, on `Post` with `/posts/:id` on the router that `New` returns without options. -/
theorem registration_operations_witness :
    (router.Post, "POST") ∈ registrations ∧
    router.Post (routerOf []) "/posts/:id" (some 5) =
      some (routerAfter (routerOf []) (router.Post (routerOf []) "/posts/:id" (some 5)),
        none) ∧
    ∃ t, New "/posts/:id" (some 5) = .ok t ∧ some 5 = some t.HTTPHandler ∧
      (routerAfter (routerOf []) (router.Post (routerOf []) "/posts/:id"
        (some 5))).matcher.Find "POST" t.Segments = some (some t, true) ∧
      (∀ (method1 : String) (s : List String), method1 ≠ "POST" →
        (routerAfter (routerOf []) (router.Post (routerOf []) "/posts/:id"
          (some 5))).matcher.Find method1 s = (routerOf []).matcher.Find method1 s) ∧
      routerAfter (routerOf []) (router.Post (routerOf []) "/posts/:id" (some 5)) =
        { routerOf [] with
          matcher := (routerAfter (routerOf []) (router.Post (routerOf []) "/posts/:id"
            (some 5))).matcher } :=
  ⟨by simp [registrations], rfl,
   (registration_operations [] (Matcher.New, []) (routerOf []) router.Post "POST"
    "/posts/:id" (some 5) rfl rfl (by simp [registrations])).1
    (routerAfter (routerOf []) (router.Post (routerOf []) "/posts/:id" (some 5))) rfl⟩

/-! ## A literal route registered before the parameter route -/

theorem splitLoop_cons_other (c : Char) (rest cur : List Char) (st : SplitState)
    (hc : ¬ c = separator) :
    splitLoop (c :: rest) cur st = splitLoop rest (cur ++ [c]) st := by
  simp only [splitLoop, hc, if_false]

theorem splitLoop_cons_separator (c : Char) (rest cur : List Char) (st : SplitState) :
    splitLoop ('/' :: c :: rest) cur st =
      (match addSegment st cur with
        | none => none
        | some st1 => splitLoop (c :: rest) [] st1) := rfl

theorem splitLoop_no_separator (cs : List Char) :
    ∀ (cur : List Char) (st : SplitState), '/' ∉ cs →
      splitLoop cs cur st = addSegment st (cur ++ cs) := by
  induction cs with
  | nil => intro cur st _; simp [splitLoop]
  | cons c rest ih =>
    intro cur st hno
    simp only [List.mem_cons, not_or] at hno
    have hc : ¬ c = separator := fun h => hno.1 h.symm
    rw [splitLoop_cons_other c rest cur st hc, ih (cur ++ [c]) st hno.2]
    simp

theorem splitLoop_segment (seg : List Char) :
    ∀ (cur : List Char) (st : SplitState) (c : Char) (rest : List Char), '/' ∉ seg →
      splitLoop (seg ++ '/' :: c :: rest) cur st =
        (match addSegment st (cur ++ seg) with
          | none => none
          | some st1 => splitLoop (c :: rest) [] st1) := by
  induction seg with
  | nil =>
    intro cur st c rest _
    rw [List.nil_append, List.append_nil, splitLoop_cons_separator]
  | cons d seg1 ih =>
    intro cur st c rest hno
    simp only [List.mem_cons, not_or] at hno
    have hd : ¬ d = separator := fun h => hno.1 h.symm
    rw [List.cons_append, splitLoop_cons_other d _ cur st hd, ih (cur ++ [d]) st c rest hno.2]
    simp

/-- The template of `/posts/` followed by the text of one literal segment. -/
theorem New_posts_literal (s : String) (h1 : HTTPHandler) (hne : s ≠ "")
    (hlit : isParam s = false) (hseg : '/' ∉ s.data) :
    New ("/posts/" ++ s) (some h1) =
      .ok { HTTPHandler := h1, segments := ["posts", s], params := [] } := by
  obtain ⟨c, name, hs⟩ : ∃ c name, s.data = c :: name := by
    cases hd : s.data with
    | nil => exact absurd ((String.eq_empty_iff_data s).mpr hd) hne
    | cons c name => exact ⟨c, name, rfl⟩
  have hc : ¬ c = paramInitialChar := by
    intro hc
    unfold isParam at hlit
    rw [hs] at hlit
    simp [hc, paramInitialChar] at hlit
  have hmk : String.mk (c :: name) = s := by
    apply String.ext
    rw [hs]
  have hd : ("/posts/" ++ s).data =
      '/' :: 'p' :: (['o', 's', 't', 's'] ++ '/' :: c :: name) := by
    rw [String.data_append, hs]
    rfl
  have hrun : splitLoop ('p' :: (['o', 's', 't', 's'] ++ '/' :: c :: name)) []
      { segments := [], params := [] } =
      some { segments := ["posts", s], params := [] } := by
    have h1 := splitLoop_segment ['p', 'o', 's', 't', 's'] []
      { segments := [], params := [] } c name (by decide)
    have h2 : addSegment { segments := [], params := [] } ([] ++ ['p', 'o', 's', 't', 's']) =
        some { segments := ["posts"], params := [] } := by decide
    rw [h2] at h1
    simp only at h1
    rw [hs] at hseg
    rw [splitLoop_no_separator (c :: name) [] _ hseg] at h1
    simp only [List.nil_append, addSegment, hc, if_false] at h1
    rw [hmk] at h1
    exact h1
  unfold New
  simp only [hd, ne_eq, not_true_eq_false, if_false, hrun]

/-- On a fresh node `insert` returns a node without a handler. -/
theorem node.insert_fresh_unbound (segs : List String) :
    (node.fresh.insert segs).1.handlerAt (node.fresh.insert segs).2 = none := by
  cases hb : (node.fresh.insert segs).1.handlerAt (node.fresh.insert segs).2 with
  | none => rfl
  | some h =>
    exfalso
    have hu := node.insert_unchanged segs node.fresh (by rw [hb]; simp)
    rw [hu, node.handlerAt_fresh] at hb
    cases hb

/-- The aliasing branch is not taken for segments that end in a parameter segment. -/
theorem node.insert_path_param (segs : List String) :
    ∀ (n : node) (p : String), segs.getLast? = some p → isParam p = true →
      (n.insert segs).2 = keys segs := by
  induction segs with
  | nil => intro n p hl; simp at hl
  | cons seg rest ih =>
    intro n p hl hp
    have hna : ¬ n.aliased seg rest := by
      rintro ⟨_, h2, _, h4⟩
      subst h4
      simp only [List.getLast?_singleton, Option.some.injEq] at hl
      subst hl
      exact h2 (segmentKey_param seg hp)
    rw [node.insert_descend n seg rest hna]
    simp only [keys, List.map_cons, List.cons.injEq, true_and]
    cases rest with
    | nil => rfl
    | cons a rest1 =>
      have hl1 : (a :: rest1).getLast? = some p := by
        rw [List.getLast?_cons_cons] at hl
        exact hl
      exact ih _ p hl1 hp

/-- The handlers of the tree after a successful registration. -/
theorem node.withRoute_handlerAt (root : node) (t : Handler) (q : List String)
    (hb : (root.insert t.segments).1.handlerAt (root.insert t.segments).2 = none) :
    (root.withRoute t).handlerAt q =
      if q = keys t.segments then some t else root.handlerAt q := by
  have hp : (root.insert t.segments).2 = keys t.segments := by
    rcases node.insert_path t.segments root with h1 | ⟨h, h1⟩
    · exact h1
    · rw [hb] at h1
      cases h1
  have hsome : ((root.insert t.segments).1.at (keys t.segments)).isSome = true := by
    rw [← hp]
    exact node.insert_at_isSome _ _
  unfold node.withRoute
  rw [node.bind_handlerAt _ _ _ _ hsome, node.insert_handlerAt]

theorem registerAll_two (method : String) (t t1 : Handler) (hm : method ∈ methods)
    (h0 : (node.fresh.insert t.segments).1.handlerAt (node.fresh.insert t.segments).2 = none)
    (h1 : ((node.fresh.withRoute t).insert t1.segments).1.handlerAt
      ((node.fresh.withRoute t).insert t1.segments).2 = none) :
    registerAll (Matcher.New, []) [(method, t), (method, t1)] =
      some
        ({ nodes := mapSet (mapSet Matcher.New.nodes method (node.fresh.withRoute t)) method
            ((node.fresh.withRoute t).withRoute t1) },
          [(method, t1), (method, t)]) := by
  have hroot := mapGet_methods methods method hm
  have hr1 := Matcher.Register_withRoute Matcher.New method t node.fresh hroot h0
  have hr2 := Matcher.Register_withRoute
    { nodes := mapSet Matcher.New.nodes method (node.fresh.withRoute t) } method t1
    (node.fresh.withRoute t) (mapGet_mapSet_same _ _ _) h1
  simp only [registerAll, registerStep, hr1, hr2]

/-- C27. On a new matcher, for every supported method and every text `s` of one literal
segment (not empty, not starting with `:`, without the separator): `New` returns the
templates of `/posts/` followed by `s` and of `/posts/:id`; registering them in this order
under the method succeeds twice; afterwards `Find` on `posts`, `v` returns the literal
template when `v` is `s` and the parameter template for every other `v`. -/
theorem literal_then_parameter (method s : String) (h1 h2 : HTTPHandler)
    (hm : method ∈ methods) (hne : s ≠ "") (hlit : isParam s = false)
    (hseg : '/' ∉ s.data) :
    New ("/posts/" ++ s) (some h1) =
      .ok { HTTPHandler := h1, segments := ["posts", s], params := [] } ∧
    New "/posts/:id" (some h2) =
      .ok { HTTPHandler := h2, segments := ["posts", ":id"], params := [("id", 1)] } ∧
    ∃ st, registerAll (Matcher.New, [])
        [(method, { HTTPHandler := h1, segments := ["posts", s], params := [] }),
         (method, { HTTPHandler := h2, segments := ["posts", ":id"],
                    params := [("id", 1)] })] = some st ∧
      st.2 =
        [(method, { HTTPHandler := h2, segments := ["posts", ":id"], params := [("id", 1)] }),
         (method, { HTTPHandler := h1, segments := ["posts", s], params := [] })] ∧
      st.1.Find method ["posts", s] =
        some (some { HTTPHandler := h1, segments := ["posts", s], params := [] }, true) ∧
      ∀ v : String, v ≠ s →
        st.1.Find method ["posts", v] =
          some (some { HTTPHandler := h2, segments := ["posts", ":id"],
                       params := [("id", 1)] }, true) := by
  refine ⟨New_posts_literal s h1 hne hlit hseg, rfl, ?_⟩
  have hk1 : keys ["posts", s] = ["posts", s] := by
    simp only [keys, List.map_cons, List.map_nil, segmentKey_literal s hlit]
    rfl
  have hk2 : keys ["posts", ":id"] = ["posts", pathvar] := by decide
  have hsne : s ≠ pathvar := by
    intro h
    rw [h, isParam_pathvar] at hlit
    cases hlit
  have h0 := node.insert_fresh_unbound ["posts", s]
  have hreg2 : ((node.fresh.withRoute
        { HTTPHandler := h1, segments := ["posts", s], params := [] }).insert
          ["posts", ":id"]).1.handlerAt
      ((node.fresh.withRoute
        { HTTPHandler := h1, segments := ["posts", s], params := [] }).insert
          ["posts", ":id"]).2 = none := by
    rw [node.insert_path_param ["posts", ":id"] _ ":id" (by decide) (by decide),
      node.insert_handlerAt, node.withRoute_handlerAt _ _ _ h0, hk1, hk2]
    have hq : ¬ (["posts", pathvar] = ["posts", s]) := by
      intro he
      simp only [List.cons.injEq, and_true, true_and] at he
      exact hsne he.symm
    rw [if_neg hq, node.handlerAt_fresh]
  have hrun := registerAll_two method
    { HTTPHandler := h1, segments := ["posts", s], params := [] }
    { HTTPHandler := h2, segments := ["posts", ":id"], params := [("id", 1)] } hm h0 hreg2
  refine ⟨_, hrun, rfl, ?_, ?_⟩
  · have hinv := Inv_reachable _ _ hrun
    obtain ⟨root, hroot, hb⟩ := hinv.logged method
      { HTTPHandler := h1, segments := ["posts", s], params := [] }
      (List.mem_cons_of_mem _ (List.mem_cons_self _ _))
    simp only at hb
    rw [hk1] at hb
    exact Matcher.Find_exact _ method root ["posts", s] _ hroot hb
  · intro v hv
    have hinv := Inv_reachable _ _ hrun
    obtain ⟨t, ht⟩ := Matcher.Find_some _ hinv method "posts" [v]
      { HTTPHandler := h2, segments := ["posts", ":id"], params := [("id", 1)] }
      (List.mem_cons_self _ _) (by simp [matchesPath, show isParam ":id" = true by decide])
    obtain ⟨hlog, hmatch, _⟩ := Matcher.Find_first _ hinv method ["posts", v] t true
      (by simp) ht
    simp only [List.mem_cons, Prod.mk.injEq, true_and, List.mem_nil_iff, or_false] at hlog
    rcases hlog with hlog | hlog
    · rw [ht, hlog]
    · exfalso
      rw [hlog] at hmatch
      simp only [matchesPath, hlit, Bool.false_or, Bool.and_eq_true, decide_eq_true_eq,
        Bool.or_eq_true, and_true] at hmatch
      exact hv hmatch.2.symm

/-- C27, on the literal route `-1` below `/posts` and then `/posts/:id`, under `GET`, looked
up with `-1` and with `99`. -/
theorem literal_then_parameter_witness :
    "GET" ∈ methods ∧ "-1" ≠ "" ∧ isParam "-1" = false ∧ '/' ∉ "-1".data ∧
    (stateAfter [("GET", routeOf "/posts/-1" 1), ("GET", routeOf "/posts/:id" 2)]).1.Find
      "GET" ["posts", "-1"] = some (some (routeOf "/posts/-1" 1), true) ∧
    (stateAfter [("GET", routeOf "/posts/-1" 1), ("GET", routeOf "/posts/:id" 2)]).1.Find
      "GET" ["posts", "99"] = some (some (routeOf "/posts/:id" 2), true) ∧
    New ("/posts/" ++ "-1") (some 1) =
      .ok { HTTPHandler := 1, segments := ["posts", "-1"], params := [] } :=
  ⟨by decide, by decide, by decide, by decide, by decide, by decide,
   (literal_then_parameter "GET" "-1" 1 2 (by decide) (by decide) (by decide)
    (by decide)).1⟩

/-! ## A request for a registered path -/

/-- C28: the request for a registered path with a final separator. The path `/a/` is
accepted by `New` with the one literal segment `a` and registered under `GET` without error
on a router that allows every scheme and hostname; the router derives the pieces `a` and the
empty string from the request path `/a/`, which differ from the segments of the template,
and `ServeHTTP` selects the not-found handler; the request path `/a` gets the handler. -/
theorem request_with_final_separator_not_found :
    New "/a/" (some 1) = .ok (routeOf "/a/" 1) ∧
    (routeOf "/a/" 1).Segments = ["a"] ∧
    (stateAfter [("GET", routeOf "/a/" 1)]).2 = [("GET", routeOf "/a/" 1)] ∧
    stringsSplit "a/".data = ["a", ""] ∧
    (routerWith ["*"] ["*"] [] [("/a/", 1)]).selectHandler (getRequest "/a/") =
      some (NotFoundHandler, []) ∧
    (routerWith ["*"] ["*"] [] [("/a/", 1)]).selectHandler (getRequest "/a") =
      some (1, []) := by
  decide

/-! ## Serving and the deferred internal-error handler -/

theorem router.ServeHTTP_default (r : router) (b : Behaviour) (req : Request) (w : Response)
    (hdef : r.internalservererror = InternalServerError) :
    r.ServeHTTP b req w =
      InternalServerError.ServeHTTP
        (match r.dispatch req with
          | none => Outcome.panicked w
          | some call => b.serve call.handler call.request w) := by
  unfold router.ServeHTTP
  simp only [hdef, if_true]

theorem httpError_body (w : Response) (error : String) (code : Nat) :
    (httpError w error code).body = w.body ++ [error ++ "\n"] := by
  unfold httpError Response.Write Response.WriteHeader
  cases w.status <;> rfl

theorem httpError_ne (w : Response) (error : String) (code : Nat) :
    httpError w error code ≠ w := by
  intro h
  have hb := congrArg (fun x => x.body.length) h
  simp only [httpError_body, List.length_append, List.length_singleton] at hb
  omega

theorem httpError_fresh_header (w : Response) (error : String) (code : Nat)
    (hs : w.status = none) :
    httpError w error code = { status := some code, body := w.body ++ [error ++ "\n"] } := by
  unfold httpError Response.Write Response.WriteHeader
  simp [hs]

/-- C21, as stated, fails: on a router with the default internal-error handler, the handler
of `/posts` writes `partial` and then panics; `ServeHTTP` returns, but the status of the
response is the 200 of the first write, not 500, and the body is `partial` followed by the
error text. -/
theorem panic_after_write_keeps_status :
    (routerWith ["*"] ["*"] [] [("/posts", 2)]).internalservererror = InternalServerError ∧
    (routerWith ["*"] ["*"] [] [("/posts", 2)]).selectHandler (getRequest "/posts") =
      some (2, []) ∧
    exampleBehaviour.serve 2 (getRequest "/posts") { status := none, body := [] } =
      .panicked { status := some 200, body := ["partial"] } ∧
    (routerWith ["*"] ["*"] [] [("/posts", 2)]).ServeHTTP exampleBehaviour
        (getRequest "/posts") { status := none, body := [] } =
      .returned { status := some 200, body := ["partial", "Internal Server Error\n"] } := by
  decide

/-- C21 as amended. Panic isolation: on a router with the default internal-error handler,
when the body of `ServeHTTP` panics, in `match` before the call or in the wrapped handler
chain, with `w1` written to the response writer by then, `ServeHTTP` returns and the
response is `w1` after `http.Error` with the status text of 500: the fixed internal-error
response with status 500 when nothing was written before the failure, and status 500 with
the error text after the body written so far when the header was not yet written. The
router is not assigned to, so the next request is served by the same router. -/
theorem panic_isolation (r : router) (b : Behaviour) (req : Request) (w w1 : Response)
    (hdef : r.internalservererror = InternalServerError)
    (hpanic : (r.dispatch req = none ∧ w1 = w) ∨
      ∃ call, r.dispatch req = some call ∧
        b.serve call.handler call.request w = .panicked w1) :
    r.ServeHTTP b req w = .returned (httpError w1 "Internal Server Error" 500) ∧
    (w1.status = none →
      r.ServeHTTP b req w =
        .returned { status := some 500, body := w1.body ++ ["Internal Server Error\n"] }) ∧
    (w1 = { status := none, body := [] } →
      r.ServeHTTP b req w =
        .returned { status := some 500, body := ["Internal Server Error\n"] }) ∧
    (∀ (req2 : Request) (w2 : Response),
      r.ServeHTTP b req2 w2 =
        InternalServerError.ServeHTTP
          (match r.dispatch req2 with
            | none => Outcome.panicked w2
            | some call => b.serve call.handler call.request w2)) := by
  have hres : r.ServeHTTP b req w = .returned (httpError w1 "Internal Server Error" 500) := by
    rw [router.ServeHTTP_default r b req w hdef]
    rcases hpanic with ⟨h1, h2⟩ | ⟨call, h1, h2⟩
    · rw [h1, h2]
      rfl
    · rw [h1]
      simp only
      rw [h2]
      rfl
  refine ⟨hres, ?_, ?_, ?_⟩
  · intro hs
    rw [hres, httpError_fresh_header w1 _ _ hs]
    rfl
  · intro hw
    rw [hres, hw]
    rfl
  · intro req2 w2
    exact router.ServeHTTP_default r b req2 w2 hdef

/-- C21 as amended, on a handler that panics at once. -/
theorem panic_isolation_witness :
    (routerWith ["*"] ["*"] [] [("/posts", 3)]).internalservererror = InternalServerError ∧
    (routerWith ["*"] ["*"] [] [("/posts", 3)]).ServeHTTP exampleBehaviour
        (getRequest "/posts") { status := none, body := [] } =
      .returned { status := some 500, body := ["Internal Server Error\n"] } :=
  ⟨rfl,
   (panic_isolation (routerWith ["*"] ["*"] [] [("/posts", 3)]) exampleBehaviour
    (getRequest "/posts") { status := none, body := [] } { status := none, body := [] } rfl
    (Or.inr ⟨{ handler := 3,
               request := { getRequest "/posts" with ctx := [(CtxParams, .params [])] } },
      by decide, by decide⟩)).2.2.1 rfl⟩

/-- C29. The default internal-error handler runs as the deferred call of `ServeHTTP` on
every request of a router that uses it. It changes the response exactly when a panic is in
flight, and then by `http.Error` with the status text of 500; when the handler chain
returns, it writes nothing and the response is what the chain wrote. -/
theorem internal_error_handler_writes_iff_panic (r : router) (b : Behaviour) (req : Request)
    (w : Response) (hdef : r.internalservererror = InternalServerError) :
    r.ServeHTTP b req w =
      InternalServerError.ServeHTTP
        (match r.dispatch req with
          | none => Outcome.panicked w
          | some call => b.serve call.handler call.request w) ∧
    (∀ out : Outcome,
      (InternalServerError.ServeHTTP out).response ≠ out.response ↔
        ∃ w1, out = .panicked w1) ∧
    (∀ w1 : Response,
      InternalServerError.ServeHTTP (.panicked w1) =
        .returned (httpError w1 "Internal Server Error" 500)) ∧
    (∀ (call : Call) (w1 : Response), r.dispatch req = some call →
      b.serve call.handler call.request w = .returned w1 →
        r.ServeHTTP b req w = .returned w1) := by
  refine ⟨router.ServeHTTP_default r b req w hdef, ?_, fun _ => rfl, ?_⟩
  · intro out
    cases out with
    | returned w1 =>
      simp [InternalServerError.ServeHTTP, Outcome.response]
    | panicked w1 =>
      simp only [InternalServerError.ServeHTTP, Outcome.response, ne_eq, Outcome.panicked.injEq,
        exists_eq', iff_true]
      exact httpError_ne w1 _ _
  · intro call w1 hcall hserve
    rw [router.ServeHTTP_default r b req w hdef, hcall]
    simp only
    rw [hserve]
    rfl

/-- C29, on a handler that writes `ok` and returns: the response has status 200 and the
body `ok`. -/
theorem internal_error_handler_writes_iff_panic_witness :
    (routerWith ["*"] ["*"] [] [("/posts", 1)]).internalservererror = InternalServerError ∧
    (routerWith ["*"] ["*"] [] [("/posts", 1)]).ServeHTTP exampleBehaviour
        (getRequest "/posts") { status := none, body := [] } =
      .returned { status := some 200, body := ["ok"] } :=
  ⟨rfl,
   (internal_error_handler_writes_iff_panic (routerWith ["*"] ["*"] [] [("/posts", 1)])
    exampleBehaviour (getRequest "/posts") { status := none, body := [] } rfl).2.2.2
    { handler := 1,
      request := { getRequest "/posts" with ctx := [(CtxParams, .params [])] } }
    { status := some 200, body := ["ok"] } (by decide) (by decide)⟩

/-! ## Parameter extraction after a match -/

/-- The log holds calls of the history only. -/
theorem registerAll_log_subset (calls : List (String × Handler)) :
    ∀ (st st1 : Matcher × List (String × Handler)) (c : String × Handler),
      registerAll st calls = some st1 → c ∈ st1.2 → c ∈ st.2 ∨ c ∈ calls := by
  induction calls with
  | nil =>
    intro st st1 c hrun hc
    simp only [registerAll, Option.some.injEq] at hrun
    rw [← hrun] at hc
    exact Or.inl hc
  | cons d cs ih =>
    intro st st1 c hrun hc
    simp only [registerAll] at hrun
    cases hstep : registerStep st d with
    | none => simp [hstep] at hrun
    | some st2 =>
      simp only [hstep] at hrun
      rcases ih st2 st1 c hrun hc with h | h
      · rcases registerStep_cases st st2 d hstep with ⟨h1, _⟩ | ⟨_, _, _, _, h1⟩
        · rw [h1] at h
          exact Or.inl h
        · rw [h1] at h
          rcases List.mem_cons.mp h with h2 | h2
          · right
            rw [h2]
            exact List.mem_cons_self _ _
          · exact Or.inl h2
      · exact Or.inr (List.mem_cons_of_mem _ h)

theorem mapGet_of_mem_nodup {α : Type} (l : List (String × α)) :
    (l.map Prod.fst).Nodup → ∀ (k : String) (v : α), (k, v) ∈ l → mapGet l k = some v := by
  induction l with
  | nil => intro _ k v h; cases h
  | cons e rest ih =>
    obtain ⟨k1, w⟩ := e
    intro hn k v hmem
    simp only [List.map_cons, List.nodup_cons] at hn
    simp only [mapGet]
    rcases List.mem_cons.mp hmem with h | h
    · simp only [Prod.mk.injEq] at h
      rw [h.1, h.2]
      simp
    · have hk : ¬ k1 = k := by
        intro he
        apply hn.1
        rw [he]
        exact List.mem_map.mpr ⟨(k, v), h, rfl⟩
      simp only [hk, if_false]
      exact ih hn.2 k v h

/-- `Params` is defined on every request at least as long as the segments of a template
whose parameter map agrees with its segments. -/
theorem Handler.Params_defined (t : Handler) (s : List String)
    (hok : ParamsOK t.segments t.params) (hlen : t.segments.length ≤ s.length) :
    (∀ (n : String) (i : Nat), mapGet t.params n = some i → i < s.length) ∧
    ∃ ps, t.Params s = some ps := by
  have hbound : ∀ (n : String) (i : Nat), mapGet t.params n = some i → i < s.length := by
    intro n i hget
    obtain ⟨⟨seg, hseg, _⟩, _⟩ := hok.sound n i hget
    rcases Nat.lt_or_ge i t.segments.length with h | h
    · omega
    · rw [List.getElem?_eq_none h] at hseg
      cases hseg
  refine ⟨hbound, ?_⟩
  obtain ⟨ps, hps, _⟩ := paramsLoop_spec s t.params hok.nodup
    (fun k i hmem => hbound k i (mapGet_of_mem_nodup t.params hok.nodup k i hmem)) []
  exact ⟨ps, hps⟩

/-- C30. In every matcher reached from a new one by registering templates built by `New`,
a handler bound at depth `d` of a tree has exactly `d` segments; so when `Find method s`
returns `(t, true)` for a non-empty `s`, the template has as many segments as `s`, every
position in its parameter map is smaller than the length of `s`, and `t.Params s` returns a
map without a panic. -/
theorem params_defined_after_match (calls : List (String × Handler))
    (st : Matcher × List (String × Handler)) (method : String) (s : List String) (t : Handler)
    (hrun : registerAll (Matcher.New, []) calls = some st)
    (hbuilt : ∀ c ∈ calls, ∃ (path : String) (h : Option HTTPHandler), New path h = .ok c.2)
    (hs : s ≠ []) (hfind : st.1.Find method s = some (some t, true)) :
    (∀ (method1 : String) (root : node) (q : List String) (h : Handler),
      mapGet st.1.nodes method1 = some root → root.handlerAt q = some h →
        h.Segments.length = q.length) ∧
    t.Segments.length = s.length ∧
    (∀ (n : String) (i : Nat), mapGet t.params n = some i → i < s.length) ∧
    ∃ ps, t.Params s = some ps := by
  have hinv := Inv_reachable calls st hrun
  obtain ⟨hlog, hmatch, _⟩ := Matcher.Find_first st hinv method s t true hs hfind
  have hlen : t.segments.length = s.length := ((matchesPath_iff t.segments s).mp hmatch).1
  have hcall : (method, t) ∈ calls := by
    rcases registerAll_log_subset calls _ _ _ hrun hlog with h | h
    · cases h
    · exact h
  obtain ⟨path, h, hnew⟩ := hbuilt (method, t) hcall
  have hok := New_ok path h t hnew
  obtain ⟨hb, hdef⟩ := Handler.Params_defined t s hok (Nat.le_of_eq hlen)
  refine ⟨?_, hlen, hb, hdef⟩
  intro method1 root q h1 hroot hq
  obtain ⟨hk, _⟩ := hinv.bound method1 root q h1 hroot hq
  rw [← hk]
  simp [keys, Handler.Segments]

/-- C30, on `/posts/:id/comments/:commentID` looked up with `posts/7/comments/9`. -/
theorem params_defined_after_match_witness :
    (stateAfter [("GET", routeOf "/posts" 1),
        ("GET", routeOf "/posts/:id/comments/:commentID" 2)]).1.Find "GET"
      ["posts", "7", "comments", "9"] =
        some (some (routeOf "/posts/:id/comments/:commentID" 2), true) ∧
    (routeOf "/posts/:id/comments/:commentID" 2).Params ["posts", "7", "comments", "9"] =
      some [("id", "7"), ("commentID", "9")] ∧
    (routeOf "/posts/:id/comments/:commentID" 2).Segments.length =
      ["posts", "7", "comments", "9"].length :=
  ⟨by decide, by decide,
   (params_defined_after_match
    [("GET", routeOf "/posts" 1), ("GET", routeOf "/posts/:id/comments/:commentID" 2)]
    (stateAfter [("GET", routeOf "/posts" 1),
      ("GET", routeOf "/posts/:id/comments/:commentID" 2)])
    "GET" ["posts", "7", "comments", "9"] (routeOf "/posts/:id/comments/:commentID" 2) rfl
    (by
      intro c hc
      simp only [List.mem_cons, List.mem_singleton, List.mem_nil_iff, or_false] at hc
      rcases hc with h | h
      · exact ⟨"/posts", some 1, by rw [h]; decide⟩
      · exact ⟨"/posts/:id/comments/:commentID", some 2, by rw [h]; decide⟩)
    (by decide) (by decide)).2.1⟩

end Compass
